import Mathlib

set_option maxHeartbeats 1000000

/-!
Shallow embedding of the Workflow-Builder mutation engine and history reducer.

Sources embedded here:
 - the domain model module (`NODE_TYPES`, `normalizeNode`, `createNode`,
   `createInitialWorkflow`, `getOutgoingChildId`, `setOutgoingChildId`);
 - the reducer module (`collectSubtreeIds`, `findSlotForChild`,
   `workflowReducer`, `workflowHistoryReducer`, `createInitialHistoryState`);
 - the `canUndo`/`canRedo` projections of the state hook.

Modelling conventions:
 - The JS object `workflow.nodes` is an association list with distinct keys in
   insertion order.  `{...m, [k]: v}` replaces the value at an existing key in
   place and appends a fresh key at the end (`mapSet`); `delete m[id]` removes
   the entry (`removeIds`).
 - A JS string-or-null value is an `Option String`; JS truthiness of such a
   value (`null` and `""` are falsy) is `truthyStr`.
 - `createId()` is nondeterministic at the source; it is modelled by passing
   the generated id explicitly (`newId` on insert, `sid` for the initial
   workflow).  A missing payload string field is modelled by `""` (falsy, like
   `undefined` under the source's `!x` checks).
 - The reducer returns its input object itself on every rejected request and a
   newly constructed object otherwise; `workflowReducerR` returns `none` on
   exactly the `return workflow` paths and `some w` on the constructing paths,
   which is a faithful model of the `===` reference comparison performed by
   `workflowHistoryReducer`.
 - The `while` loop of `collectSubtreeIds` is modelled by structural recursion
   on an explicit fuel which is large enough for the loop to drain its stack
   (proved below); the source loop always terminates for the same reason.
-/

/-- Node kinds (`NODE_TYPES`). -/
inductive NodeType
  | start
  | action
  | branch
  | «end»
deriving DecidableEq, Repr

/-- Branch exits: `t` models the `'true'` key, `f` the `'false'` key; `none`
models a null/absent entry. -/
structure BranchExits where
  t : Option String
  f : Option String
deriving DecidableEq, Repr

/-- A workflow node.  `exits` is `none` for non-branch nodes (the JS object
simply lacks the property). -/
structure Node where
  id : String
  type : NodeType
  label : String
  parentId : Option String
  children : List String
  exits : Option BranchExits
deriving DecidableEq, Repr

/-- The workflow aggregate: the id-keyed node store and the root id. -/
structure Workflow where
  nodes : List (String × Node)
  rootId : String
deriving DecidableEq, Repr

/-- JS `String.prototype.trim`: strip leading and trailing whitespace.
Written over the character list so that concrete instances reduce in the
kernel. -/
def jsTrim (s : String) : String :=
  ⟨((s.data.dropWhile Char.isWhitespace).reverse.dropWhile Char.isWhitespace).reverse⟩

/-- JS truthiness of a string-or-null value. -/
def truthyStr : Option String → Bool
  | none => false
  | some s => s != ""

/-- `[...].filter(Boolean)` over string-or-null entries. -/
def truthyList (l : List (Option String)) : List String :=
  l.filterMap (fun o => match o with
    | some s => if s = "" then none else some s
    | none => none)

/-- JS `a || b` over string-or-null values. -/
def jsOrStr (a b : Option String) : Option String :=
  if truthyStr a then a else b

/-- JS spread update `{...m, [k]: v}`. -/
def mapSet (m : List (String × Node)) (k : String) (v : Node) : List (String × Node) :=
  if m.any (fun p => p.1 == k) then
    m.map (fun p => if p.1 = k then (k, v) else p)
  else m ++ [(k, v)]

/-- JS `delete m[id]` for every id in `ids`. -/
def removeIds (m : List (String × Node)) (ids : List String) : List (String × Node) :=
  m.filter (fun p => !(ids.contains p.1))

/-- JS property lookup `m[id]` on a node store. -/
def assocFind (m : List (String × Node)) (id : String) : Option Node :=
  (m.find? (fun p => p.1 == id)).map (fun p => p.2)

/-- JS property lookup `workflow.nodes[id]`. -/
def Workflow.find (wf : Workflow) (id : String) : Option Node :=
  assocFind wf.nodes id

/-- The keys of the node store. -/
def wfKeys (wf : Workflow) : List String := wf.nodes.map (fun p => p.1)

/-- `defaultLabelForType`. -/
def defaultLabelForType : NodeType → String
  | .start => "Start"
  | .action => "Action"
  | .branch => "Branch"
  | .«end» => "End"

/-- JS `node.exits?.true ?? null`. -/
def exitsTrue (n : Node) : Option String := n.exits.bind (fun ex => ex.t)

/-- JS `node.exits?.false ?? null`. -/
def exitsFalse (n : Node) : Option String := n.exits.bind (fun ex => ex.f)

/-- `normalizeNode`: keep `children` in sync with `exits` for branch nodes;
truncate `children` to at most one entry for the rest. -/
def normalizeNode (node : Node) : Node :=
  if node.type ≠ NodeType.branch then
    { node with children := node.children.take 1 }
  else
    { node with
        exits := some ⟨exitsTrue node, exitsFalse node⟩
        children := truthyList [exitsTrue node, exitsFalse node] }

/-- `createNode` with the generated id passed explicitly. -/
def createNode (id : String) (type : NodeType) (parentId : Option String)
    (label : Option String) : Node :=
  normalizeNode
    { id := id
      type := type
      label := label.getD (defaultLabelForType type)
      parentId := parentId
      children := []
      exits := if type = NodeType.branch then some ⟨none, none⟩ else none }

/-- `createInitialWorkflow` with the generated start id passed explicitly. -/
def createInitialWorkflow (sid : String) : Workflow :=
  let start := createNode sid NodeType.start none (some "Start")
  { nodes := [(start.id, start)], rootId := start.id }

/-- A connection slot: `none` for single-successor kinds, `some true` for the
`'true'` exit and `some false` for the `'false'` exit of a branch. -/
abbrev ConnectionSlot := Option Bool

/-- `getOutgoingChildId`. -/
def getOutgoingChildId (node : Node) (slot : ConnectionSlot) : Option String :=
  if node.type ≠ NodeType.branch then node.children.head?
  else if slot.getD true then exitsTrue node else exitsFalse node

/-- `setOutgoingChildId`. -/
def setOutgoingChildId (node : Node) (slot : ConnectionSlot) (childId : Option String) : Node :=
  if node.type ≠ NodeType.branch then
    normalizeNode { node with children := if truthyStr childId then [childId.getD ""] else [] }
  else if slot.getD true then
    normalizeNode { node with exits := some ⟨childId, exitsFalse node⟩ }
  else
    normalizeNode { node with exits := some ⟨exitsTrue node, childId⟩ }

/-- The dispatched requests (`ACTIONS` plus payloads).  `newId` stands for the
`createId()` call made by the ADD_NODE handler; `other` covers every action
type outside the reducer's switch. -/
inductive WfAction
  | addNode (parentId : String) (slot : ConnectionSlot) (nodeType : Option NodeType)
      (label : Option String) (newId : String)
  | updateNodeLabel (nodeId : String) (label : Option String)
  | deleteNode (nodeId : String)
  | undo
  | redo
  | other
deriving DecidableEq, Repr

/-- Fuel sufficient for the `collectSubtreeIds` worklist loop to drain its
stack: one unit per initial stack entry plus `1 + children.length` per node. -/
def collectFuel (wf : Workflow) : Nat :=
  1 + (wf.nodes.map (fun p => 1 + p.2.children.length)).sum

/-- The body of the `collectSubtreeIds` while loop.  The JS stack pops from the
end; here the list head is the top of the stack, so pushing the children of a
node in order is modelled by prepending their reversal. -/
def collectAux (wf : Workflow) : Nat → List String → List String → List String
  | 0, visited, _ => visited
  | _ + 1, visited, [] => visited
  | fuel + 1, visited, id :: stack =>
    if id = "" ∨ id ∈ visited then collectAux wf fuel visited stack
    else
      match wf.find id with
      | none => collectAux wf fuel (visited ++ [id]) stack
      | some node => collectAux wf fuel (visited ++ [id]) (node.children.reverse ++ stack)

/-- `collectSubtreeIds`. -/
def collectSubtreeIds (wf : Workflow) (rootId : String) : List String :=
  collectAux wf (collectFuel wf) [] [rootId]

/-- `findSlotForChild`: which slot in `parent` points at `childId`. -/
def findSlotForChild (parent : Node) (childId : String) : ConnectionSlot :=
  if parent.type = NodeType.branch then
    if exitsTrue parent = some childId then some true
    else if exitsFalse parent = some childId then some false
    else some true
  else none

/-- `preferredReconnectChildId` of the DELETE_NODE handler
(`node.exits?.true || node.exits?.false || null` for branch nodes,
`node.children[0] ?? null` otherwise). -/
def preferredReconnectChildId (node : Node) : Option String :=
  if node.type = NodeType.branch then
    jsOrStr (exitsTrue node) (jsOrStr (exitsFalse node) none)
  else node.children.head?

/-- `orphanRoots` of the DELETE_NODE handler. -/
def orphanRoots (node : Node) : List String :=
  if node.type = NodeType.branch then
    (if preferredReconnectChildId node = exitsTrue node ∧ truthyStr (exitsFalse node) then
        [(exitsFalse node).getD ""] else []) ++
    (if preferredReconnectChildId node = exitsFalse node ∧ truthyStr (exitsTrue node) then
        [(exitsTrue node).getD ""] else [])
  else []

/-- `idsToDelete` of the DELETE_NODE handler (as a list; only membership is
consumed downstream, matching the JS `Set`). -/
def idsToDelete (wf : Workflow) (nodeId : String) (node : Node) : List String :=
  nodeId :: (orphanRoots node).flatMap (fun r => collectSubtreeIds wf r)

/-- The `insertedUpdated` computation of the ADD_NODE handler: preserve the
existing chain by attaching it to the inserted node. -/
def insertedUpdatedOf (parent : Node) (slot : ConnectionSlot) (inserted : Node) : Node :=
  if truthyStr (getOutgoingChildId parent slot) then
    if inserted.type = NodeType.branch then
      setOutgoingChildId inserted (some true) (getOutgoingChildId parent slot)
    else if inserted.type ≠ NodeType.«end» then
      setOutgoingChildId inserted none (getOutgoingChildId parent slot)
    else inserted
  else inserted

/-- The re-parenting block shared by the ADD_NODE and DELETE_NODE handlers:
`if (cid) { const child = m[cid]; if (child) m[cid] = {...child, parentId} }`. -/
def reparentIn (m : List (String × Node)) (childId : Option String)
    (newParent : String) : List (String × Node) :=
  if truthyStr childId then
    match assocFind m (childId.getD "") with
    | some child => mapSet m (childId.getD "") { child with parentId := some newParent }
    | none => m
  else m

/-- `workflowReducer`.  `none` models the `return workflow` (reference
preserving) paths, `some w` the paths constructing a new object of value `w`. -/
def workflowReducerR (wf : Workflow) (action : WfAction) : Option Workflow :=
  match action with
  | .addNode parentId slot nodeType label newId =>
    if parentId = "" then none
    else match nodeType with
    | none => none
    | some newType =>
      match wf.find parentId with
      | none => none
      | some parent =>
        if parent.type = NodeType.«end» then none
        else
          let existingChildId := getOutgoingChildId parent slot
          let insertedUpdated :=
            insertedUpdatedOf parent slot (createNode newId newType (some parentId) label)
          let updatedParent := setOutgoingChildId parent slot (some insertedUpdated.id)
          let nextNodes := mapSet (mapSet wf.nodes updatedParent.id updatedParent)
              insertedUpdated.id insertedUpdated
          some { wf with nodes := reparentIn nextNodes existingChildId insertedUpdated.id }
  | .updateNodeLabel nodeId label =>
    let lbl := jsTrim (label.getD "")
    if nodeId = "" then none
    else match wf.find nodeId with
    | none => none
    | some node =>
      let relabeled := { node with label := if lbl.length ≠ 0 then lbl else node.label }
      some { wf with nodes := mapSet wf.nodes nodeId relabeled }
  | .deleteNode nodeId =>
    if nodeId = "" then none
    else match wf.find nodeId with
    | none => none
    | some node =>
      if nodeId = wf.rootId ∨ node.type = NodeType.start then none
      else if truthyStr node.parentId then
        match wf.find (node.parentId.getD "") with
        | none => none
        | some parent =>
          let parentSlot := findSlotForChild parent nodeId
          let preferred := preferredReconnectChildId node
          let updatedParent := setOutgoingChildId parent parentSlot preferred
          let nextNodes := mapSet wf.nodes updatedParent.id updatedParent
          let nodes2 := reparentIn nextNodes preferred updatedParent.id
          some { wf with nodes := removeIds nodes2 (idsToDelete wf nodeId node) }
      else none
  | _ => none

/-- The value computed by `workflowReducer` (identical to the input on every
rejected request). -/
def workflowReducer (wf : Workflow) (action : WfAction) : Workflow :=
  (workflowReducerR wf action).getD wf

/-- `HistoryState`. -/
structure HistoryState where
  past : List Workflow
  present : Workflow
  future : List Workflow
deriving DecidableEq, Repr

/-- `createInitialHistoryState` with the generated start id passed explicitly. -/
def createInitialHistoryState (sid : String) : HistoryState :=
  { past := [], present := createInitialWorkflow sid, future := [] }

/-- Whether an action is one of the three engine edits. -/
def WfAction.isEdit : WfAction → Bool
  | .addNode .. => true
  | .updateNodeLabel .. => true
  | .deleteNode .. => true
  | _ => false

/-- `workflowHistoryReducer`. -/
def workflowHistoryReducer (state : HistoryState) (action : WfAction) : HistoryState :=
  match action with
  | .undo =>
    match state.past.getLast? with
    | none => state
    | some previous =>
      { past := state.past.dropLast
        present := previous
        future := state.present :: state.future }
  | .redo =>
    match state.future with
    | [] => state
    | next :: rest =>
      { past := state.past ++ [state.present], present := next, future := rest }
  | .addNode .. | .deleteNode .. | .updateNodeLabel .. =>
    match workflowReducerR state.present action with
    | none => state
    | some nextPresent =>
      { past := state.past ++ [state.present], present := nextPresent, future := [] }
  | .other => state

/-- `canUndo` of the state hook. -/
def canUndo (s : HistoryState) : Bool := decide (0 < s.past.length)

/-- `canRedo` of the state hook. -/
def canRedo (s : HistoryState) : Bool := decide (0 < s.future.length)

/-- Apply a sequence of requests to a workflow through the engine. -/
def applyActions (wf : Workflow) : List WfAction → Workflow
  | [] => wf
  | a :: rest => applyActions (workflowReducer wf a) rest

/-- Reachability from `a` by following `children` through nodes present in the
map, skipping falsy (empty) ids exactly as `collectSubtreeIds` does. -/
inductive Visits (wf : Workflow) (a : String) : String → Prop
  | self : a ≠ "" → Visits wf a a
  | step {b c : String} {nb : Node} : Visits wf a b → wf.find b = some nb →
      c ∈ nb.children → c ≠ "" → Visits wf a c

/-! ### Basic lemmas about the store operations -/

lemma truthyStr_true_iff {o : Option String} :
    truthyStr o = true ↔ ∃ s, o = some s ∧ s ≠ "" := by
  cases o with
  | none => simp [truthyStr]
  | some s => simp [truthyStr, bne_iff_ne]

lemma truthyStr_false_iff {o : Option String} :
    truthyStr o = false ↔ o = none ∨ o = some "" := by
  cases o with
  | none => simp [truthyStr]
  | some s => simp [truthyStr, bne_eq_false_iff_eq]

lemma find?_map_keyUpdate (m : List (String × Node)) (k : String) (v : Node) :
    List.find? (fun p => p.1 == k) (m.map (fun p => if p.1 = k then (k, v) else p)) =
      if m.any (fun p => p.1 == k) then some (k, v) else none := by
  induction m with
  | nil => simp
  | cons a t ih =>
    by_cases hak : a.1 = k
    · simp only [List.map_cons, if_pos hak, List.any_cons]
      rw [List.find?_cons_of_pos _ (by simp)]
      simp [hak]
    · have hb : (a.1 == k) = false := by simpa using hak
      simp only [List.map_cons, if_neg hak, List.any_cons, hb, Bool.false_or]
      rw [List.find?_cons_of_neg _ (by simp [hb]), ih]

lemma find?_map_keyUpdate_ne (m : List (String × Node)) (k : String) (v : Node)
    (x : String) (hx : x ≠ k) :
    List.find? (fun p => p.1 == x) (m.map (fun p => if p.1 = k then (k, v) else p)) =
      List.find? (fun p => p.1 == x) m := by
  induction m with
  | nil => rfl
  | cons a t ih =>
    by_cases hak : a.1 = k
    · have h1 : (k == x) = false := by
        simp only [beq_eq_false_iff_ne, ne_eq]
        exact fun h => hx h.symm
      have h2 : (a.1 == x) = false := by rw [hak]; exact h1
      simp only [List.map_cons, if_pos hak]
      rw [List.find?_cons_of_neg _ (by simp [h1]),
        List.find?_cons_of_neg _ (by simp [h2])]
      exact ih
    · simp only [List.map_cons, if_neg hak]
      by_cases hax : a.1 = x
      · rw [List.find?_cons_of_pos _ (by simpa using hax),
          List.find?_cons_of_pos _ (by simpa using hax)]
      · rw [List.find?_cons_of_neg _ (by simpa using hax),
          List.find?_cons_of_neg _ (by simpa using hax)]
        exact ih

lemma assocFind_mapSet (m : List (String × Node)) (k : String) (v : Node) (x : String) :
    assocFind (mapSet m k v) x = if x = k then some v else assocFind m x := by
  unfold assocFind mapSet
  by_cases hxk : x = k
  · subst hxk
    rw [if_pos rfl]
    split
    next h =>
      rw [find?_map_keyUpdate, if_pos h]
      rfl
    next h =>
      rw [List.find?_append]
      have hnone : m.find? (fun p => p.1 == x) = none := by
        rw [List.find?_eq_none]
        intro p hp hcontra
        exact h (List.any_eq_true.mpr ⟨p, hp, hcontra⟩)
      rw [hnone]
      rw [List.find?_cons_of_pos _ (by simp)]
      rfl
  · rw [if_neg hxk]
    split
    · rw [find?_map_keyUpdate_ne m k v x hxk]
    · rw [List.find?_append]
      cases hm : m.find? (fun p => p.1 == x) with
      | some p => rfl
      | none =>
        have hkx : (k == x) = false := by
          simp only [beq_eq_false_iff_ne, ne_eq]
          exact fun h => hxk h.symm
        rw [List.find?_cons_of_neg _ (by simp [hkx])]
        rfl

lemma any_key_iff (m : List (String × Node)) (k : String) :
    m.any (fun p => p.1 == k) = true ↔ k ∈ m.map (fun p => p.1) := by
  rw [List.any_eq_true, List.mem_map]
  constructor
  · rintro ⟨p, hp, he⟩
    exact ⟨p, hp, by simpa using he⟩
  · rintro ⟨p, hp, he⟩
    exact ⟨p, hp, by simpa using he⟩

lemma keys_mapSet (m : List (String × Node)) (k : String) (v : Node) :
    (mapSet m k v).map (fun p => p.1) =
      if m.any (fun p => p.1 == k) then m.map (fun p => p.1)
      else m.map (fun p => p.1) ++ [k] := by
  unfold mapSet
  split
  next h =>
    rw [List.map_map]
    apply List.map_congr_left
    intro p _
    by_cases hp : p.1 = k <;> simp [hp]
  next h =>
    simp

lemma mem_keys_mapSet (m : List (String × Node)) (k : String) (v : Node) (x : String) :
    x ∈ (mapSet m k v).map (fun p => p.1) ↔ x ∈ m.map (fun p => p.1) ∨ x = k := by
  rw [keys_mapSet]
  split
  next h =>
    rw [any_key_iff] at h
    constructor
    · exact Or.inl
    · rintro (hx | rfl)
      · exact hx
      · exact h
  · simp

lemma nodup_keys_mapSet (m : List (String × Node)) (k : String) (v : Node)
    (h : (m.map (fun p => p.1)).Nodup) : ((mapSet m k v).map (fun p => p.1)).Nodup := by
  rw [keys_mapSet]
  split
  next => exact h
  next hany =>
    rw [List.nodup_append]
    refine ⟨h, List.nodup_singleton k, ?_⟩
    intro x hx hxk
    simp only [List.mem_singleton] at hxk
    subst hxk
    exact hany ((any_key_iff m x).mpr hx)

lemma contains_true_of_mem {l : List String} {x : String} (h : x ∈ l) :
    l.contains x = true := List.elem_iff.mpr h

lemma contains_false_of_not_mem {l : List String} {x : String} (h : x ∉ l) :
    l.contains x = false := by
  rw [← Bool.not_eq_true]
  exact fun hc => h (List.elem_iff.mp hc)

lemma assocFind_removeIds (m : List (String × Node)) (ids : List String) (x : String) :
    assocFind (removeIds m ids) x = if x ∈ ids then none else assocFind m x := by
  induction m with
  | nil =>
    simp only [removeIds, List.filter_nil, assocFind, List.find?_nil, Option.map_none']
    split <;> rfl
  | cons a t ih =>
    simp only [removeIds, List.filter_cons] at ih ⊢
    by_cases hmem : a.1 ∈ ids
    · rw [contains_true_of_mem hmem]
      simp only [Bool.not_true, Bool.false_eq_true, if_false]
      rw [ih]
      by_cases hx : x ∈ ids
      · simp [hx]
      · rw [if_neg hx, if_neg hx]
        have hax : a.1 ≠ x := fun h => hx (h ▸ hmem)
        simp only [assocFind]
        rw [List.find?_cons_of_neg _ (by simpa using hax)]
    · rw [contains_false_of_not_mem hmem]
      simp only [Bool.not_false, if_true]
      by_cases hax : a.1 = x
      · have hx : x ∉ ids := hax ▸ hmem
        rw [if_neg hx]
        simp only [assocFind]
        rw [List.find?_cons_of_pos _ (by simpa using hax),
          List.find?_cons_of_pos _ (by simpa using hax)]
      · simp only [assocFind]
        rw [List.find?_cons_of_neg _ (by simpa using hax),
          List.find?_cons_of_neg _ (by simpa using hax)]
        exact ih

lemma keys_removeIds (m : List (String × Node)) (ids : List String) :
    (removeIds m ids).map (fun p => p.1) =
      (m.map (fun p => p.1)).filter (fun k => !(ids.contains k)) := by
  unfold removeIds
  induction m with
  | nil => rfl
  | cons a t ih =>
    by_cases hmem : a.1 ∈ ids
    · simp only [List.filter_cons, List.map_cons, contains_true_of_mem hmem,
        Bool.not_true, Bool.false_eq_true, if_false]
      exact ih
    · simp only [List.filter_cons, List.map_cons, contains_false_of_not_mem hmem,
        Bool.not_false, if_true, List.map_cons]
      rw [ih]

lemma mem_keys_removeIds (m : List (String × Node)) (ids : List String) (x : String) :
    x ∈ (removeIds m ids).map (fun p => p.1) ↔
      x ∈ m.map (fun p => p.1) ∧ x ∉ ids := by
  rw [keys_removeIds, List.mem_filter]
  constructor
  · rintro ⟨h1, h2⟩
    refine ⟨h1, fun hx => ?_⟩
    rw [contains_true_of_mem hx] at h2
    simp at h2
  · rintro ⟨h1, h2⟩
    exact ⟨h1, by rw [contains_false_of_not_mem h2]; rfl⟩

lemma nodup_keys_removeIds (m : List (String × Node)) (ids : List String)
    (h : (m.map (fun p => p.1)).Nodup) : ((removeIds m ids).map (fun p => p.1)).Nodup := by
  rw [keys_removeIds]
  exact h.filter _

lemma assocFind_eq_some_mem {m : List (String × Node)} {x : String} {n : Node}
    (h : assocFind m x = some n) : (x, n) ∈ m := by
  unfold assocFind at h
  rw [Option.map_eq_some'] at h
  obtain ⟨p, hp, he⟩ := h
  have h1 := List.find?_some hp
  have h2 := List.mem_of_find?_eq_some hp
  have hp1 : p.1 = x := by simpa using h1
  have hpe : p = (x, n) := by
    cases p
    simp_all
  exact hpe ▸ h2

lemma assocFind_eq_none_iff {m : List (String × Node)} {x : String} :
    assocFind m x = none ↔ x ∉ m.map (fun p => p.1) := by
  unfold assocFind
  rw [Option.map_eq_none', List.find?_eq_none]
  constructor
  · intro h hx
    rcases List.mem_map.mp hx with ⟨p, hp, he⟩
    exact h p hp (by simpa using he)
  · intro h p hp he
    exact h (List.mem_map.mpr ⟨p, hp, by simpa using he⟩)

lemma assocFind_isSome_iff {m : List (String × Node)} {x : String} :
    (assocFind m x).isSome = true ↔ x ∈ m.map (fun p => p.1) := by
  cases h : assocFind m x with
  | none =>
    simp only [Option.isSome_none, Bool.false_eq_true, false_iff]
    exact assocFind_eq_none_iff.mp h
  | some n =>
    simp only [Option.isSome_some, true_iff]
    by_contra hx
    rw [← assocFind_eq_none_iff] at hx
    rw [h] at hx
    exact Option.some_ne_none n hx

lemma mem_nodup_assocFind {m : List (String × Node)} {x : String} {n : Node}
    (hnd : (m.map (fun p => p.1)).Nodup) (h : (x, n) ∈ m) : assocFind m x = some n := by
  induction m with
  | nil => simp at h
  | cons a t ih =>
    rw [List.map_cons, List.nodup_cons] at hnd
    rcases List.mem_cons.mp h with rfl | hmem
    · unfold assocFind
      rw [List.find?_cons_of_pos _ (by simp)]
      rfl
    · have hax : a.1 ≠ x := by
        intro he
        exact hnd.1 (he ▸ List.mem_map.mpr ⟨(x, n), hmem, rfl⟩)
      unfold assocFind at ih ⊢
      rw [List.find?_cons_of_neg _ (by simpa using hax)]
      exact ih hnd.2 hmem

/-! ### History-level lemmas and claims -/

lemma dropLast_append_of_getLast? {α : Type} {l : List α} {a : α}
    (h : l.getLast? = some a) : l.dropLast ++ [a] = l := by
  induction l with
  | nil => simp at h
  | cons x xs ih =>
    cases xs with
    | nil =>
      simp only [List.getLast?_singleton, Option.some.injEq] at h
      simp [h]
    | cons y ys =>
      rw [List.getLast?_cons_cons] at h
      have := ih h
      simp only [List.dropLast_cons₂, List.cons_append, this]

/-- The full snapshot sequence held by a history state, in order. -/
def historySnapshots (s : HistoryState) : List Workflow :=
  s.past ++ [s.present] ++ s.future

/-- C10: Undo and Redo preserve the snapshot sequence `past ++ [present] ++
future` — they only move the cursor, never creating, dropping, modifying, or
reordering any snapshot. -/
theorem claim_C10 (s : HistoryState) :
    historySnapshots (workflowHistoryReducer s WfAction.undo) = historySnapshots s ∧
    historySnapshots (workflowHistoryReducer s WfAction.redo) = historySnapshots s := by
  constructor
  · show historySnapshots (match s.past.getLast? with
      | none => s
      | some previous =>
        { past := s.past.dropLast
          present := previous
          future := s.present :: s.future }) = historySnapshots s
    cases h : s.past.getLast? with
    | none => rfl
    | some prev =>
      unfold historySnapshots
      simp only
      rw [← dropLast_append_of_getLast? h]
      simp
  · show historySnapshots (match s.future with
      | [] => s
      | next :: rest =>
        { past := s.past ++ [s.present], present := next, future := rest }) =
      historySnapshots s
    cases h : s.future with
    | nil => rfl
    | cons next rest =>
      unfold historySnapshots
      simp [h]

/-- C5: an accepted edit followed by Undo restores the previous `present`
(popping the just-pushed snapshot and prepending the superseded result to
`future`); Redo after that Undo restores the edited state exactly.  Undo pops
the last `past` snapshot and prepends the superseded `present` to `future`,
Redo is symmetric, and each is a no-op when its stack is empty. -/
theorem claim_C5 (s : HistoryState) (a : WfAction) (w : Workflow)
    (hedit : a.isEdit = true) :
    (workflowReducerR s.present a = some w →
      workflowHistoryReducer (workflowHistoryReducer s a) WfAction.undo =
        ⟨s.past, s.present, [w]⟩ ∧
      (workflowHistoryReducer (workflowHistoryReducer s a) WfAction.undo).present =
        s.present ∧
      workflowHistoryReducer
          (workflowHistoryReducer (workflowHistoryReducer s a) WfAction.undo)
          WfAction.redo = workflowHistoryReducer s a) ∧
    (∀ ps l, s.past = ps ++ [l] →
      workflowHistoryReducer s WfAction.undo = ⟨ps, l, s.present :: s.future⟩) ∧
    (∀ n rest, s.future = n :: rest →
      workflowHistoryReducer s WfAction.redo = ⟨s.past ++ [s.present], n, rest⟩) ∧
    (s.past = [] → workflowHistoryReducer s WfAction.undo = s) ∧
    (s.future = [] → workflowHistoryReducer s WfAction.redo = s) := by
  refine ⟨?_, ?_, ?_, ?_, ?_⟩
  · intro hR
    have h1 : workflowHistoryReducer s a = ⟨s.past ++ [s.present], w, []⟩ := by
      cases a with
      | addNode p sl ty lb ni => show (match workflowReducerR s.present _ with
          | none => s
          | some nextPresent => _) = _
                                 rw [hR]
      | updateNodeLabel ni lb => show (match workflowReducerR s.present _ with
          | none => s
          | some nextPresent => _) = _
                                 rw [hR]
      | deleteNode ni => show (match workflowReducerR s.present _ with
          | none => s
          | some nextPresent => _) = _
                         rw [hR]
      | undo => simp [WfAction.isEdit] at hedit
      | redo => simp [WfAction.isEdit] at hedit
      | other => simp [WfAction.isEdit] at hedit
    have h2 : workflowHistoryReducer (workflowHistoryReducer s a) WfAction.undo =
        ⟨s.past, s.present, [w]⟩ := by
      rw [h1]
      show (match (s.past ++ [s.present]).getLast? with
        | none => (⟨s.past ++ [s.present], w, []⟩ : HistoryState)
        | some previous => ⟨(s.past ++ [s.present]).dropLast, previous, [w]⟩) = _
      rw [List.getLast?_concat, List.dropLast_concat]
    refine ⟨h2, by rw [h2], ?_⟩
    rw [h2, h1]
    rfl
  · intro ps l hp
    show (match s.past.getLast? with
      | none => s
      | some previous =>
        { past := s.past.dropLast
          present := previous
          future := s.present :: s.future }) = _
    rw [hp, List.getLast?_concat, List.dropLast_concat]
  · intro n rest hf
    show (match s.future with
      | [] => s
      | next :: rest => ⟨s.past ++ [s.present], next, rest⟩) = _
    rw [hf]
  · intro hp
    show (match s.past.getLast? with
      | none => s
      | some previous =>
        { past := s.past.dropLast
          present := previous
          future := s.present :: s.future }) = s
    rw [hp]
    rfl
  · intro hf
    show (match s.future with
      | [] => s
      | next :: rest => ⟨s.past ++ [s.present], next, rest⟩) = s
    rw [hf]

/-- C4: the history wrapper leaves the state untouched exactly when the engine
returns the `present` reference itself; otherwise it pushes the old `present`
onto `past`, installs the result, and clears `future` — hence after an Undo
followed by any accepted fresh edit, `canRedo` is false. -/
theorem claim_C4 (s : HistoryState) (a : WfAction) (hedit : a.isEdit = true) :
    (workflowReducerR s.present a = none → workflowHistoryReducer s a = s) ∧
    (∀ w, workflowReducerR s.present a = some w →
      workflowHistoryReducer s a = ⟨s.past ++ [s.present], w, []⟩) ∧
    (∀ w, workflowReducerR (workflowHistoryReducer s WfAction.undo).present a = some w →
      canRedo (workflowHistoryReducer (workflowHistoryReducer s WfAction.undo) a) = false) := by
  have key : ∀ (t : HistoryState),
      (workflowReducerR t.present a = none → workflowHistoryReducer t a = t) ∧
      (∀ w, workflowReducerR t.present a = some w →
        workflowHistoryReducer t a = ⟨t.past ++ [t.present], w, []⟩) := by
    intro t
    cases a with
    | addNode p sl ty lb ni =>
      constructor
      · intro hR
        show (match workflowReducerR t.present _ with
          | none => t
          | some nextPresent => _) = t
        rw [hR]
      · intro w hR
        show (match workflowReducerR t.present _ with
          | none => t
          | some nextPresent =>
            ⟨t.past ++ [t.present], nextPresent, []⟩) = _
        rw [hR]
    | updateNodeLabel ni lb =>
      constructor
      · intro hR
        show (match workflowReducerR t.present _ with
          | none => t
          | some nextPresent => _) = t
        rw [hR]
      · intro w hR
        show (match workflowReducerR t.present _ with
          | none => t
          | some nextPresent =>
            ⟨t.past ++ [t.present], nextPresent, []⟩) = _
        rw [hR]
    | deleteNode ni =>
      constructor
      · intro hR
        show (match workflowReducerR t.present _ with
          | none => t
          | some nextPresent => _) = t
        rw [hR]
      · intro w hR
        show (match workflowReducerR t.present _ with
          | none => t
          | some nextPresent =>
            ⟨t.past ++ [t.present], nextPresent, []⟩) = _
        rw [hR]
    | undo => simp [WfAction.isEdit] at hedit
    | redo => simp [WfAction.isEdit] at hedit
    | other => simp [WfAction.isEdit] at hedit
  refine ⟨(key s).1, (key s).2, ?_⟩
  intro w hR
  rw [(key _).2 w hR]
  rfl

/-! ### Claims C9 and C2 -/

/-- C9: Insert with an unknown `parentId` or an `end`-kind parent rejects the
request on the reference-preserving path (`workflowReducerR … = none`, the JS
`return workflow`), so the value is unchanged as well; the reducer is a total
function, so it never throws. -/
theorem claim_C9 (wf : Workflow) (parentId : String) (slot : ConnectionSlot)
    (ty : Option NodeType) (label : Option String) (newId : String)
    (h : wf.find parentId = none ∨
      (∃ p, wf.find parentId = some p ∧ p.type = NodeType.«end»)) :
    workflowReducerR wf (WfAction.addNode parentId slot ty label newId) = none ∧
    workflowReducer wf (WfAction.addNode parentId slot ty label newId) = wf := by
  have hR : workflowReducerR wf (WfAction.addNode parentId slot ty label newId) = none := by
    show (if parentId = "" then none else _) = none
    by_cases hp : parentId = ""
    · rw [if_pos hp]
    · rw [if_neg hp]
      cases ty with
      | none => rfl
      | some newType =>
        show (match wf.find parentId with
          | none => none
          | some parent => if parent.type = NodeType.«end» then none else _) = none
        rcases h with hnone | ⟨p, hfind, hend⟩
        · rw [hnone]
        · rw [hfind]
          simp only [hend, if_pos]
  exact ⟨hR, by unfold workflowReducer; rw [hR]; rfl⟩

/-- C9 witness: concrete rejected inserts (unknown parent; `end` parent). -/
theorem claim_C9_witness :
    ((createInitialWorkflow "s").find "zzz" = none ∨
      (∃ p, (createInitialWorkflow "s").find "zzz" = some p ∧
        p.type = NodeType.«end»)) ∧
    workflowReducerR (createInitialWorkflow "s")
      (WfAction.addNode "zzz" none (some NodeType.action) none "a") = none ∧
    workflowReducer (createInitialWorkflow "s")
      (WfAction.addNode "zzz" none (some NodeType.action) none "a") =
      createInitialWorkflow "s" := by
  refine ⟨Or.inl (by decide), ?_⟩
  exact claim_C9 (createInitialWorkflow "s") "zzz" none (some NodeType.action) none "a"
    (Or.inl (by decide))

/-- C4 witness: a concrete accepted insert on the initial history state. -/
theorem claim_C4_witness :
    (WfAction.addNode "s" none (some NodeType.action) none "a").isEdit = true ∧
    (workflowReducerR (createInitialHistoryState "s").present
        (WfAction.addNode "s" none (some NodeType.action) none "a") = none →
      workflowHistoryReducer (createInitialHistoryState "s")
        (WfAction.addNode "s" none (some NodeType.action) none "a") =
        createInitialHistoryState "s") := by
  refine ⟨by decide, ?_⟩
  exact (claim_C4 (createInitialHistoryState "s")
    (WfAction.addNode "s" none (some NodeType.action) none "a") (by decide)).1

/-- C5 witness: a concrete accepted edit, undone and redone. -/
theorem claim_C5_witness :
    (WfAction.addNode "s" none (some NodeType.action) none "a").isEdit = true ∧
    ((createInitialHistoryState "s").past = [] →
      workflowHistoryReducer (createInitialHistoryState "s") WfAction.undo =
        createInitialHistoryState "s") := by
  refine ⟨by decide, ?_⟩
  exact ((claim_C5 (createInitialHistoryState "s")
    (WfAction.addNode "s" none (some NodeType.action) none "a")
    (workflowReducer (createInitialWorkflow "s")
      (WfAction.addNode "s" none (some NodeType.action) none "a"))
    (by decide)).2.2.2).1

lemma mapSet_self {m : List (String × Node)} {k : String} {n : Node}
    (hnd : (m.map (fun p => p.1)).Nodup) (h : assocFind m k = some n) :
    mapSet m k n = m := by
  unfold mapSet
  have hmem := assocFind_eq_some_mem h
  have hany : m.any (fun p => p.1 == k) = true :=
    (any_key_iff m k).mpr (List.mem_map.mpr ⟨(k, n), hmem, rfl⟩)
  rw [if_pos hany]
  conv_rhs => rw [← List.map_id m]
  apply List.map_congr_left
  intro p hp
  by_cases hpk : p.1 = k
  · have hpkn : p = (k, p.2) := by
      cases p
      simp_all
    have h2 : assocFind m k = some p.2 := mem_nodup_assocFind hnd (hpkn ▸ hp)
    rw [h] at h2
    have : n = p.2 := by injection h2
    rw [if_pos hpk, this, ← hpkn]
    rfl
  · rw [if_neg hpk]
    rfl

/-- C2 counterexample: on the initial workflow, UpdateLabel of the root with a
whitespace-only label is *not* a reference-preserving no-op — the engine
returns a newly constructed (value-equal) object, so the history wrapper
pushes onto `past` (and would clear `future`), contradicting the claim that
`past` and `future` are left untouched and that the caller can detect the
no-op by reference equality. -/
theorem claim_C2_counterexample :
    (workflowHistoryReducer ⟨[], createInitialWorkflow "s", []⟩
        (WfAction.updateNodeLabel "s" (some "   "))).past ≠
      (⟨[], createInitialWorkflow "s", []⟩ : HistoryState).past ∧
    workflowReducerR (createInitialWorkflow "s")
      (WfAction.updateNodeLabel "s" (some "   ")) ≠ none := by
  constructor
  · decide
  · decide

/-- C2 as amended: with a label that is empty after trimming, the engine
preserves the *value* of the workflow (so `present` compares equal before and
after), and it returns the same reference only when `nodeId` is falsy or
unknown; when `nodeId` names an existing node it returns a fresh value-equal
object, so the history wrapper pushes the old `present` onto `past` and clears
`future` — reference equality does not detect this case as a no-op. -/
theorem claim_C2_amended (wf : Workflow) (nid : String) (lbl : Option String)
    (hnd : (wf.nodes.map (fun p => p.1)).Nodup)
    (htrim : jsTrim (lbl.getD "") = "") :
    workflowReducer wf (WfAction.updateNodeLabel nid lbl) = wf ∧
    ((nid = "" ∨ wf.find nid = none) →
      workflowReducerR wf (WfAction.updateNodeLabel nid lbl) = none) ∧
    (∀ s : HistoryState, s.present = wf → nid ≠ "" → wf.find nid ≠ none →
      workflowHistoryReducer s (WfAction.updateNodeLabel nid lbl) =
        ⟨s.past ++ [wf], wf, []⟩) := by
  have hcore : ∀ node, wf.find nid = some node → nid ≠ "" →
      workflowReducerR wf (WfAction.updateNodeLabel nid lbl) = some wf := by
    intro node hfind hne
    simp only [workflowReducerR]
    rw [if_neg hne, hfind]
    have hlen : ¬((jsTrim (lbl.getD "")).length ≠ 0) := by
      rw [htrim]
      simp
    simp only [hlen, if_neg, if_false]
    have hnode : { node with label := node.label } = node := rfl
    rw [hnode, mapSet_self hnd hfind]
  have hnoop : (nid = "" ∨ wf.find nid = none) →
      workflowReducerR wf (WfAction.updateNodeLabel nid lbl) = none := by
    intro h
    simp only [workflowReducerR]
    rcases h with h | h
    · rw [if_pos h]
    · by_cases hne : nid = ""
      · rw [if_pos hne]
      · rw [if_neg hne, h]
  refine ⟨?_, hnoop, ?_⟩
  · unfold workflowReducer
    by_cases hne : nid = ""
    · rw [hnoop (Or.inl hne)]
      rfl
    · cases hfind : wf.find nid with
      | none => rw [hnoop (Or.inr hfind)]; rfl
      | some node => rw [hcore node hfind hne]; rfl
  · intro s hpres hne hfind
    cases hf : wf.find nid with
    | none => exact absurd hf hfind
    | some node =>
      have hR := hcore node hf hne
      show (match workflowReducerR s.present (WfAction.updateNodeLabel nid lbl) with
        | none => s
        | some nextPresent => ⟨s.past ++ [s.present], nextPresent, []⟩) = _
      rw [hpres, hR]

/-- C2 witness for the amended claim: whitespace-only relabel of the root of
the initial workflow. -/
theorem claim_C2_witness :
    (((createInitialWorkflow "s").nodes.map (fun p => p.1)).Nodup ∧
      jsTrim ((some "   ").getD "") = "") ∧
    workflowReducer (createInitialWorkflow "s")
      (WfAction.updateNodeLabel "s" (some "   ")) = createInitialWorkflow "s" := by
  refine ⟨⟨by decide, by decide⟩, ?_⟩
  exact (claim_C2_amended (createInitialWorkflow "s") "s" (some "   ")
    (by decide) (by decide)).1

/-! ### Node-shape lemmas and claim C8 -/

lemma normalizeNode_id (n : Node) : (normalizeNode n).id = n.id := by
  unfold normalizeNode
  split <;> rfl

lemma normalizeNode_type (n : Node) : (normalizeNode n).type = n.type := by
  unfold normalizeNode
  split <;> rfl

lemma normalizeNode_parentId (n : Node) : (normalizeNode n).parentId = n.parentId := by
  unfold normalizeNode
  split <;> rfl

lemma normalizeNode_label (n : Node) : (normalizeNode n).label = n.label := by
  unfold normalizeNode
  split <;> rfl

lemma setOutgoingChildId_id (n : Node) (slot : ConnectionSlot) (c : Option String) :
    (setOutgoingChildId n slot c).id = n.id := by
  unfold setOutgoingChildId
  split
  · rw [normalizeNode_id]
  · split <;> rw [normalizeNode_id]

lemma setOutgoingChildId_type (n : Node) (slot : ConnectionSlot) (c : Option String) :
    (setOutgoingChildId n slot c).type = n.type := by
  unfold setOutgoingChildId
  split
  · rw [normalizeNode_type]
  · split <;> rw [normalizeNode_type]

lemma setOutgoingChildId_parentId (n : Node) (slot : ConnectionSlot) (c : Option String) :
    (setOutgoingChildId n slot c).parentId = n.parentId := by
  unfold setOutgoingChildId
  split
  · rw [normalizeNode_parentId]
  · split <;> rw [normalizeNode_parentId]

lemma createNode_id (id : String) (ty : NodeType) (p : Option String) (l : Option String) :
    (createNode id ty p l).id = id := by
  unfold createNode
  rw [normalizeNode_id]

lemma createNode_type (id : String) (ty : NodeType) (p : Option String) (l : Option String) :
    (createNode id ty p l).type = ty := by
  unfold createNode
  rw [normalizeNode_type]

lemma createNode_parentId (id : String) (ty : NodeType) (p : Option String)
    (l : Option String) : (createNode id ty p l).parentId = p := by
  unfold createNode
  rw [normalizeNode_parentId]

lemma getOutgoing_setOutgoing_same (n : Node) (slot : ConnectionSlot) (c : String)
    (hc : c ≠ "") :
    getOutgoingChildId (setOutgoingChildId n slot (some c)) slot = some c := by
  have ht : truthyStr (some c) = true := by simpa [truthyStr, bne_iff_ne] using hc
  by_cases hb : n.type = NodeType.branch
  · cases hs : slot.getD true
    · simp [setOutgoingChildId, normalizeNode, getOutgoingChildId, exitsTrue, exitsFalse,
        hb, hs]
    · simp [setOutgoingChildId, normalizeNode, getOutgoingChildId, exitsTrue, exitsFalse,
        hb, hs]
  · simp [setOutgoingChildId, normalizeNode, getOutgoingChildId, hb, ht]

/-! ### Shape of the constructing reducer paths -/

/-- The workflow constructed by the accepted ADD_NODE path (the body of the
handler after its precondition checks). -/
def addResult (wf : Workflow) (parent : Node) (parentId : String) (slot : ConnectionSlot)
    (newType : NodeType) (label : Option String) (newId : String) : Workflow :=
  let existingChildId := getOutgoingChildId parent slot
  let insertedUpdated :=
    insertedUpdatedOf parent slot (createNode newId newType (some parentId) label)
  let updatedParent := setOutgoingChildId parent slot (some insertedUpdated.id)
  let nextNodes := mapSet (mapSet wf.nodes updatedParent.id updatedParent)
      insertedUpdated.id insertedUpdated
  { wf with nodes := reparentIn nextNodes existingChildId insertedUpdated.id }

lemma addNode_spec (wf : Workflow) (parent : Node) (parentId : String)
    (slot : ConnectionSlot) (newType : NodeType) (label : Option String) (newId : String)
    (hpe : parentId ≠ "") (hfind : wf.find parentId = some parent)
    (hptype : parent.type ≠ NodeType.«end») :
    workflowReducerR wf (WfAction.addNode parentId slot (some newType) label newId) =
      some (addResult wf parent parentId slot newType label newId) := by
  simp only [workflowReducerR]
  rw [if_neg hpe]
  simp only [hfind]
  rw [if_neg hptype]
  rfl

/-- The workflow constructed by the accepted DELETE_NODE path. -/
def deleteResult (wf : Workflow) (nodeId : String) (node parent : Node) : Workflow :=
  let parentSlot := findSlotForChild parent nodeId
  let preferred := preferredReconnectChildId node
  let updatedParent := setOutgoingChildId parent parentSlot preferred
  let nextNodes := mapSet wf.nodes updatedParent.id updatedParent
  let nodes2 := reparentIn nextNodes preferred updatedParent.id
  { wf with nodes := removeIds nodes2 (idsToDelete wf nodeId node) }

lemma deleteNode_spec (wf : Workflow) (nodeId : String) (node parent : Node)
    (hne : nodeId ≠ "") (hfind : wf.find nodeId = some node)
    (hroot : ¬(nodeId = wf.rootId ∨ node.type = NodeType.start))
    (hpar : truthyStr node.parentId = true)
    (hpfind : wf.find (node.parentId.getD "") = some parent) :
    workflowReducerR wf (WfAction.deleteNode nodeId) =
      some (deleteResult wf nodeId node parent) := by
  simp only [workflowReducerR]
  rw [if_neg hne]
  simp only [hfind]
  rw [if_neg hroot, if_pos hpar]
  simp only [hpfind]
  rfl

lemma workflowReducer_eq_of_none {wf : Workflow} {a : WfAction}
    (h : workflowReducerR wf a = none) : workflowReducer wf a = wf := by
  unfold workflowReducer
  rw [h]
  rfl

lemma workflowReducer_eq_of_some {wf w : Workflow} {a : WfAction}
    (h : workflowReducerR wf a = some w) : workflowReducer wf a = w := by
  unfold workflowReducer
  rw [h]
  rfl

/-- C8: when Insert targets a slot that has a successor and the new node is
not of kind `end`, the new node is spliced in front of that successor: it
takes the prior child on its `true` exit if it is a branch and on its single
slot otherwise, the parent's slot is rewired to the new node, and the prior
child's `parentId` is re-pointed to the new node. -/
theorem claim_C8 (wf : Workflow) (parent echild : Node) (parentId E newId : String)
    (slot : ConnectionSlot) (newType : NodeType) (label : Option String)
    (hpe : parentId ≠ "") (hfind : wf.find parentId = some parent)
    (hid : parent.id = parentId)
    (hptype : parent.type ≠ NodeType.«end»)
    (hchild : getOutgoingChildId parent slot = some E) (hE : E ≠ "")
    (hEfind : wf.find E = some echild)
    (hnewty : newType ≠ NodeType.«end»)
    (hnid : newId ≠ "") (hEP : E ≠ parentId) (hEN : E ≠ newId) (hPN : parentId ≠ newId) :
    ∃ n',
      (workflowReducer wf (WfAction.addNode parentId slot (some newType) label newId)).find
          newId = some n' ∧
      n'.type = newType ∧ n'.parentId = some parentId ∧
      getOutgoingChildId n' (if newType = NodeType.branch then some true else none) =
        some E ∧
      (workflowReducer wf (WfAction.addNode parentId slot (some newType) label newId)).find
          parentId = some (setOutgoingChildId parent slot (some newId)) ∧
      getOutgoingChildId (setOutgoingChildId parent slot (some newId)) slot = some newId ∧
      (workflowReducer wf (WfAction.addNode parentId slot (some newType) label newId)).find
          E = some { echild with parentId := some newId } := by
  have hadd := addNode_spec wf parent parentId slot newType label newId hpe hfind hptype
  have hred := workflowReducer_eq_of_some hadd
  rw [hred]
  have htr : truthyStr (some E) = true := by simp [truthyStr, bne_iff_ne, hE]
  have hEfind' : assocFind wf.nodes E = some echild := hEfind
  have hcty : (createNode newId newType (some parentId) label).type = newType :=
    createNode_type ..
  have hNE : newId ≠ E := Ne.symm hEN
  have hPE : parentId ≠ E := Ne.symm hEP
  have hNP : newId ≠ parentId := Ne.symm hPN
  by_cases hb : newType = NodeType.branch
  · refine ⟨setOutgoingChildId (createNode newId newType (some parentId) label)
      (some true) (some E), ?_, ?_, ?_, ?_, ?_, ?_, ?_⟩
    · show assocFind (addResult wf parent parentId slot newType label newId).nodes newId = _
      unfold addResult
      simp only [insertedUpdatedOf, reparentIn, hchild, htr, eq_self_iff_true, if_true, hcty, if_pos hb,
        setOutgoingChildId_id, createNode_id, hid, Option.getD_some, hEfind',
        assocFind_mapSet, if_neg hEP, if_neg hEN, if_neg hPN, if_neg hNE, if_neg hPE,
        if_neg hNP]
    · rw [setOutgoingChildId_type, hcty]
    · rw [setOutgoingChildId_parentId, createNode_parentId]
    · rw [if_pos hb]
      exact getOutgoing_setOutgoing_same _ (some true) E hE
    · show assocFind (addResult wf parent parentId slot newType label newId).nodes parentId = _
      unfold addResult
      simp only [insertedUpdatedOf, reparentIn, hchild, htr, eq_self_iff_true, if_true, hcty, if_pos hb,
        setOutgoingChildId_id, createNode_id, hid, Option.getD_some, hEfind',
        assocFind_mapSet, if_neg hEP, if_neg hEN, if_neg hPN, if_neg hNE, if_neg hPE,
        if_neg hNP]
    · exact getOutgoing_setOutgoing_same parent slot newId hnid
    · show assocFind (addResult wf parent parentId slot newType label newId).nodes E = _
      unfold addResult
      simp only [insertedUpdatedOf, reparentIn, hchild, htr, eq_self_iff_true, if_true, hcty, if_pos hb,
        setOutgoingChildId_id, createNode_id, hid, Option.getD_some, hEfind',
        assocFind_mapSet, if_neg hEP, if_neg hEN, if_neg hPN, if_neg hNE, if_neg hPE,
        if_neg hNP]
  · have hend : (createNode newId newType (some parentId) label).type ≠ NodeType.«end» := by
      rw [hcty]; exact hnewty
    refine ⟨setOutgoingChildId (createNode newId newType (some parentId) label)
      none (some E), ?_, ?_, ?_, ?_, ?_, ?_, ?_⟩
    · show assocFind (addResult wf parent parentId slot newType label newId).nodes newId = _
      unfold addResult
      simp only [insertedUpdatedOf, reparentIn, hchild, htr, eq_self_iff_true, if_true, hcty, if_neg hb, if_pos hend, if_pos hnewty,
        setOutgoingChildId_id, createNode_id, hid, Option.getD_some, hEfind',
        assocFind_mapSet, if_neg hEP, if_neg hEN, if_neg hPN, if_neg hNE, if_neg hPE,
        if_neg hNP]
    · rw [setOutgoingChildId_type, hcty]
    · rw [setOutgoingChildId_parentId, createNode_parentId]
    · rw [if_neg hb]
      exact getOutgoing_setOutgoing_same _ none E hE
    · show assocFind (addResult wf parent parentId slot newType label newId).nodes parentId = _
      unfold addResult
      simp only [insertedUpdatedOf, reparentIn, hchild, htr, eq_self_iff_true, if_true, hcty, if_neg hb, if_pos hend, if_pos hnewty,
        setOutgoingChildId_id, createNode_id, hid, Option.getD_some, hEfind',
        assocFind_mapSet, if_neg hEP, if_neg hEN, if_neg hPN, if_neg hNE, if_neg hPE,
        if_neg hNP]
    · exact getOutgoing_setOutgoing_same parent slot newId hnid
    · show assocFind (addResult wf parent parentId slot newType label newId).nodes E = _
      unfold addResult
      simp only [insertedUpdatedOf, reparentIn, hchild, htr, eq_self_iff_true, if_true, hcty, if_neg hb, if_pos hend, if_pos hnewty,
        setOutgoingChildId_id, createNode_id, hid, Option.getD_some, hEfind',
        assocFind_mapSet, if_neg hEP, if_neg hEN, if_neg hPN, if_neg hNE, if_neg hPE,
        if_neg hNP]

/-- C8 witness: on S→End, inserting an action at S's single slot yields
S→NewAction→End with End reparented to the new action. -/
theorem claim_C8_witness :
    ∃ n',
      (workflowReducer
          (applyActions (createInitialWorkflow "s")
            [WfAction.addNode "s" none (some NodeType.«end») none "t"])
          (WfAction.addNode "s" none (some NodeType.action) none "a")).find
          "a" = some n' ∧
      n'.type = NodeType.action ∧ n'.parentId = some "s" ∧
      getOutgoingChildId n'
          (if NodeType.action = NodeType.branch then some true else none) =
        some "t" ∧
      (workflowReducer
          (applyActions (createInitialWorkflow "s")
            [WfAction.addNode "s" none (some NodeType.«end») none "t"])
          (WfAction.addNode "s" none (some NodeType.action) none "a")).find
          "s" =
        some (setOutgoingChildId ⟨"s", NodeType.start, "Start", none, ["t"], none⟩
          none (some "a")) ∧
      getOutgoingChildId
          (setOutgoingChildId ⟨"s", NodeType.start, "Start", none, ["t"], none⟩
            none (some "a")) none = some "a" ∧
      (workflowReducer
          (applyActions (createInitialWorkflow "s")
            [WfAction.addNode "s" none (some NodeType.«end») none "t"])
          (WfAction.addNode "s" none (some NodeType.action) none "a")).find
          "t" =
        some ({ (⟨"t", NodeType.«end», "End", some "s", [], none⟩ : Node) with
          parentId := some "a" }) :=
  claim_C8 (applyActions (createInitialWorkflow "s")
      [WfAction.addNode "s" none (some NodeType.«end») none "t"])
    ⟨"s", NodeType.start, "Start", none, ["t"], none⟩
    ⟨"t", NodeType.«end», "End", some "s", [], none⟩
    "s" "t" "a" none NodeType.action none
    (by decide) (by decide) (by decide) (by decide) (by decide) (by decide)
    (by decide) (by decide) (by decide) (by decide) (by decide) (by decide)

/-! ### Claim C6: branch projection invariant -/

/-- The branch projection maintained by `normalizeNode`:
`[exits.true, exits.false].filter(Boolean)`. -/
def branchProjection (n : Node) : List String :=
  truthyList [exitsTrue n, exitsFalse n]

/-- A node whose `children` agree with the branch projection (vacuous for
non-branch nodes). -/
def NodeProj (n : Node) : Prop :=
  n.type = NodeType.branch → n.children = branchProjection n

/-- Every node value stored in the map satisfies `NodeProj`. -/
def StoreProj (m : List (String × Node)) : Prop :=
  ∀ q ∈ m, NodeProj q.2

lemma mem_mapSet {m : List (String × Node)} {k : String} {v : Node}
    {q : String × Node} (h : q ∈ mapSet m k v) : q.2 = v ∨ q ∈ m := by
  unfold mapSet at h
  split at h
  · rcases List.mem_map.mp h with ⟨p, hp, he⟩
    by_cases hpk : p.1 = k
    · rw [if_pos hpk] at he
      exact Or.inl (by rw [← he])
    · rw [if_neg hpk] at he
      exact Or.inr (he ▸ hp)
  · rcases List.mem_append.mp h with hm | hs
    · exact Or.inr hm
    · simp only [List.mem_singleton] at hs
      exact Or.inl (by rw [hs])

lemma mem_removeIds {m : List (String × Node)} {ids : List String}
    {q : String × Node} (h : q ∈ removeIds m ids) : q ∈ m :=
  List.mem_of_mem_filter h

lemma storeProj_mapSet {m : List (String × Node)} {k : String} {v : Node}
    (hm : StoreProj m) (hv : NodeProj v) : StoreProj (mapSet m k v) := by
  intro q hq
  rcases mem_mapSet hq with he | hold
  · rw [he]; exact hv
  · exact hm q hold

lemma storeProj_removeIds {m : List (String × Node)} {ids : List String}
    (hm : StoreProj m) : StoreProj (removeIds m ids) :=
  fun q hq => hm q (mem_removeIds hq)

lemma nodeProj_normalizeNode (n : Node) : NodeProj (normalizeNode n) := by
  intro hty
  unfold normalizeNode at hty ⊢
  by_cases hb : n.type = NodeType.branch
  · rw [if_neg (by simpa using hb)] at hty ⊢
    unfold branchProjection exitsTrue exitsFalse
    simp
  · rw [if_pos (by simpa using hb)] at hty
    exact absurd hty hb

lemma nodeProj_setOutgoingChildId (n : Node) (slot : ConnectionSlot)
    (c : Option String) : NodeProj (setOutgoingChildId n slot c) := by
  unfold setOutgoingChildId
  split
  · exact nodeProj_normalizeNode _
  · split <;> exact nodeProj_normalizeNode _

lemma nodeProj_createNode (id : String) (ty : NodeType) (p : Option String)
    (l : Option String) : NodeProj (createNode id ty p l) :=
  nodeProj_normalizeNode _

lemma nodeProj_reparent (n : Node) (x : Option String) (h : NodeProj n) :
    NodeProj ({ n with parentId := x }) := by
  intro hty
  unfold branchProjection exitsTrue exitsFalse
  exact h hty

lemma nodeProj_relabel (n : Node) (x : String) (h : NodeProj n) :
    NodeProj ({ n with label := x }) := by
  intro hty
  unfold branchProjection exitsTrue exitsFalse
  exact h hty


lemma nodeProj_insertedUpdatedOf (parent : Node) (slot : ConnectionSlot)
    (inserted : Node) (h : NodeProj inserted) :
    NodeProj (insertedUpdatedOf parent slot inserted) := by
  unfold insertedUpdatedOf
  split
  · split
    · exact nodeProj_setOutgoingChildId _ _ _
    · split
      · exact nodeProj_setOutgoingChildId _ _ _
      · exact h
  · exact h

lemma storeProj_reparentIn (m : List (String × Node)) (c : Option String)
    (np : String) (hm : StoreProj m) : StoreProj (reparentIn m c np) := by
  unfold reparentIn
  split
  · cases hc : assocFind m (c.getD "") with
    | none => exact hm
    | some child =>
      exact storeProj_mapSet hm
        (nodeProj_reparent _ _ (hm _ (assocFind_eq_some_mem hc)))
  · exact hm

lemma storeProj_addResult (wf : Workflow) (parent : Node) (pid : String)
    (slot : ConnectionSlot) (nt : NodeType) (lb : Option String) (nid : String)
    (h : StoreProj wf.nodes) : StoreProj (addResult wf parent pid slot nt lb nid).nodes := by
  unfold addResult
  exact storeProj_reparentIn _ _ _
    (storeProj_mapSet
      (storeProj_mapSet h (nodeProj_setOutgoingChildId _ _ _))
      (nodeProj_insertedUpdatedOf _ _ _ (nodeProj_createNode _ _ _ _)))

lemma storeProj_deleteResult (wf : Workflow) (nodeId : String) (node parent : Node)
    (h : StoreProj wf.nodes) : StoreProj (deleteResult wf nodeId node parent).nodes := by
  unfold deleteResult
  exact storeProj_removeIds
    (storeProj_reparentIn _ _ _
      (storeProj_mapSet h (nodeProj_setOutgoingChildId _ _ _)))

/-- The relabelled node of the accepted UPDATE_NODE_LABEL path
(`{...node, label: label.length ? label : node.label}`). -/
def relabelNode (node : Node) (lbl : String) : Node :=
  { node with label := if lbl.length ≠ 0 then lbl else node.label }

/-- Shape of the accepted UPDATE_NODE_LABEL path. -/
lemma updateLabel_spec (wf : Workflow) (nid : String) (lb : Option String) (node : Node)
    (hne : nid ≠ "") (hfind : wf.find nid = some node) :
    workflowReducerR wf (WfAction.updateNodeLabel nid lb) =
      some { wf with nodes := mapSet wf.nodes nid (relabelNode node (jsTrim (lb.getD ""))) } := by
  simp only [workflowReducerR]
  rw [if_neg hne]
  simp only [hfind]
  rfl

lemma storeProj_step (wf : Workflow) (a : WfAction)
    (h : StoreProj wf.nodes) : StoreProj (workflowReducer wf a).nodes := by
  cases a with
  | addNode pid slot ty lb nid =>
    by_cases hpe : pid = ""
    · rw [workflowReducer_eq_of_none (by simp only [workflowReducerR]; rw [if_pos hpe])]
      exact h
    · cases ty with
      | none =>
        rw [workflowReducer_eq_of_none (by simp only [workflowReducerR]; rw [if_neg hpe])]
        exact h
      | some nt =>
        cases hfind : wf.find pid with
        | none =>
          rw [workflowReducer_eq_of_none
            (by simp only [workflowReducerR]; rw [if_neg hpe]; simp only [hfind])]
          exact h
        | some parent =>
          by_cases hend : parent.type = NodeType.«end»
          · rw [workflowReducer_eq_of_none
              (by simp only [workflowReducerR]
                  rw [if_neg hpe]
                  simp only [hfind]
                  rw [if_pos hend])]
            exact h
          · rw [workflowReducer_eq_of_some
              (addNode_spec wf parent pid slot nt lb nid hpe hfind hend)]
            exact storeProj_addResult wf parent pid slot nt lb nid h
  | updateNodeLabel nid lb =>
    by_cases hne : nid = ""
    · rw [workflowReducer_eq_of_none (by simp only [workflowReducerR]; rw [if_pos hne])]
      exact h
    · cases hfind : wf.find nid with
      | none =>
        rw [workflowReducer_eq_of_none
          (by simp only [workflowReducerR]; rw [if_neg hne]; simp only [hfind])]
        exact h
      | some node =>
        rw [workflowReducer_eq_of_some (updateLabel_spec wf nid lb node hne hfind)]
        exact storeProj_mapSet h
          (nodeProj_relabel node _ (h _ (assocFind_eq_some_mem hfind)))
  | deleteNode nid =>
    by_cases hne : nid = ""
    · rw [workflowReducer_eq_of_none (by simp only [workflowReducerR]; rw [if_pos hne])]
      exact h
    · cases hfind : wf.find nid with
      | none =>
        rw [workflowReducer_eq_of_none
          (by simp only [workflowReducerR]; rw [if_neg hne]; simp only [hfind])]
        exact h
      | some node =>
        by_cases hroot : nid = wf.rootId ∨ node.type = NodeType.start
        · rw [workflowReducer_eq_of_none
            (by simp only [workflowReducerR]
                rw [if_neg hne]
                simp only [hfind]
                rw [if_pos hroot])]
          exact h
        · cases hpar : truthyStr node.parentId with
          | false =>
            rw [workflowReducer_eq_of_none
              (by simp only [workflowReducerR]
                  rw [if_neg hne]
                  simp only [hfind]
                  rw [if_neg hroot, hpar]
                  rfl)]
            exact h
          | true =>
            cases hpfind : wf.find (node.parentId.getD "") with
            | none =>
              rw [workflowReducer_eq_of_none
                (by simp only [workflowReducerR]
                    rw [if_neg hne]
                    simp only [hfind]
                    rw [if_neg hroot, if_pos hpar]
                    simp only [hpfind])]
              exact h
            | some parent =>
              rw [workflowReducer_eq_of_some
                (deleteNode_spec wf nid node parent hne hfind hroot hpar hpfind)]
              exact storeProj_deleteResult wf nid node parent h
  | undo =>
    rw [workflowReducer_eq_of_none (by rfl)]
    exact h
  | redo =>
    rw [workflowReducer_eq_of_none (by rfl)]
    exact h
  | other =>
    rw [workflowReducer_eq_of_none (by rfl)]
    exact h

/-- C6: in every workflow observable after any sequence of requests starting
from the initial workflow, every branch node's `children` equals the
`normalizeNode` projection of its exits (`[exits.true, exits.false]` with
falsy entries filtered out, true-exit first). -/
theorem claim_C6 (sid : String) (acts : List WfAction) :
    ∀ q ∈ (applyActions (createInitialWorkflow sid) acts).nodes,
      q.2.type = NodeType.branch → q.2.children = branchProjection q.2 := by
  have base : StoreProj (createInitialWorkflow sid).nodes := by
    intro q hq
    unfold createInitialWorkflow at hq
    simp only [List.mem_singleton] at hq
    rw [hq]
    exact nodeProj_createNode _ _ _ _
  have main : ∀ (acts : List WfAction) (wf : Workflow), StoreProj wf.nodes →
      StoreProj (applyActions wf acts).nodes := by
    intro acts
    induction acts with
    | nil => exact fun wf h => h
    | cons a rest ih =>
      intro wf hwf
      exact ih (workflowReducer wf a) (storeProj_step wf a hwf)
  exact main acts (createInitialWorkflow sid) base

/-- C6 witness: a concrete branch node after building S→Branch(true→X). -/
theorem claim_C6_witness :
    (("b", (⟨"b", NodeType.branch, "Branch", some "s", ["x"],
        some ⟨some "x", none⟩⟩ : Node)) ∈
      (applyActions (createInitialWorkflow "s")
        [WfAction.addNode "s" none (some NodeType.branch) none "b",
         WfAction.addNode "b" (some true) (some NodeType.action) none "x"]).nodes ∧
      (⟨"b", NodeType.branch, "Branch", some "s", ["x"],
        some ⟨some "x", none⟩⟩ : Node).type = NodeType.branch) ∧
    (⟨"b", NodeType.branch, "Branch", some "s", ["x"],
        some ⟨some "x", none⟩⟩ : Node).children =
      branchProjection ⟨"b", NodeType.branch, "Branch", some "s", ["x"],
        some ⟨some "x", none⟩⟩ := by
  refine ⟨⟨by decide, by decide⟩, ?_⟩
  exact claim_C6 "s"
    [WfAction.addNode "s" none (some NodeType.branch) none "b",
     WfAction.addNode "b" (some true) (some NodeType.action) none "x"]
    ("b", ⟨"b", NodeType.branch, "Branch", some "s", ["x"], some ⟨some "x", none⟩⟩)
    (by decide) (by decide)

/-! ### Correctness of the `collectSubtreeIds` worklist traversal -/

lemma collectAux_mono (wf : Workflow) :
    ∀ (fuel : Nat) (visited stack : List String) (v : String), v ∈ visited →
      v ∈ collectAux wf fuel visited stack := by
  intro fuel
  induction fuel with
  | zero => intro visited stack v hv; exact hv
  | succ fuel ih =>
    intro visited stack v hv
    cases stack with
    | nil => exact hv
    | cons id rest =>
      unfold collectAux
      split
      · exact ih visited rest v hv
      · cases h : wf.find id with
        | none => exact ih (visited ++ [id]) rest v (by simp [hv])
        | some node => exact ih (visited ++ [id]) _ v (by simp [hv])

lemma collectAux_sound (wf : Workflow) (P : String → Prop)
    (hstep : ∀ b nb c, P b → wf.find b = some nb → c ∈ nb.children → c ≠ "" → P c) :
    ∀ (fuel : Nat) (visited stack : List String),
      (∀ v ∈ visited, P v) → (∀ s ∈ stack, s ≠ "" → P s) →
      ∀ x ∈ collectAux wf fuel visited stack, P x := by
  intro fuel
  induction fuel with
  | zero => intro visited stack hv _ x hx; exact hv x hx
  | succ fuel ih =>
    intro visited stack hv hs x hx
    cases stack with
    | nil => exact hv x hx
    | cons id rest =>
      unfold collectAux at hx
      split at hx
      · exact ih visited rest hv (fun s h => hs s (by simp [h])) x hx
      · next hskip =>
        push_neg at hskip
        obtain ⟨hid, _⟩ := hskip
        have hPid : P id := hs id (by simp) hid
        have hv2 : ∀ v ∈ visited ++ [id], P v := by
          intro v hvm
          rcases List.mem_append.mp hvm with h | h
          · exact hv v h
          · simp only [List.mem_singleton] at h
            exact h ▸ hPid
        cases hfind : wf.find id with
        | none =>
          rw [hfind] at hx
          exact ih _ rest hv2 (fun s h => hs s (by simp [h])) x hx
        | some node =>
          rw [hfind] at hx
          refine ih _ _ hv2 ?_ x hx
          intro s hsm hse
          rcases List.mem_append.mp hsm with h | h
          · exact hstep id node s hPid hfind (List.mem_reverse.mp h) hse
          · exact hs s (by simp [h]) hse

/-- The weight of the yet-unvisited portion of the store: one unit per entry
plus one per child reference. -/
def storeWeight (wf : Workflow) (visited : List String) : Nat :=
  ((wf.nodes.filter (fun p => !(visited.contains p.1))).map
    (fun p => 1 + p.2.children.length)).sum

lemma storeWeight_irrelevant (wf : Workflow) (visited : List String) (x : String)
    (hx : x ∉ wf.nodes.map (fun p => p.1)) :
    storeWeight wf (visited ++ [x]) = storeWeight wf visited := by
  unfold storeWeight
  congr 1
  apply congrArg
  apply List.filter_congr
  intro p hp
  have hpx : p.1 ≠ x := fun he => hx (List.mem_map.mpr ⟨p, hp, he⟩)
  apply congrArg
  rw [Bool.eq_iff_iff, List.elem_iff, List.elem_iff]
  simp [hpx]

lemma storeWeight_visit (wf : Workflow) (visited : List String) (id : String) (n : Node)
    (hnd : (wf.nodes.map (fun p => p.1)).Nodup)
    (hfind : wf.find id = some n) (hvis : id ∉ visited) :
    storeWeight wf visited = storeWeight wf (visited ++ [id]) + 1 + n.children.length := by
  have main : ∀ (m : List (String × Node)), ((m.map (fun p => p.1)).Nodup) →
      assocFind m id = some n →
      ((m.filter (fun p => !(visited.contains p.1))).map
        (fun p => 1 + p.2.children.length)).sum =
      ((m.filter (fun p => !((visited ++ [id]).contains p.1))).map
        (fun p => 1 + p.2.children.length)).sum + 1 + n.children.length := by
    intro m
    induction m with
    | nil => intro _ hf; simp [assocFind] at hf
    | cons a t ih =>
      intro hnd2 hf
      rw [List.map_cons, List.nodup_cons] at hnd2
      by_cases ha : a.1 = id
      · have hn : a.2 = n := by
          unfold assocFind at hf
          rw [List.find?_cons_of_pos _ (by simpa using ha)] at hf
          simpa using hf
        have hkeep : (!(visited.contains a.1)) = true := by
          rw [ha, contains_false_of_not_mem hvis]
          rfl
        have hdrop : (!((visited ++ [id]).contains a.1)) = false := by
          rw [ha, contains_true_of_mem (by simp)]
          rfl
        rw [List.filter_cons, List.filter_cons, hkeep, hdrop]
        simp only [if_true, Bool.false_eq_true, if_false, List.map_cons, List.sum_cons]
        have hirr : ∀ p ∈ t, (!((visited ++ [id]).contains p.1)) =
            (!(visited.contains p.1)) := by
          intro p hp
          have hpid : p.1 ≠ id := by
            intro he
            apply hnd2.1
            rw [ha]
            exact List.mem_map.mpr ⟨p, hp, he⟩
          apply congrArg
          rw [Bool.eq_iff_iff, List.elem_iff, List.elem_iff]
          simp [hpid]
        rw [List.filter_congr hirr, hn]
        omega
      · have hsame : (!((visited ++ [id]).contains a.1)) = (!(visited.contains a.1)) := by
          apply congrArg
          rw [Bool.eq_iff_iff, List.elem_iff, List.elem_iff]
          simp [ha]
        have hft : assocFind t id = some n := by
          unfold assocFind at hf ⊢
          rw [List.find?_cons_of_neg _ (by simpa using ha)] at hf
          exact hf
        rw [List.filter_cons, List.filter_cons, hsame]
        cases hc : (!(visited.contains a.1)) with
        | false => exact ih hnd2.2 hft
        | true =>
          simp only [if_true, List.map_cons, List.sum_cons]
          rw [ih hnd2.2 hft]
          omega
  exact main wf.nodes hnd hfind

lemma collectAux_succ_cons (wf : Workflow) (fuel : Nat) (visited : List String)
    (id : String) (rest : List String) :
    collectAux wf (fuel + 1) visited (id :: rest) =
      if id = "" ∨ id ∈ visited then collectAux wf fuel visited rest
      else match wf.find id with
        | none => collectAux wf fuel (visited ++ [id]) rest
        | some node =>
          collectAux wf fuel (visited ++ [id]) (node.children.reverse ++ rest) := rfl

lemma collectAux_closed (wf : Workflow)
    (hnd : (wf.nodes.map (fun p => p.1)).Nodup) :
    ∀ (fuel : Nat) (visited stack : List String),
      stack.length + storeWeight wf visited ≤ fuel →
      (∀ b ∈ visited, ∀ nb, wf.find b = some nb → ∀ c ∈ nb.children, c ≠ "" →
        c ∈ visited ∨ c ∈ stack) →
      (∀ v ∈ visited, v ∈ collectAux wf fuel visited stack) ∧
      (∀ s ∈ stack, s ≠ "" → s ∈ collectAux wf fuel visited stack) ∧
      (∀ b ∈ collectAux wf fuel visited stack, ∀ nb, wf.find b = some nb →
        ∀ c ∈ nb.children, c ≠ "" → c ∈ collectAux wf fuel visited stack) := by
  intro fuel
  induction fuel with
  | zero =>
    intro visited stack hfuel hinv
    have hstack : stack = [] := by
      rw [← List.length_eq_zero]
      omega
    subst hstack
    refine ⟨fun v hv => hv, by simp, ?_⟩
    intro b hb nb hfind c hc hce
    rcases hinv b hb nb hfind c hc hce with h | h
    · exact h
    · simp at h
  | succ fuel ih =>
    intro visited stack hfuel hinv
    cases stack with
    | nil =>
      refine ⟨fun v hv => hv, by simp, ?_⟩
      intro b hb nb hfind c hc hce
      rcases hinv b hb nb hfind c hc hce with h | h
      · exact h
      · simp at h
    | cons id rest =>
      by_cases hskip : id = "" ∨ id ∈ visited
      · have heq : collectAux wf (fuel + 1) visited (id :: rest) =
            collectAux wf fuel visited rest := by
          rw [collectAux_succ_cons, if_pos hskip]
        have hΦ : rest.length + storeWeight wf visited ≤ fuel := by
          simp only [List.length_cons] at hfuel
          omega
        have hinv2 : ∀ b ∈ visited, ∀ nb, wf.find b = some nb →
            ∀ c ∈ nb.children, c ≠ "" → c ∈ visited ∨ c ∈ rest := by
          intro b hb nb hfind c hc hce
          rcases hinv b hb nb hfind c hc hce with h | h
          · exact Or.inl h
          · rcases List.mem_cons.mp h with rfl | h2
            · rcases hskip with he | hm
              · exact absurd he hce
              · exact Or.inl hm
            · exact Or.inr h2
        obtain ⟨c1, c2, c3⟩ := ih visited rest hΦ hinv2
        rw [heq]
        refine ⟨c1, ?_, c3⟩
        intro s hs hse
        rcases List.mem_cons.mp hs with rfl | h2
        · rcases hskip with he | hm
          · exact absurd he hse
          · exact c1 s hm
        · exact c2 s h2 hse
      · push_neg at hskip
        obtain ⟨hid, hnv⟩ := hskip
        cases hfind : wf.find id with
        | none =>
          have heq : collectAux wf (fuel + 1) visited (id :: rest) =
              collectAux wf fuel (visited ++ [id]) rest := by
            rw [collectAux_succ_cons, if_neg (by push_neg; exact ⟨hid, hnv⟩), hfind]
          have hkeys : id ∉ wf.nodes.map (fun p => p.1) := by
            rw [← assocFind_eq_none_iff]
            exact hfind
          have hΦ : rest.length + storeWeight wf (visited ++ [id]) ≤ fuel := by
            rw [storeWeight_irrelevant wf visited id hkeys]
            simp only [List.length_cons] at hfuel
            omega
          have hinv2 : ∀ b ∈ visited ++ [id], ∀ nb, wf.find b = some nb →
              ∀ c ∈ nb.children, c ≠ "" → c ∈ visited ++ [id] ∨ c ∈ rest := by
            intro b hb nb hf c hc hce
            rcases List.mem_append.mp hb with hbv | hbi
            · rcases hinv b hbv nb hf c hc hce with h | h
              · exact Or.inl (by simp [h])
              · rcases List.mem_cons.mp h with rfl | h2
                · exact Or.inl (by simp)
                · exact Or.inr h2
            · simp only [List.mem_singleton] at hbi
              subst hbi
              rw [hfind] at hf
              exact absurd hf (by simp)
          obtain ⟨c1, c2, c3⟩ := ih (visited ++ [id]) rest hΦ hinv2
          rw [heq]
          refine ⟨fun v hv => c1 v (by simp [hv]), ?_, c3⟩
          intro s hs hse
          rcases List.mem_cons.mp hs with rfl | h2
          · exact c1 s (by simp)
          · exact c2 s h2 hse
        | some node =>
          have heq : collectAux wf (fuel + 1) visited (id :: rest) =
              collectAux wf fuel (visited ++ [id]) (node.children.reverse ++ rest) := by
            rw [collectAux_succ_cons, if_neg (by push_neg; exact ⟨hid, hnv⟩), hfind]
          have hw := storeWeight_visit wf visited id node hnd hfind hnv
          have hΦ : (node.children.reverse ++ rest).length +
              storeWeight wf (visited ++ [id]) ≤ fuel := by
            simp only [List.length_append, List.length_reverse, List.length_cons] at hfuel ⊢
            omega
          have hinv2 : ∀ b ∈ visited ++ [id], ∀ nb, wf.find b = some nb →
              ∀ c ∈ nb.children, c ≠ "" →
              c ∈ visited ++ [id] ∨ c ∈ node.children.reverse ++ rest := by
            intro b hb nb hf c hc hce
            rcases List.mem_append.mp hb with hbv | hbi
            · rcases hinv b hbv nb hf c hc hce with h | h
              · exact Or.inl (by simp [h])
              · rcases List.mem_cons.mp h with rfl | h2
                · exact Or.inl (by simp)
                · exact Or.inr (by simp [h2])
            · simp only [List.mem_singleton] at hbi
              subst hbi
              rw [hfind] at hf
              have hnbe : nb = node := (Option.some.inj hf).symm
              subst hnbe
              exact Or.inr (by simp [hc])
          obtain ⟨c1, c2, c3⟩ := ih (visited ++ [id]) (node.children.reverse ++ rest) hΦ hinv2
          rw [heq]
          refine ⟨fun v hv => c1 v (by simp [hv]), ?_, c3⟩
          intro s hs hse
          rcases List.mem_cons.mp hs with rfl | h2
          · exact c1 s (by simp)
          · exact c2 s (by simp [h2]) hse

/-! ### Bridge between `collectSubtreeIds` and inductive reachability -/

lemma visits_source_ne {wf : Workflow} {a x : String} (h : Visits wf a x) : a ≠ "" := by
  induction h with
  | self h => exact h
  | step _ _ _ _ ih => exact ih

lemma visits_of_mem_collect {wf : Workflow} {r x : String}
    (h : x ∈ collectSubtreeIds wf r) : Visits wf r x := by
  unfold collectSubtreeIds at h
  refine collectAux_sound wf (Visits wf r) ?_ (collectFuel wf) [] [r] (by simp) ?_ x h
  · intro b nb c hb hfind hc hce
    exact Visits.step hb hfind hc hce
  · intro s hs hse
    simp only [List.mem_singleton] at hs
    subst hs
    exact Visits.self hse

lemma storeWeight_nil (wf : Workflow) :
    storeWeight wf [] = (wf.nodes.map (fun p => 1 + p.2.children.length)).sum := by
  unfold storeWeight
  congr 1
  apply congrArg
  apply List.filter_eq_self.mpr
  intro p _
  rfl

lemma mem_collect_of_visits {wf : Workflow} {r x : String}
    (hnd : (wf.nodes.map (fun p => p.1)).Nodup) (h : Visits wf r x) :
    x ∈ collectSubtreeIds wf r := by
  have hr : r ≠ "" := visits_source_ne h
  have hΦ : ([r] : List String).length + storeWeight wf [] ≤ collectFuel wf := by
    rw [storeWeight_nil]
    unfold collectFuel
    simp
  obtain ⟨c1, c2, c3⟩ := collectAux_closed wf hnd (collectFuel wf) [] [r] hΦ (by simp)
  unfold collectSubtreeIds
  induction h with
  | self h => exact c2 r (by simp) h
  | step hb hfind hc hce ih => exact c3 _ ih _ hfind _ hc hce

lemma mem_collect_iff_visits {wf : Workflow} {r x : String}
    (hnd : (wf.nodes.map (fun p => p.1)).Nodup) :
    x ∈ collectSubtreeIds wf r ↔ Visits wf r x :=
  ⟨visits_of_mem_collect, mem_collect_of_visits hnd⟩

/-! ### The structural tree invariant -/

/-- A well-formed child reference: nonempty, not the root, and its target's
`parentId` points back at the parent. -/
def childOk (wf : Workflow) (k c : String) : Prop :=
  c ≠ "" ∧ c ≠ wf.rootId ∧ (wf.find c).map (fun cn => cn.parentId) = some (some k)

instance (wf : Workflow) (k c : String) : Decidable (childOk wf k c) := by
  unfold childOk
  infer_instance

/-- Per-node structural invariant: key/id consistency, coherent child and
parent links, per-kind fan-out shape, and reachability from the root. -/
def InvNode (wf : Workflow) (k : String) (n : Node) : Prop :=
  n.id = k ∧
  (∀ c ∈ n.children, childOk wf k c) ∧
  n.children.Nodup ∧
  (k ≠ wf.rootId → truthyStr n.parentId = true ∧
    (wf.find (n.parentId.getD "")).map (fun nq => decide (k ∈ nq.children)) = some true) ∧
  (n.type = NodeType.branch → n.exits ≠ none ∧ n.children = branchProjection n ∧
    exitsTrue n ≠ some "" ∧ exitsFalse n ≠ some "") ∧
  (n.type ≠ NodeType.branch → n.children.length ≤ 1) ∧
  (n.type = NodeType.«end» → n.children = []) ∧
  k ∈ collectSubtreeIds wf wf.rootId

instance (wf : Workflow) (k : String) (n : Node) : Decidable (InvNode wf k n) := by
  unfold InvNode
  infer_instance

/-- The structural invariant of a workflow: distinct keys, a well-formed root,
and every stored node well-formed. -/
def TreeInv (wf : Workflow) : Prop :=
  (wf.nodes.map (fun p => p.1)).Nodup ∧
  wf.rootId ≠ "" ∧
  (wf.find wf.rootId).map (fun r => (r.parentId, r.type)) = some (none, NodeType.start) ∧
  ∀ p ∈ wf.nodes, InvNode wf p.1 p.2

instance (wf : Workflow) : Decidable (TreeInv wf) := by
  unfold TreeInv
  infer_instance

lemma treeInv_keysNodup {wf : Workflow} (h : TreeInv wf) :
    (wf.nodes.map (fun p => p.1)).Nodup := h.1

lemma treeInv_rootNe {wf : Workflow} (h : TreeInv wf) : wf.rootId ≠ "" := h.2.1

lemma treeInv_root {wf : Workflow} (h : TreeInv wf) :
    ∃ r, wf.find wf.rootId = some r ∧ r.parentId = none ∧ r.type = NodeType.start := by
  obtain ⟨r, hr, he⟩ := Option.map_eq_some'.mp h.2.2.1
  refine ⟨r, hr, ?_, ?_⟩
  · exact congrArg Prod.fst he
  · exact congrArg Prod.snd he

lemma treeInv_invNode {wf : Workflow} {k : String} {n : Node} (h : TreeInv wf)
    (hfind : wf.find k = some n) : InvNode wf k n :=
  h.2.2.2 (k, n) (assocFind_eq_some_mem hfind)

lemma invNode_id {wf : Workflow} {k : String} {n : Node} (h : InvNode wf k n) :
    n.id = k := h.1

lemma invNode_child {wf : Workflow} {k c : String} {n : Node} (h : InvNode wf k n)
    (hc : c ∈ n.children) :
    c ≠ "" ∧ c ≠ wf.rootId ∧ ∃ cn, wf.find c = some cn ∧ cn.parentId = some k := by
  obtain ⟨h1, h2, h3⟩ := h.2.1 c hc
  obtain ⟨cn, hcn, he⟩ := Option.map_eq_some'.mp h3
  exact ⟨h1, h2, cn, hcn, he⟩

lemma invNode_childrenNodup {wf : Workflow} {k : String} {n : Node}
    (h : InvNode wf k n) : n.children.Nodup := h.2.2.1

lemma invNode_parent {wf : Workflow} {k : String} {n : Node} (h : InvNode wf k n)
    (hk : k ≠ wf.rootId) :
    ∃ q nq, n.parentId = some q ∧ q ≠ "" ∧ wf.find q = some nq ∧ k ∈ nq.children := by
  obtain ⟨ht, hm⟩ := h.2.2.2.1 hk
  rcases truthyStr_true_iff.mp ht with ⟨q, hq, hqe⟩
  rw [hq] at hm
  simp only [Option.getD_some] at hm
  obtain ⟨nq, hnq, hd⟩ := Option.map_eq_some'.mp hm
  exact ⟨q, nq, hq, hqe, hnq, of_decide_eq_true hd⟩

lemma invNode_branch {wf : Workflow} {k : String} {n : Node} (h : InvNode wf k n)
    (hb : n.type = NodeType.branch) :
    n.exits ≠ none ∧ n.children = branchProjection n ∧
      exitsTrue n ≠ some "" ∧ exitsFalse n ≠ some "" := h.2.2.2.2.1 hb

lemma invNode_nonbranch {wf : Workflow} {k : String} {n : Node} (h : InvNode wf k n)
    (hb : n.type ≠ NodeType.branch) : n.children.length ≤ 1 := h.2.2.2.2.2.1 hb

lemma invNode_end {wf : Workflow} {k : String} {n : Node} (h : InvNode wf k n)
    (he : n.type = NodeType.«end») : n.children = [] := h.2.2.2.2.2.2.1 he

lemma invNode_reach {wf : Workflow} {k : String} {n : Node} (h : InvNode wf k n) :
    k ∈ collectSubtreeIds wf wf.rootId := h.2.2.2.2.2.2.2

lemma treeInv_visits {wf : Workflow} {k : String} {n : Node} (h : TreeInv wf)
    (hfind : wf.find k = some n) : Visits wf wf.rootId k :=
  visits_of_mem_collect (invNode_reach (treeInv_invNode h hfind))

lemma treeInv_parent_unique {wf : Workflow} {b b' k : String} {nb nb' : Node}
    (h : TreeInv wf) (hfb : wf.find b = some nb) (hcb : k ∈ nb.children)
    (hfb' : wf.find b' = some nb') (hcb' : k ∈ nb'.children) : b = b' := by
  obtain ⟨_, _, cn, hcn, hp⟩ := invNode_child (treeInv_invNode h hfb) hcb
  obtain ⟨_, _, cn', hcn', hp'⟩ := invNode_child (treeInv_invNode h hfb') hcb'
  rw [hcn] at hcn'
  have : cn = cn' := Option.some.inj hcn'
  subst this
  rw [hp] at hp'
  exact Option.some.inj hp'

/-! ### Path lengths and depths in a well-formed workflow -/

/-- Paths of exact length `n` from `a`, following `children` as `Visits` does. -/
def PathN (wf : Workflow) (a : String) : Nat → String → Prop
  | 0, b => b = a ∧ a ≠ ""
  | n + 1, c => ∃ b nb, PathN wf a n b ∧ wf.find b = some nb ∧ c ∈ nb.children ∧ c ≠ ""

lemma visits_iff_pathN {wf : Workflow} {a x : String} :
    Visits wf a x ↔ ∃ n, PathN wf a n x := by
  constructor
  · intro h
    induction h with
    | self h => exact ⟨0, rfl, h⟩
    | step hb hfind hc hce ih =>
      obtain ⟨n, hn⟩ := ih
      exact ⟨n + 1, _, _, hn, hfind, hc, hce⟩
  · rintro ⟨n, h⟩
    induction n generalizing x with
    | zero =>
      obtain ⟨rfl, hne⟩ := h
      exact Visits.self hne
    | succ n ih =>
      obtain ⟨b, nb, hb, hfind, hc, hce⟩ := h
      exact Visits.step (ih hb) hfind hc hce

/-- `d` is the minimal path length from the root to `k`. -/
def IsDepth (wf : Workflow) (k : String) (d : Nat) : Prop :=
  PathN wf wf.rootId d k ∧ ∀ m, PathN wf wf.rootId m k → d ≤ m

lemma isDepth_unique {wf : Workflow} {k : String} {d d' : Nat}
    (h : IsDepth wf k d) (h' : IsDepth wf k d') : d = d' :=
  Nat.le_antisymm (h.2 d' h'.1) (h'.2 d h.1)

lemma isDepth_exists {wf : Workflow} {k : String} (h : Visits wf wf.rootId k) :
    ∃ d, IsDepth wf k d := by
  have hne : {n | PathN wf wf.rootId n k}.Nonempty := visits_iff_pathN.mp h
  exact ⟨sInf {n | PathN wf wf.rootId n k}, Nat.sInf_mem hne,
    fun m hm => Nat.sInf_le hm⟩

lemma isDepth_root {wf : Workflow} (h : TreeInv wf) : IsDepth wf wf.rootId 0 :=
  ⟨⟨rfl, treeInv_rootNe h⟩, fun m _ => Nat.zero_le m⟩

lemma pathN_zero_root {wf : Workflow} {k : String} (h : PathN wf wf.rootId 0 k) :
    k = wf.rootId := h.1

/-- In a well-formed workflow, the depth of a non-root node is one more than
the depth of its (unique) parent. -/
lemma isDepth_parent {wf : Workflow} {k q : String} {kn : Node} {d : Nat}
    (hInv : TreeInv wf) (hfind : wf.find k = some kn) (hk : k ≠ wf.rootId)
    (hq : kn.parentId = some q) (hd : IsDepth wf k d) :
    ∃ dq, IsDepth wf q dq ∧ d = dq + 1 := by
  obtain ⟨q', nq, hq', hq'e, hfq, hmem⟩ := invNode_parent (treeInv_invNode hInv hfind) hk
  have hqq : q' = q := by
    rw [hq] at hq'
    exact (Option.some.inj hq').symm
  subst hqq
  have hvq : Visits wf wf.rootId q' := treeInv_visits hInv hfq
  obtain ⟨dq, hdq⟩ := isDepth_exists hvq
  refine ⟨dq, hdq, ?_⟩
  have hkne : k ≠ "" := by
    obtain ⟨h1, _, _⟩ := invNode_child (treeInv_invNode hInv hfq) hmem
    exact h1
  -- d ≤ dq + 1 : extend the minimal path to the parent by one edge
  have hle1 : d ≤ dq + 1 := hd.2 (dq + 1) ⟨q', nq, hdq.1, hfq, hmem, hkne⟩
  -- dq + 1 ≤ d : the minimal path to k ends in the unique parent
  cases hdk : d with
  | zero =>
    rw [hdk] at hd
    exact absurd (pathN_zero_root hd.1) hk
  | succ m =>
    rw [hdk] at hd
    obtain ⟨b, nb, hb, hfb, hcb, _⟩ := hd.1
    have hbq : b = q' := treeInv_parent_unique hInv hfb hcb hfq hmem
    subst hbq
    have : dq ≤ m := hdq.2 m hb
    omega

/-- Depth is strictly monotone along nontrivial reachability. -/
lemma isDepth_strict {wf : Workflow} {b x : String} {nb0 : Node}
    (hInv : TreeInv wf) (hb : wf.find b = some nb0) (h : Visits wf b x) :
    ∃ nx, wf.find x = some nx ∧
      ∀ db dx, IsDepth wf b db → IsDepth wf x dx → (b = x ∨ db < dx) := by
  induction h with
  | self _ => exact ⟨nb0, hb, fun db dx h1 h2 => Or.inl rfl⟩
  | step hv hfp hc hce ih =>
    next p c np =>
    obtain ⟨nx, hfx, hstep⟩ := ih
    have hnx : nx = np := by
      rw [hfx] at hfp
      exact Option.some.inj hfp
    subst hnx
    obtain ⟨hc1, hc2, cn, hfc, hcp⟩ := invNode_child (treeInv_invNode hInv hfx) hc
    refine ⟨cn, hfc, ?_⟩
    intro db dx hdb hdx
    obtain ⟨dp, hdp, hde⟩ := isDepth_parent hInv hfc hc2 hcp hdx
    rcases hstep db dp hdb hdp with he | hlt
    · subst he
      have hdd : db = dp := isDepth_unique hdb hdp
      exact Or.inr (by omega)
    · exact Or.inr (by omega)

/-! ### Analysis of the DELETE_NODE path under the invariant -/

lemma getOutgoing_setOutgoing_opt (n : Node) (slot : ConnectionSlot) (c : Option String)
    (hc : c = none ∨ ∃ s, c = some s ∧ s ≠ "") :
    getOutgoingChildId (setOutgoingChildId n slot c) slot = c := by
  rcases hc with rfl | ⟨s, rfl, hs⟩
  · by_cases hb : n.type = NodeType.branch
    · cases hs : slot.getD true
      · simp [setOutgoingChildId, normalizeNode, getOutgoingChildId, exitsTrue, exitsFalse,
          hb, hs]
      · simp [setOutgoingChildId, normalizeNode, getOutgoingChildId, exitsTrue, exitsFalse,
          hb, hs]
    · simp [setOutgoingChildId, normalizeNode, getOutgoingChildId, hb, truthyStr]
  · exact getOutgoing_setOutgoing_same n slot s hs

lemma preferred_shape {wf : Workflow} {k : String} {node : Node}
    (h : InvNode wf k node) :
    preferredReconnectChildId node = none ∨
      ∃ pv, preferredReconnectChildId node = some pv ∧ pv ≠ "" ∧ pv ∈ node.children := by
  unfold preferredReconnectChildId
  by_cases hb : node.type = NodeType.branch
  · rw [if_pos hb]
    obtain ⟨_, hproj, _, _⟩ := invNode_branch h hb
    unfold jsOrStr
    by_cases ht : truthyStr (exitsTrue node) = true
    · rw [if_pos ht]
      obtain ⟨tv, htv, htve⟩ := truthyStr_true_iff.mp ht
      refine Or.inr ⟨tv, htv, htve, ?_⟩
      rw [hproj]
      unfold branchProjection truthyList
      rw [htv]
      simp [htve]
    · rw [if_neg (by simpa using ht)]
      by_cases hf : truthyStr (exitsFalse node) = true
      · rw [if_pos hf]
        obtain ⟨fv, hfv, hfve⟩ := truthyStr_true_iff.mp hf
        refine Or.inr ⟨fv, hfv, hfve, ?_⟩
        rw [hproj]
        unfold branchProjection truthyList
        rw [hfv]
        rcases truthyStr_false_iff.mp (by simpa using ht) with he | he <;>
          rw [he] <;> simp [hfve]
      · rw [if_neg (by simpa using hf)]
        exact Or.inl rfl
  · rw [if_neg hb]
    cases hc : node.children with
    | nil => exact Or.inl rfl
    | cons c0 rest =>
      obtain ⟨hc1, _, _⟩ := invNode_child h
        (show c0 ∈ node.children by rw [hc]; simp)
      exact Or.inr ⟨c0, rfl, hc1, by simp⟩

lemma nonbranch_children_singleton {wf : Workflow} {k c : String} {n : Node}
    (h : InvNode wf k n) (hb : n.type ≠ NodeType.branch) (hc : c ∈ n.children) :
    n.children = [c] := by
  have hlen := invNode_nonbranch h hb
  cases hl : n.children with
  | nil => rw [hl] at hc; simp at hc
  | cons a rest =>
    rw [hl] at hlen hc
    simp only [List.length_cons] at hlen
    have : rest = [] := by
      rw [← List.length_eq_zero]
      omega
    subst this
    simp only [List.mem_singleton] at hc
    rw [hc]

lemma truthyF_eq_some {o : Option String} {c : String} :
    (match o with
      | some s => if s = "" then none else some s
      | none => none) = some c ↔ o = some c ∧ c ≠ "" := by
  cases o with
  | none => simp
  | some s =>
    show (if s = "" then none else some s) = some c ↔ _
    by_cases hs : s = ""
    · rw [if_pos hs]
      constructor
      · intro h
        exact absurd h (by simp)
      · rintro ⟨he, hc⟩
        have hsc : s = c := Option.some.inj he
        exact absurd (hsc ▸ hs) hc
    · rw [if_neg hs]
      constructor
      · intro h
        have hsc : s = c := Option.some.inj h
        subst hsc
        exact ⟨rfl, hs⟩
      · rintro ⟨he, _⟩
        have hsc : s = c := Option.some.inj he
        rw [hsc]

lemma mem_truthyList_pair {a b : Option String} {c : String} :
    c ∈ truthyList [a, b] ↔ (a = some c ∧ c ≠ "") ∨ (b = some c ∧ c ≠ "") := by
  unfold truthyList
  rw [List.mem_filterMap]
  constructor
  · rintro ⟨o, ho, hf⟩
    rcases List.mem_cons.mp ho with rfl | ho2
    · exact Or.inl (truthyF_eq_some.mp hf)
    · rcases List.mem_cons.mp ho2 with rfl | ho3
      · exact Or.inr (truthyF_eq_some.mp hf)
      · simp at ho3
  · rintro (⟨ha, hc⟩ | ⟨hb, hc⟩)
    · exact ⟨a, by simp, truthyF_eq_some.mpr ⟨ha, hc⟩⟩
    · exact ⟨b, by simp, truthyF_eq_some.mpr ⟨hb, hc⟩⟩

/-- Membership in the children of `setOutgoingChildId n slot c'` for a
well-formed node: the new child value replaces exactly the occupant of the
written slot; everything else survives. -/
lemma setOut_children_iff {wf : Workflow} {k : String} {n : Node}
    (hn : InvNode wf k n) (slot : ConnectionSlot) (c' : Option String)
    (hc' : c' = none ∨ ∃ v, c' = some v ∧ v ≠ "") (x : String) :
    x ∈ (setOutgoingChildId n slot c').children ↔
      ((∃ v, c' = some v ∧ v ≠ "" ∧ x = v) ∨
        (x ∈ n.children ∧ getOutgoingChildId n slot ≠ some x)) := by
  have hfirst : x ∈ (if truthyStr c' = true then [c'.getD ""] else []) ↔
      (∃ v, c' = some v ∧ v ≠ "" ∧ x = v) := by
    rcases hc' with rfl | ⟨v, rfl, hv⟩
    · simp [truthyStr]
    · have ht : truthyStr (some v) = true := by simpa [truthyStr, bne_iff_ne] using hv
      rw [ht, if_pos rfl]
      simp only [Option.getD_some, List.mem_singleton]
      constructor
      · intro hxv
        exact ⟨v, rfl, hv, hxv⟩
      · rintro ⟨v', he, hv', rfl⟩
        exact (Option.some.inj he).symm
  have hpair : ∀ (o1 o2 : Option String),
      (x ∈ truthyList [o1, o2] ↔ (o1 = some x ∧ x ≠ "") ∨ (o2 = some x ∧ x ≠ "")) :=
    fun o1 o2 => mem_truthyList_pair
  by_cases hb : n.type = NodeType.branch
  · obtain ⟨hex, hproj, hte, hfe⟩ := invNode_branch hn hb
    have hnodup := invNode_childrenNodup hn
    have hcv : ∀ v, c' = some v → v ≠ "" →
        ((c' = some x ∧ x ≠ "") ↔ (∃ v', c' = some v' ∧ v' ≠ "" ∧ x = v')) := by
      rintro v rfl hv
      constructor
      · rintro ⟨he, _⟩
        exact ⟨v, rfl, hv, (Option.some.inj he).symm⟩
      · rintro ⟨v', he, hv', rfl⟩
        exact ⟨he, hv'⟩
    cases hs : slot.getD true with
    | false =>
      have hLHS : (setOutgoingChildId n slot c').children =
          truthyList [exitsTrue n, c'] := by
        unfold setOutgoingChildId
        rw [if_neg (by simpa using hb), hs]
        simp only [Bool.false_eq_true, if_false]
        unfold normalizeNode
        rw [if_neg (by simpa using hb)]
        simp [exitsTrue, exitsFalse]
      have hget : getOutgoingChildId n slot = exitsFalse n := by
        unfold getOutgoingChildId
        rw [if_neg (by simpa using hb), hs]
        simp
      rw [hLHS, hget, hpair, hproj]
      unfold branchProjection
      rw [hpair]
      constructor
      · rintro (⟨hx, hxe⟩ | ⟨hx, hxe⟩)
        · refine Or.inr ⟨Or.inl ⟨hx, hxe⟩, ?_⟩
          intro he
          have hdup : n.children = [x, x] := by
            rw [hproj]
            unfold branchProjection truthyList
            rw [hx, he]
            simp [hxe]
          rw [hdup] at hnodup
          simp at hnodup
        · rcases hc' with rfl | ⟨v, hv, hve⟩
          · simp at hx
          · exact Or.inl ((hcv v hv hve).mp ⟨hx, hxe⟩)
      · rintro (⟨v, hv, hve, rfl⟩ | ⟨hmem2, hne⟩)
        · refine Or.inr ⟨by rw [hv], hve⟩
        · rcases hmem2 with ⟨hx, hxe⟩ | ⟨hx, hxe⟩
          · exact Or.inl ⟨hx, hxe⟩
          · exact absurd hx hne
    | true =>
      have hLHS : (setOutgoingChildId n slot c').children =
          truthyList [c', exitsFalse n] := by
        unfold setOutgoingChildId
        rw [if_neg (by simpa using hb), hs]
        simp only [if_true]
        unfold normalizeNode
        rw [if_neg (by simpa using hb)]
        simp [exitsTrue, exitsFalse]
      have hget : getOutgoingChildId n slot = exitsTrue n := by
        unfold getOutgoingChildId
        rw [if_neg (by simpa using hb), hs]
        simp
      rw [hLHS, hget, hpair, hproj]
      unfold branchProjection
      rw [hpair]
      constructor
      · rintro (⟨hx, hxe⟩ | ⟨hx, hxe⟩)
        · rcases hc' with rfl | ⟨v, hv, hve⟩
          · simp at hx
          · exact Or.inl ((hcv v hv hve).mp ⟨hx, hxe⟩)
        · refine Or.inr ⟨Or.inr ⟨hx, hxe⟩, ?_⟩
          intro he
          have hdup : n.children = [x, x] := by
            rw [hproj]
            unfold branchProjection truthyList
            rw [hx, he]
            simp [hxe]
          rw [hdup] at hnodup
          simp at hnodup
      · rintro (⟨v, hv, hve, rfl⟩ | ⟨hmem2, hne⟩)
        · refine Or.inl ⟨by rw [hv], hve⟩
        · rcases hmem2 with ⟨hx, hxe⟩ | ⟨hx, hxe⟩
          · exact absurd hx hne
          · exact Or.inr ⟨hx, hxe⟩
  · have hLHS : (setOutgoingChildId n slot c').children =
        if truthyStr c' = true then [c'.getD ""] else [] := by
      unfold setOutgoingChildId
      rw [if_pos (by simpa using hb)]
      unfold normalizeNode
      rw [if_pos (by simpa using hb)]
      cases truthyStr c' <;> simp
    have hget : getOutgoingChildId n slot = n.children.head? := by
      unfold getOutgoingChildId
      rw [if_pos (by simpa using hb)]
    rw [hLHS, hget, hfirst]
    constructor
    · exact Or.inl
    · rintro (h | ⟨hmem2, hne⟩)
      · exact h
      · have hsing := nonbranch_children_singleton hn hb hmem2
        rw [hsing] at hne
        simp at hne

lemma findSlot_getOut {wf : Workflow} {k c : String} {n : Node}
    (hn : InvNode wf k n) (hc : c ∈ n.children) :
    getOutgoingChildId n (findSlotForChild n c) = some c := by
  by_cases hb : n.type = NodeType.branch
  · obtain ⟨hex, hproj, hte, hfe⟩ := invNode_branch hn hb
    have hc2 := hc
    rw [hproj] at hc2
    unfold branchProjection at hc2
    rw [mem_truthyList_pair] at hc2
    unfold findSlotForChild getOutgoingChildId
    rw [if_pos hb, if_neg (by simpa using hb)]
    rcases hc2 with ⟨ht, hce⟩ | ⟨hf, hce⟩
    · rw [if_pos ht]
      simpa using ht
    · by_cases ht : exitsTrue n = some c
      · rw [if_pos ht]
        simpa using ht
      · rw [if_neg ht, if_pos hf]
        simpa using hf
  · have hsing := nonbranch_children_singleton hn hb hc
    unfold findSlotForChild getOutgoingChildId
    rw [if_neg hb, if_pos (by simpa using hb), hsing]
    rfl

lemma nodup_truthyList_pair {a b : Option String}
    (h : ∀ v, a = some v → b = some v → False) : (truthyList [a, b]).Nodup := by
  unfold truthyList
  cases a with
  | none =>
    cases b with
    | none => simp
    | some sb => by_cases hb : sb = "" <;> simp [hb]
  | some sa =>
    cases b with
    | none => by_cases ha : sa = "" <;> simp [ha]
    | some sb =>
      by_cases ha : sa = "" <;> by_cases hb : sb = "" <;> simp [ha, hb]
      intro he
      exact h sa rfl (by rw [he])

lemma setOut_children_nodup {wf : Workflow} {k : String} {n : Node}
    (hn : InvNode wf k n) (slot : ConnectionSlot) (c' : Option String)
    (hfresh : ∀ v, c' = some v → v ∉ n.children) :
    (setOutgoingChildId n slot c').children.Nodup := by
  by_cases hb : n.type = NodeType.branch
  · obtain ⟨hex, hproj, hte, hfe⟩ := invNode_branch hn hb
    unfold setOutgoingChildId
    rw [if_neg (by simpa using hb)]
    cases hs : slot.getD true
    · simp only [Bool.false_eq_true, if_false]
      unfold normalizeNode
      rw [if_neg (by simpa using hb)]
      simp only [exitsTrue, exitsFalse, Option.some_bind]
      apply nodup_truthyList_pair
      intro v ht hc
      have ht' : exitsTrue n = some v := ht
      have hv : v ≠ "" := by
        intro he
        exact hte (he ▸ ht')
      have hmem : v ∈ n.children := by
        rw [hproj]
        unfold branchProjection
        rw [mem_truthyList_pair]
        exact Or.inl ⟨ht', hv⟩
      exact hfresh v hc hmem
    · simp only [if_true]
      unfold normalizeNode
      rw [if_neg (by simpa using hb)]
      simp only [exitsTrue, exitsFalse, Option.some_bind]
      apply nodup_truthyList_pair
      intro v hc hf
      have hf' : exitsFalse n = some v := hf
      have hv : v ≠ "" := by
        intro he
        exact hfe (he ▸ hf')
      have hmem : v ∈ n.children := by
        rw [hproj]
        unfold branchProjection
        rw [mem_truthyList_pair]
        exact Or.inr ⟨hf', hv⟩
      exact hfresh v hc hmem
  · unfold setOutgoingChildId
    rw [if_pos (by simpa using hb)]
    unfold normalizeNode
    rw [if_pos (by simpa using hb)]
    cases truthyStr c' <;> simp

lemma setOut_branch_exits (n : Node) (slot : ConnectionSlot) (c' : Option String)
    (hb : n.type = NodeType.branch)
    (hc' : c' ≠ some "")
    (hte : exitsTrue n ≠ some "") (hfe : exitsFalse n ≠ some "") :
    (setOutgoingChildId n slot c').exits ≠ none ∧
      exitsTrue (setOutgoingChildId n slot c') ≠ some "" ∧
      exitsFalse (setOutgoingChildId n slot c') ≠ some "" := by
  unfold setOutgoingChildId
  rw [if_neg (by simpa using hb)]
  cases hs : slot.getD true
  · simp only [Bool.false_eq_true, if_false]
    unfold normalizeNode
    rw [if_neg (by simpa using hb)]
    simp only [exitsTrue, exitsFalse, Option.some_bind]
    exact ⟨by simp, hte, hc'⟩
  · simp only [if_true]
    unfold normalizeNode
    rw [if_neg (by simpa using hb)]
    simp only [exitsTrue, exitsFalse, Option.some_bind]
    exact ⟨by simp, hc', hfe⟩

lemma setOut_nonbranch_len (n : Node) (slot : ConnectionSlot) (c' : Option String)
    (hb : n.type ≠ NodeType.branch) :
    (setOutgoingChildId n slot c').children.length ≤ 1 := by
  unfold setOutgoingChildId
  rw [if_pos (by simpa using hb)]
  unfold normalizeNode
  rw [if_pos (by simpa using hb)]
  cases truthyStr c' <;> simp

/-- Case analysis of the DELETE_NODE reconnect/orphan computation for a
well-formed node: either nothing is orphaned, or the node is a branch with
both exits occupied, the true exit is promoted and the false exit is the
single orphan root. -/
lemma delete_cases {wf : Workflow} {k : String} {node : Node}
    (hn : InvNode wf k node) :
    orphanRoots node = [] ∨
    (node.type = NodeType.branch ∧ ∃ tv fv, exitsTrue node = some tv ∧
      exitsFalse node = some fv ∧ tv ≠ "" ∧ fv ≠ "" ∧ tv ≠ fv ∧
      preferredReconnectChildId node = some tv ∧ orphanRoots node = [fv] ∧
      tv ∈ node.children ∧ fv ∈ node.children) := by
  by_cases hb : node.type = NodeType.branch
  · obtain ⟨hex, hproj, hte, hfe⟩ := invNode_branch hn hb
    have hnodup := invNode_childrenNodup hn
    by_cases ht : truthyStr (exitsTrue node) = true
    · obtain ⟨tv, htv, htve⟩ := truthyStr_true_iff.mp ht
      have hpref : preferredReconnectChildId node = some tv := by
        unfold preferredReconnectChildId jsOrStr
        rw [if_pos hb, if_pos ht, htv]
      by_cases hf : truthyStr (exitsFalse node) = true
      · obtain ⟨fv, hfv, hfve⟩ := truthyStr_true_iff.mp hf
        have htmem : tv ∈ node.children := by
          rw [hproj]
          unfold branchProjection
          rw [mem_truthyList_pair]
          exact Or.inl ⟨htv, htve⟩
        have hfmem : fv ∈ node.children := by
          rw [hproj]
          unfold branchProjection
          rw [mem_truthyList_pair]
          exact Or.inr ⟨hfv, hfve⟩
        have htfne : tv ≠ fv := by
          intro he
          have : node.children = [tv, tv] := by
            rw [hproj]
            unfold branchProjection truthyList
            rw [htv, hfv, ← he]
            simp [htve]
          rw [this] at hnodup
          simp at hnodup
        refine Or.inr ⟨hb, tv, fv, htv, hfv, htve, hfve, htfne, hpref, ?_, htmem, hfmem⟩
        unfold orphanRoots
        rw [if_pos hb, if_pos ⟨by rw [hpref, htv], hf⟩, hfv,
          if_neg ?_]
        · simp
        · rintro ⟨he, _⟩
          rw [hpref] at he
          exact htfne (Option.some.inj he)
      · refine Or.inl ?_
        unfold orphanRoots
        rw [if_pos hb, if_neg (fun hcon => hf hcon.2), if_neg ?_]
        · simp
        · rintro ⟨he, _⟩
          rw [hpref] at he
          rcases truthyStr_false_iff.mp (by simpa using hf) with hn2 | hn2 <;>
            rw [hn2] at he
          · exact absurd he (by simp)
          · exact htve (Option.some.inj he)
    · have hpref : preferredReconnectChildId node = jsOrStr (exitsFalse node) none := by
        unfold preferredReconnectChildId jsOrStr
        rw [if_pos hb, if_neg (by simpa using ht)]
      refine Or.inl ?_
      unfold orphanRoots
      rw [if_pos hb, if_neg ?_, if_neg (fun hcon => ht hcon.2)]
      · simp
      · rintro ⟨he, hfr⟩
        rw [hpref] at he
        unfold jsOrStr at he
        by_cases hf : truthyStr (exitsFalse node) = true
        · rw [if_pos hf] at he
          obtain ⟨fv, hfv, hfve⟩ := truthyStr_true_iff.mp hf
          rw [hfv] at he
          rcases truthyStr_false_iff.mp (by simpa using ht) with hn2 | hn2 <;>
            rw [hn2] at he
          · exact absurd he (by simp)
          · exact hfve (Option.some.inj he)
        · exact hf hfr
  · refine Or.inl ?_
    unfold orphanRoots
    rw [if_neg hb]

lemma subtree_parent_closed {wf : Workflow} {r x px : String} {nx : Node}
    (hInv : TreeInv wf) (hfx : wf.find x = some nx) (hpx : nx.parentId = some px)
    (hxr : x ≠ r) (hvx : Visits wf r x) : Visits wf r px := by
  cases hvx with
  | self h => exact absurd rfl hxr
  | step hb hfb hcb hce =>
    next b nb =>
    obtain ⟨_, _, cn, hfc, hcp⟩ := invNode_child (treeInv_invNode hInv hfb) hcb
    have hcne : cn = nx := by
      rw [hfx] at hfc
      exact (Option.some.inj hfc).symm
    subst hcne
    rw [hpx] at hcp
    have hpb : px = b := Option.some.inj hcp
    subst hpb
    exact hb

lemma depth_child_succ {wf : Workflow} {k c : String} {kn : Node} {d : Nat}
    (hInv : TreeInv wf) (hfk : wf.find k = some kn) (hc : c ∈ kn.children)
    (hd : IsDepth wf k d) : IsDepth wf c (d + 1) := by
  obtain ⟨hce, hcr, cn, hfc, hcp⟩ := invNode_child (treeInv_invNode hInv hfk) hc
  have hvc : Visits wf wf.rootId c := treeInv_visits hInv hfc
  obtain ⟨dc, hdc⟩ := isDepth_exists hvc
  obtain ⟨dq, hdq, he⟩ := isDepth_parent hInv hfc hcr hcp hdc
  have hqd : dq = d := isDepth_unique hdq hd
  have : dc = d + 1 := by omega
  exact this ▸ hdc

lemma not_visits_of_depth {wf : Workflow} {r x : String} {nr : Node} {dr dx : Nat}
    (hInv : TreeInv wf) (hfr : wf.find r = some nr) (hdr : IsDepth wf r dr)
    (hdx : IsDepth wf x dx) (hne : r ≠ x) (hle : dx ≤ dr) : ¬ Visits wf r x := by
  intro hv
  obtain ⟨nx, hfx, hstrict⟩ := isDepth_strict hInv hfr hv
  rcases hstrict dr dx hdr hdx with he | hlt
  · exact hne he
  · omega

lemma ne_of_depth_ne {wf : Workflow} {a b : String} {da db : Nat}
    (hda : IsDepth wf a da) (hdb : IsDepth wf b db) (hne : da ≠ db) : a ≠ b := by
  intro he
  subst he
  exact hne (isDepth_unique hda hdb)

lemma visits_find_isSome {wf : Workflow} {r x : String} (hv : Visits wf r x)
    (hr : x ≠ r) : ∃ b nb, wf.find b = some nb ∧ x ∈ nb.children := by
  cases hv with
  | self _ => exact absurd rfl hr
  | step hb hfb hcb _ => exact ⟨_, _, hfb, hcb⟩

lemma reparentIn_assocFind (m : List (String × Node)) (c : Option String)
    (np x : String) :
    assocFind (reparentIn m c np) x =
      if truthyStr c = true ∧ x = c.getD "" ∧ (assocFind m (c.getD "")).isSome = true then
        (assocFind m x).map (fun ch => { ch with parentId := some np })
      else assocFind m x := by
  unfold reparentIn
  cases htr : truthyStr c
  · simp
  · simp only [if_true]
    cases hc : assocFind m (c.getD "") with
    | none =>
      rw [if_neg (by rintro ⟨_, _, hs⟩; simp at hs)]
    | some ch =>
      rw [assocFind_mapSet]
      by_cases hx : x = c.getD ""
      · subst hx
        simp [hc]
      · rw [if_neg hx, if_neg (by rintro ⟨_, he, _⟩; exact hx he)]

lemma delete_core_promote
    {wf : Workflow} {nid pid pv : String} {node pn : Node}
    (hInv : TreeInv wf)
    (hfind : wf.find nid = some node)
    (hnroot : nid ≠ wf.rootId)
    (hpidv : node.parentId = some pid)
    (hfp : wf.find pid = some pn)
    (hpv : preferredReconnectChildId node = some pv)
    (hpve : pv ≠ "") (hpvmem : pv ∈ node.children)
    (hcover : ∀ c ∈ node.children, c = pv ∨ c ∈ orphanRoots node)
    (horphch : ∀ r ∈ orphanRoots node, r ∈ node.children ∧ r ≠ pv) :
    TreeInv (deleteResult wf nid node pn) := by
  have hnd := treeInv_keysNodup hInv
  have hrootne := treeInv_rootNe hInv
  have hInvN := treeInv_invNode hInv hfind
  have hInvP := treeInv_invNode hInv hfp
  -- parent facts
  obtain ⟨q0, nq0, hq0, hq0ne, hfq0, hmem0⟩ := invNode_parent hInvN hnroot
  have hq0pid : q0 = pid := by
    rw [hpidv] at hq0
    exact (Option.some.inj hq0).symm
  rw [hq0pid] at hq0ne hfq0
  have hnq0 : nq0 = pn := by
    rw [hfp] at hfq0
    exact (Option.some.inj hfq0).symm
  rw [hnq0] at hmem0
  have hpidne : pid ≠ "" := hq0ne
  have hmem : nid ∈ pn.children := hmem0
  have hnidne : nid ≠ "" := (invNode_child hInvP hmem).1
  -- depths
  have hvnid : Visits wf wf.rootId nid := treeInv_visits hInv hfind
  obtain ⟨dn, hdn⟩ := isDepth_exists hvnid
  obtain ⟨dp, hdp, hdnp⟩ := isDepth_parent hInv hfind hnroot hpidv hdn
  have hpid_nid : pid ≠ nid := ne_of_depth_ne hdp hdn (by omega)
  -- preferred child facts
  obtain ⟨hpve2, hpvroot, pvn2, hfpv, hpvpar⟩ := invNode_child hInvN hpvmem
  have hd_pv : IsDepth wf pv (dn + 1) := depth_child_succ hInv hfind hpvmem hdn
  have hpv_pid : pv ≠ pid := ne_of_depth_ne hd_pv hdp (by omega)
  have hpv_nid : pv ≠ nid := ne_of_depth_ne hd_pv hdn (by omega)
  -- orphan root facts
  have horf : ∀ r ∈ orphanRoots node, r ≠ "" ∧ r ≠ wf.rootId ∧ IsDepth wf r (dn + 1) ∧
      ∃ rn, wf.find r = some rn ∧ rn.parentId = some nid := by
    intro r hr
    obtain ⟨hrch, _⟩ := horphch r hr
    obtain ⟨hre, hrroot, rn, hfr, hrpar⟩ := invNode_child hInvN hrch
    exact ⟨hre, hrroot, depth_child_succ hInv hfind hrch hdn, rn, hfr, hrpar⟩
  -- the deleted set
  have hD : ∀ x, x ∈ idsToDelete wf nid node ↔
      x = nid ∨ ∃ r ∈ orphanRoots node, Visits wf r x := by
    intro x
    unfold idsToDelete
    rw [List.mem_cons]
    constructor
    · rintro (rfl | hx)
      · exact Or.inl rfl
      · rcases List.mem_flatMap.mp hx with ⟨r, hr, hxr⟩
        exact Or.inr ⟨r, hr, visits_of_mem_collect hxr⟩
    · rintro (rfl | ⟨r, hr, hv⟩)
      · exact Or.inl rfl
      · exact Or.inr (List.mem_flatMap.mpr ⟨r, hr, mem_collect_of_visits hnd hv⟩)
  have hnotD : ∀ x nx dx, wf.find x = some nx → IsDepth wf x dx → dx ≤ dn + 1 →
      x ≠ nid → (∀ r ∈ orphanRoots node, r ≠ x) → x ∉ idsToDelete wf nid node := by
    intro x nx dx hfx hdx hle hxnid hxr hmemD
    rcases (hD x).mp hmemD with rfl | ⟨r, hr, hv⟩
    · exact hxnid rfl
    · obtain ⟨hre, hrroot, hdr, rn, hfr, _⟩ := horf r hr
      exact not_visits_of_depth hInv hfr hdr hdx (hxr r hr) hle hv
  have hpid_D : pid ∉ idsToDelete wf nid node := by
    refine hnotD pid pn dp hfp hdp (by omega) hpid_nid ?_
    intro r hr
    obtain ⟨_, _, hdr, _⟩ := horf r hr
    exact ne_of_depth_ne hdr hdp (by omega)
  have hpv_D : pv ∉ idsToDelete wf nid node := by
    refine hnotD pv pvn2 (dn + 1) hfpv hd_pv (by omega) hpv_nid ?_
    intro r hr
    exact (horphch r hr).2
  have hroot_D : wf.rootId ∉ idsToDelete wf nid node := by
    obtain ⟨r0, hfr0, _, _⟩ := treeInv_root hInv
    refine hnotD wf.rootId r0 0 hfr0 (isDepth_root hInv) (by omega)
      (fun h => hnroot h.symm) ?_
    intro r hr
    exact (horf r hr).2.1
  have hnidD : nid ∈ idsToDelete wf nid node := (hD nid).mpr (Or.inl rfl)
  have hupid : (setOutgoingChildId pn (findSlotForChild pn nid)
      (preferredReconnectChildId node)).id = pid := by
    rw [setOutgoingChildId_id]
    exact invNode_id hInvP
  have hgetpn : getOutgoingChildId pn (findSlotForChild pn nid) = some nid :=
    findSlot_getOut hInvP hmem
  have hup_mem : ∀ x, x ∈ (setOutgoingChildId pn (findSlotForChild pn nid)
      (preferredReconnectChildId node)).children ↔
      (x = pv ∨ (x ∈ pn.children ∧ x ≠ nid)) := by
    intro x
    rw [setOut_children_iff hInvP (findSlotForChild pn nid)
      (preferredReconnectChildId node) (Or.inr ⟨pv, hpv, hpve⟩) x, hgetpn, hpv]
    constructor
    · rintro (⟨v, hve, _, rfl⟩ | ⟨hm, hne⟩)
      · exact Or.inl (Option.some.inj hve).symm
      · exact Or.inr ⟨hm, fun he => hne (by rw [he])⟩
    · rintro (rfl | ⟨hm, hne⟩)
      · exact Or.inl ⟨x, rfl, hpve, rfl⟩
      · exact Or.inr ⟨hm, fun he => hne (Option.some.inj he).symm⟩
  have hchar : ∀ x, (deleteResult wf nid node pn).find x =
      if x ∈ idsToDelete wf nid node then none
      else if x = pv then some ({ pvn2 with parentId := some pid })
      else if x = pid then
        some (setOutgoingChildId pn (findSlotForChild pn nid)
          (preferredReconnectChildId node))
      else wf.find x := by
    intro x
    show assocFind (deleteResult wf nid node pn).nodes x = _
    unfold deleteResult
    simp only
    rw [assocFind_removeIds]
    by_cases hxD : x ∈ idsToDelete wf nid node
    · rw [if_pos hxD, if_pos hxD]
    · rw [if_neg hxD, if_neg hxD, reparentIn_assocFind, hupid, hpv]
      simp only [Option.getD_some]
      have htr : truthyStr (some pv) = true := by
        simpa [truthyStr, bne_iff_ne] using hpve
      have hafpv : assocFind (mapSet wf.nodes pid
          (setOutgoingChildId pn (findSlotForChild pn nid)
            (some pv))) pv = some pvn2 := by
        rw [assocFind_mapSet, if_neg hpv_pid]
        exact hfpv
      by_cases hxpv : x = pv
      · rw [hxpv, if_pos rfl, if_pos ⟨htr, rfl, by rw [hafpv]; rfl⟩, hafpv]
        rfl
      · rw [if_neg (fun h => hxpv h.2.1), if_neg hxpv, assocFind_mapSet]
        rfl
  have hedge : ∀ q nq x, q ∉ idsToDelete wf nid node → wf.find q = some nq →
      x ∈ nq.children → x ≠ nid →
      ∃ nq', (deleteResult wf nid node pn).find q = some nq' ∧ x ∈ nq'.children := by
    intro q nq x hqD hfq hxq hxnid
    rw [hchar q, if_neg hqD]
    by_cases hqpv : q = pv
    · subst hqpv
      rw [if_pos rfl]
      have : nq = pvn2 := by rw [hfpv] at hfq; exact (Option.some.inj hfq).symm
      subst this
      exact ⟨_, rfl, hxq⟩
    · rw [if_neg hqpv]
      by_cases hqpid : q = pid
      · subst hqpid
        rw [if_pos rfl]
        have : nq = pn := by rw [hfp] at hfq; exact (Option.some.inj hfq).symm
        subst this
        exact ⟨_, rfl, (hup_mem x).mpr (Or.inr ⟨hxq, hxnid⟩)⟩
      · rw [if_neg hqpid]
        exact ⟨nq, hfq, hxq⟩
  have hsurvchild : ∀ k nk c, k ∉ idsToDelete wf nid node → wf.find k = some nk →
      c ∈ nk.children → c ≠ nid → c ∉ idsToDelete wf nid node := by
    intro k nk c hkD hfk hc hcnid hcD
    obtain ⟨hce, hcr, cn, hfc, hcp⟩ := invNode_child (treeInv_invNode hInv hfk) hc
    rcases (hD c).mp hcD with rfl | ⟨r, hr, hv⟩
    · exact hcnid rfl
    · obtain ⟨hre, hrroot, hdr, rn, hfr, hrpar⟩ := horf r hr
      by_cases hcrq : c = r
      · subst hcrq
        have : cn = rn := by rw [hfr] at hfc; exact (Option.some.inj hfc).symm
        subst this
        rw [hrpar] at hcp
        exact hkD ((Option.some.inj hcp) ▸ hnidD)
      · exact hkD ((hD k).mpr (Or.inr ⟨r, hr,
          subtree_parent_closed hInv hfc hcp hcrq hv⟩))
  have htrans : ∀ d x nx, wf.find x = some nx → x ∉ idsToDelete wf nid node →
      IsDepth wf x d → Visits (deleteResult wf nid node pn) wf.rootId x := by
    intro d
    induction d using Nat.strong_induction_on with
    | _ d ih =>
      intro x nx hfx hxD hdx
      by_cases hxr : x = wf.rootId
      · rw [hxr]
        exact Visits.self hrootne
      · obtain ⟨qx, nqx, hqx, hqxne, hfqx, hmemx⟩ :=
          invNode_parent (treeInv_invNode hInv hfx) hxr
        obtain ⟨dq, hdq, hde⟩ := isDepth_parent hInv hfx hxr hqx hdx
        have hxne : x ≠ "" := (invNode_child (treeInv_invNode hInv hfqx) hmemx).1
        by_cases hqD : qx ∈ idsToDelete wf nid node
        · rcases (hD qx).mp hqD with hqnid | ⟨r, hr, hv⟩
          · rw [hqnid] at hfqx hdq
            have hnqx : nqx = node := by
              rw [hfind] at hfqx
              exact (Option.some.inj hfqx).symm
            have hxpv : x = pv := by
              rcases hcover x (hnqx ▸ hmemx) with he | hxorph
              · exact he
              · exact absurd ((hD x).mpr (Or.inr ⟨x, hxorph, Visits.self hxne⟩)) hxD
            have hdqn : dq = dn := isDepth_unique hdq hdn
            have hpidvis : Visits (deleteResult wf nid node pn) wf.rootId pid :=
              ih dp (by omega) pid pn hfp hpid_D hdp
            have hfpid' : (deleteResult wf nid node pn).find pid =
                some (setOutgoingChildId pn (findSlotForChild pn nid)
                  (preferredReconnectChildId node)) := by
              rw [hchar pid, if_neg hpid_D, if_neg (Ne.symm hpv_pid), if_pos rfl]
            rw [hxpv]
            exact Visits.step hpidvis hfpid' ((hup_mem pv).mpr (Or.inl rfl)) (hxpv ▸ hxne)
          · exact absurd ((hD x).mpr (Or.inr ⟨r, hr,
              Visits.step hv hfqx hmemx hxne⟩)) hxD
        · have hqvis : Visits (deleteResult wf nid node pn) wf.rootId qx :=
            ih dq (by omega) qx nqx hfqx hqD hdq
          obtain ⟨nq', hfq', hxq'⟩ := hedge qx nqx x hqD hfqx hmemx
            (fun he => hxD (he ▸ hnidD))
          exact Visits.step hqvis hfq' hxq' hxne
  have hInvPv : InvNode wf pv pvn2 := treeInv_invNode hInv hfpv
  have hpv_pn : pv ∉ pn.children := by
    intro hmem2
    exact hpid_nid (treeInv_parent_unique hInv hfp hmem2 hfind hpvmem)
  have hnd2 : ((deleteResult wf nid node pn).nodes.map (fun p => p.1)).Nodup := by
    unfold deleteResult
    simp only
    apply nodup_keys_removeIds
    unfold reparentIn
    split
    · split
      · exact nodup_keys_mapSet _ _ _ (nodup_keys_mapSet _ _ _ hnd)
      · exact nodup_keys_mapSet _ _ _ hnd
    · exact nodup_keys_mapSet _ _ _ hnd
  have hfpid2 : (deleteResult wf nid node pn).find pid =
      some (setOutgoingChildId pn (findSlotForChild pn nid)
        (preferredReconnectChildId node)) := by
    rw [hchar pid, if_neg hpid_D, if_neg (Ne.symm hpv_pid), if_pos rfl]
  have hfpv2 : (deleteResult wf nid node pn).find pv =
      some ({ pvn2 with parentId := some pid }) := by
    rw [hchar pv, if_neg hpv_D, if_pos rfl]
  have hsurvok : ∀ k c, k ∉ idsToDelete wf nid node → c ∉ idsToDelete wf nid node →
      childOk wf k c → childOk (deleteResult wf nid node pn) k c := by
    intro k c hkD hcD hok
    obtain ⟨hce, hcr, hcp⟩ := hok
    refine ⟨hce, hcr, ?_⟩
    rw [hchar c, if_neg hcD]
    by_cases hcpv : c = pv
    · exfalso
      obtain ⟨cn, hfc, hcp2⟩ := Option.map_eq_some'.mp hcp
      rw [hcpv, hfpv] at hfc
      have hcn : cn = pvn2 := (Option.some.inj hfc).symm
      rw [hcn, hpvpar] at hcp2
      have hknid : k = nid := (Option.some.inj hcp2).symm
      rw [hknid] at hkD
      exact hkD hnidD
    · rw [if_neg hcpv]
      by_cases hcpid : c = pid
      · rw [if_pos hcpid]
        simp only [Option.map_some']
        rw [setOutgoingChildId_parentId]
        obtain ⟨cn, hfc, hcp2⟩ := Option.map_eq_some'.mp hcp
        rw [hcpid, hfp] at hfc
        have hcn : cn = pn := (Option.some.inj hfc).symm
        rw [← hcn, hcp2]
      · rw [if_neg hcpid]
        exact hcp
  have hparOk : ∀ k nk, k ∉ idsToDelete wf nid node → k ≠ pv → wf.find k = some nk →
      k ≠ wf.rootId →
      ∃ q nq2, nk.parentId = some q ∧ q ≠ "" ∧
        (deleteResult wf nid node pn).find q = some nq2 ∧ k ∈ nq2.children := by
    intro k nk hkD hkpv hfk hkr
    obtain ⟨q, nq, hq, hqne, hfq, hmemq⟩ := invNode_parent (treeInv_invNode hInv hfk) hkr
    have hknid : k ≠ nid := fun he => hkD (he ▸ hnidD)
    have hkne : k ≠ "" := (invNode_child (treeInv_invNode hInv hfq) hmemq).1
    have hqD : q ∉ idsToDelete wf nid node := by
      intro hqD2
      rcases (hD q).mp hqD2 with hqnid | ⟨r, hr, hv⟩
      · rw [hqnid, hfind] at hfq
        have hnq : nq = node := (Option.some.inj hfq).symm
        rcases hcover k (hnq ▸ hmemq) with he | ho
        · exact hkpv he
        · exact hkD ((hD k).mpr (Or.inr ⟨k, ho, Visits.self hkne⟩))
      · exact hkD ((hD k).mpr (Or.inr ⟨r, hr, Visits.step hv hfq hmemq hkne⟩))
    obtain ⟨nq2, hfq2, hk2⟩ := hedge q nq k hqD hfq hmemq hknid
    exact ⟨q, nq2, hq, hqne, hfq2, hk2⟩
  have hreach2 : ∀ k nk, k ∉ idsToDelete wf nid node → wf.find k = some nk →
      k ∈ collectSubtreeIds (deleteResult wf nid node pn)
        (deleteResult wf nid node pn).rootId := by
    intro k nk hkD hfk
    obtain ⟨d, hd⟩ := isDepth_exists (treeInv_visits hInv hfk)
    exact (mem_collect_iff_visits hnd2).mpr (htrans d k nk hfk hkD hd)
  have htrpid : truthyStr (some pid) = true := by
    simpa [truthyStr, bne_iff_ne] using hpidne
  refine ⟨hnd2, hrootne, ?_, ?_⟩
  · show ((deleteResult wf nid node pn).find wf.rootId).map
        (fun r => (r.parentId, r.type)) = some (none, NodeType.start)
    rw [hchar wf.rootId, if_neg hroot_D, if_neg (fun he => hpvroot he.symm)]
    by_cases hrpid : wf.rootId = pid
    · rw [if_pos hrpid]
      have hroot4 := hInv.2.2.1
      rw [hrpid, hfp] at hroot4
      simp only [Option.map_some'] at hroot4 ⊢
      rw [setOutgoingChildId_parentId, setOutgoingChildId_type]
      exact hroot4
    · rw [if_neg hrpid]
      exact hInv.2.2.1
  · intro p hp
    obtain ⟨k, n⟩ := p
    show InvNode (deleteResult wf nid node pn) k n
    have hfind2 : (deleteResult wf nid node pn).find k = some n :=
      mem_nodup_assocFind hnd2 hp
    rw [hchar k] at hfind2
    by_cases hkD : k ∈ idsToDelete wf nid node
    · rw [if_pos hkD] at hfind2
      exact absurd hfind2 (by simp)
    · rw [if_neg hkD] at hfind2
      by_cases hkpv : k = pv
      · rw [if_pos hkpv] at hfind2
        have hn : n = { pvn2 with parentId := some pid } :=
          (Option.some.inj hfind2).symm
        rw [hkpv, hn]
        refine ⟨?_, ?_, ?_, ?_, ?_, ?_, ?_, ?_⟩
        · show pvn2.id = pv
          exact invNode_id hInvPv
        · intro c hc
          have hc2 : c ∈ pvn2.children := hc
          have hcnid : c ≠ nid := by
            intro he
            obtain ⟨_, _, cn, hfc, hcp⟩ := invNode_child hInvPv hc2
            rw [he, hfind] at hfc
            have hcn : cn = node := (Option.some.inj hfc).symm
            rw [hcn, hpidv] at hcp
            exact hpv_pid (Option.some.inj hcp).symm
          exact hsurvok pv c hpv_D
            (hsurvchild pv pvn2 c hpv_D hfpv hc2 hcnid) (hInvPv.2.1 c hc2)
        · show pvn2.children.Nodup
          exact invNode_childrenNodup hInvPv
        · intro hkr
          refine ⟨htrpid, ?_⟩
          show ((deleteResult wf nid node pn).find pid).map
            (fun nq => decide (pv ∈ nq.children)) = some true
          rw [hfpid2]
          simp only [Option.map_some']
          rw [decide_eq_true ((hup_mem pv).mpr (Or.inl rfl))]
        · intro hb
          show pvn2.exits ≠ none ∧ pvn2.children = branchProjection pvn2 ∧
            exitsTrue pvn2 ≠ some "" ∧ exitsFalse pvn2 ≠ some ""
          exact invNode_branch hInvPv hb
        · intro hb
          show pvn2.children.length ≤ 1
          exact invNode_nonbranch hInvPv hb
        · intro hb
          show pvn2.children = []
          exact invNode_end hInvPv hb
        · exact hreach2 pv pvn2 hpv_D hfpv
      · rw [if_neg hkpv] at hfind2
        by_cases hkpid : k = pid
        · rw [if_pos hkpid] at hfind2
          have hn : n = setOutgoingChildId pn (findSlotForChild pn nid)
              (preferredReconnectChildId node) := (Option.some.inj hfind2).symm
          rw [hkpid, hn]
          refine ⟨?_, ?_, ?_, ?_, ?_, ?_, ?_, ?_⟩
          · exact hupid
          · intro c hc
            rcases (hup_mem c).mp hc with hcpv | ⟨hcm, hcnid⟩
            · rw [hcpv]
              refine ⟨hpve, hpvroot, ?_⟩
              rw [hfpv2]
              simp only [Option.map_some']
            · exact hsurvok pid c hpid_D
                (hsurvchild pid pn c hpid_D hfp hcm hcnid) (hInvP.2.1 c hcm)
          · exact setOut_children_nodup hInvP _ _ (by
              intro v hv
              rw [hpv] at hv
              rw [(Option.some.inj hv).symm]
              exact hpv_pn)
          · intro hkr
            have hkr2 : pid ≠ wf.rootId := hkr
            obtain ⟨q, nq2, hq, hqne, hfq2, hk2⟩ :=
              hparOk pid pn hpid_D (Ne.symm hpv_pid) hfp hkr2
            refine ⟨?_, ?_⟩
            · rw [setOutgoingChildId_parentId, hq]
              simpa [truthyStr, bne_iff_ne] using hqne
            · rw [setOutgoingChildId_parentId, hq]
              simp only [Option.getD_some]
              rw [hfq2]
              simp only [Option.map_some']
              rw [decide_eq_true hk2]
          · intro hb
            have hb2 : pn.type = NodeType.branch := by
              rw [setOutgoingChildId_type] at hb
              exact hb
            obtain ⟨hex0, hproj0, hte0, hfe0⟩ := invNode_branch hInvP hb2
            obtain ⟨hex, hte, hfe⟩ := setOut_branch_exits pn (findSlotForChild pn nid)
              (preferredReconnectChildId node) hb2
              (by rw [hpv]; intro he; exact hpve (Option.some.inj he))
              hte0 hfe0
            exact ⟨hex, nodeProj_setOutgoingChildId pn (findSlotForChild pn nid)
              (preferredReconnectChildId node) hb, hte, hfe⟩
          · intro hb
            have hb2 : pn.type ≠ NodeType.branch := by
              rw [setOutgoingChildId_type] at hb
              exact hb
            exact setOut_nonbranch_len pn _ _ hb2
          · intro hb
            exfalso
            have hb2 : pn.type = NodeType.«end» := by
              rw [setOutgoingChildId_type] at hb
              exact hb
            have hemp := invNode_end hInvP hb2
            rw [hemp] at hmem
            simp at hmem
          · exact hreach2 pid pn hpid_D hfp
        · rw [if_neg hkpid] at hfind2
          have hInvK := treeInv_invNode hInv hfind2
          refine ⟨?_, ?_, ?_, ?_, ?_, ?_, ?_, ?_⟩
          · exact invNode_id hInvK
          · intro c hc
            have hcnid : c ≠ nid := by
              intro he
              obtain ⟨_, _, cn, hfc, hcp⟩ := invNode_child hInvK hc
              rw [he, hfind] at hfc
              have hcn : cn = node := (Option.some.inj hfc).symm
              rw [hcn, hpidv] at hcp
              exact hkpid (Option.some.inj hcp).symm
            exact hsurvok k c hkD
              (hsurvchild k n c hkD hfind2 hc hcnid) (hInvK.2.1 c hc)
          · exact invNode_childrenNodup hInvK
          · intro hkr
            obtain ⟨q, nq2, hq, hqne, hfq2, hk2⟩ := hparOk k n hkD hkpv hfind2 hkr
            refine ⟨?_, ?_⟩
            · rw [hq]
              simpa [truthyStr, bne_iff_ne] using hqne
            · rw [hq]
              simp only [Option.getD_some]
              rw [hfq2]
              simp only [Option.map_some']
              rw [decide_eq_true hk2]
          · intro hb
            exact invNode_branch hInvK hb
          · intro hb
            exact invNode_nonbranch hInvK hb
          · intro hb
            exact invNode_end hInvK hb
          · exact hreach2 k n hkD hfind2

lemma preferred_none_falsy {node : Node} (hb : node.type = NodeType.branch)
    (hp : preferredReconnectChildId node = none) :
    truthyStr (exitsTrue node) = false ∧ truthyStr (exitsFalse node) = false := by
  unfold preferredReconnectChildId at hp
  rw [if_pos hb] at hp
  unfold jsOrStr at hp
  cases hta : truthyStr (exitsTrue node) with
  | true =>
    exfalso
    rw [if_pos hta] at hp
    obtain ⟨s, he, _⟩ := truthyStr_true_iff.mp hta
    rw [hp] at he
    exact absurd he (by simp)
  | false =>
    cases htb : truthyStr (exitsFalse node) with
    | true =>
      exfalso
      rw [if_neg (by simp [hta]), if_pos htb] at hp
      obtain ⟨s, he, _⟩ := truthyStr_true_iff.mp htb
      rw [hp] at he
      exact absurd he (by simp)
    | false => exact ⟨rfl, rfl⟩

lemma preferred_none_children {wf : Workflow} {k : String} {node : Node}
    (h : InvNode wf k node) (hp : preferredReconnectChildId node = none) :
    node.children = [] := by
  by_cases hb : node.type = NodeType.branch
  · obtain ⟨hex, hproj, hte, hfe⟩ := invNode_branch h hb
    obtain ⟨hta, htb⟩ := preferred_none_falsy hb hp
    have ha : exitsTrue node = none := by
      rcases truthyStr_false_iff.mp hta with h2 | h2
      · exact h2
      · exact absurd h2 hte
    have hbn : exitsFalse node = none := by
      rcases truthyStr_false_iff.mp htb with h2 | h2
      · exact h2
      · exact absurd h2 hfe
    rw [hproj]
    unfold branchProjection
    rw [ha, hbn]
    rfl
  · unfold preferredReconnectChildId at hp
    rw [if_neg hb] at hp
    exact List.head?_eq_none_iff.mp hp

lemma preferred_none_orphans {node : Node} (hp : preferredReconnectChildId node = none) :
    orphanRoots node = [] := by
  unfold orphanRoots
  by_cases hb : node.type = NodeType.branch
  · obtain ⟨hta, htb⟩ := preferred_none_falsy hb hp
    rw [if_pos hb, if_neg (by rintro ⟨_, h⟩; rw [htb] at h; simp at h),
      if_neg (by rintro ⟨_, h⟩; rw [hta] at h; simp at h)]
    rfl
  · rw [if_neg hb]

lemma delete_core_leaf
    {wf : Workflow} {nid pid : String} {node pn : Node}
    (hInv : TreeInv wf)
    (hfind : wf.find nid = some node)
    (hnroot : nid ≠ wf.rootId)
    (hpidv : node.parentId = some pid)
    (hfp : wf.find pid = some pn)
    (hpref : preferredReconnectChildId node = none) :
    TreeInv (deleteResult wf nid node pn) := by
  have hnd := treeInv_keysNodup hInv
  have hrootne := treeInv_rootNe hInv
  have hInvN := treeInv_invNode hInv hfind
  have hInvP := treeInv_invNode hInv hfp
  obtain ⟨q0, nq0, hq0, hq0ne, hfq0, hmem0⟩ := invNode_parent hInvN hnroot
  have hq0pid : q0 = pid := by
    rw [hpidv] at hq0
    exact (Option.some.inj hq0).symm
  rw [hq0pid] at hq0ne hfq0
  have hnq0 : nq0 = pn := by
    rw [hfp] at hfq0
    exact (Option.some.inj hfq0).symm
  have hpidne : pid ≠ "" := hq0ne
  have hmem : nid ∈ pn.children := by
    rw [← hnq0]
    exact hmem0
  have hnidne : nid ≠ "" := (invNode_child hInvP hmem).1
  have hchempty : node.children = [] := preferred_none_children hInvN hpref
  have hD : ∀ x, x ∈ idsToDelete wf nid node ↔ x = nid := by
    intro x
    unfold idsToDelete
    rw [preferred_none_orphans hpref]
    simp
  have hnidD : nid ∈ idsToDelete wf nid node := (hD nid).mpr rfl
  have hpid_nid : pid ≠ nid := by
    intro he
    rw [he, hfind] at hfp
    have hpn : node = pn := Option.some.inj hfp
    rw [← hpn, hchempty] at hmem
    simp at hmem
  have hpid_D : pid ∉ idsToDelete wf nid node := fun h => hpid_nid ((hD pid).mp h)
  have hroot_D : wf.rootId ∉ idsToDelete wf nid node := fun h =>
    hnroot ((hD wf.rootId).mp h).symm
  have hupid : (setOutgoingChildId pn (findSlotForChild pn nid)
      (preferredReconnectChildId node)).id = pid := by
    rw [setOutgoingChildId_id]
    exact invNode_id hInvP
  have hgetpn : getOutgoingChildId pn (findSlotForChild pn nid) = some nid :=
    findSlot_getOut hInvP hmem
  have hup_mem : ∀ x, x ∈ (setOutgoingChildId pn (findSlotForChild pn nid)
      (preferredReconnectChildId node)).children ↔
      (x ∈ pn.children ∧ x ≠ nid) := by
    intro x
    rw [setOut_children_iff hInvP (findSlotForChild pn nid)
      (preferredReconnectChildId node) (Or.inl hpref) x, hgetpn, hpref]
    constructor
    · rintro (⟨v, hv, _, _⟩ | ⟨hm, hne⟩)
      · exact absurd hv (by simp)
      · exact ⟨hm, fun he => hne (by rw [he])⟩
    · rintro ⟨hm, hne⟩
      exact Or.inr ⟨hm, fun he => hne (Option.some.inj he).symm⟩
  have hchar : ∀ x, (deleteResult wf nid node pn).find x =
      if x ∈ idsToDelete wf nid node then none
      else if x = pid then
        some (setOutgoingChildId pn (findSlotForChild pn nid)
          (preferredReconnectChildId node))
      else wf.find x := by
    intro x
    show assocFind (deleteResult wf nid node pn).nodes x = _
    unfold deleteResult
    simp only
    rw [assocFind_removeIds]
    by_cases hxD : x ∈ idsToDelete wf nid node
    · rw [if_pos hxD, if_pos hxD]
    · rw [if_neg hxD, if_neg hxD, reparentIn_assocFind, hupid, hpref]
      rw [if_neg (by rintro ⟨ht, _⟩; simp [truthyStr] at ht), assocFind_mapSet]
      rfl
  have hedge : ∀ q nq x, q ∉ idsToDelete wf nid node → wf.find q = some nq →
      x ∈ nq.children → x ≠ nid →
      ∃ nq2, (deleteResult wf nid node pn).find q = some nq2 ∧ x ∈ nq2.children := by
    intro q nq x hqD hfq hxq hxnid
    rw [hchar q, if_neg hqD]
    by_cases hqpid : q = pid
    · rw [if_pos hqpid]
      have hnq : nq = pn := by
        rw [hqpid, hfp] at hfq
        exact (Option.some.inj hfq).symm
      exact ⟨_, rfl, (hup_mem x).mpr ⟨hnq ▸ hxq, hxnid⟩⟩
    · rw [if_neg hqpid]
      exact ⟨nq, hfq, hxq⟩
  have hsurvchild : ∀ c, c ≠ nid → c ∉ idsToDelete wf nid node :=
    fun c hcnid hcD => hcnid ((hD c).mp hcD)
  have htrans : ∀ d x nx, wf.find x = some nx → x ∉ idsToDelete wf nid node →
      IsDepth wf x d → Visits (deleteResult wf nid node pn) wf.rootId x := by
    intro d
    induction d using Nat.strong_induction_on with
    | _ d ih =>
      intro x nx hfx hxD hdx
      by_cases hxr : x = wf.rootId
      · rw [hxr]
        exact Visits.self hrootne
      · obtain ⟨qx, nqx, hqx, hqxne, hfqx, hmemx⟩ :=
          invNode_parent (treeInv_invNode hInv hfx) hxr
        obtain ⟨dq, hdq, hde⟩ := isDepth_parent hInv hfx hxr hqx hdx
        have hxne : x ≠ "" := (invNode_child (treeInv_invNode hInv hfqx) hmemx).1
        have hqD : qx ∉ idsToDelete wf nid node := by
          intro hqD2
          have hqnid := (hD qx).mp hqD2
          rw [hqnid, hfind] at hfqx
          have hnqx : nqx = node := (Option.some.inj hfqx).symm
          rw [hnqx, hchempty] at hmemx
          simp at hmemx
        have hqvis : Visits (deleteResult wf nid node pn) wf.rootId qx :=
          ih dq (by omega) qx nqx hfqx hqD hdq
        obtain ⟨nq2, hfq2, hxq2⟩ := hedge qx nqx x hqD hfqx hmemx
          (fun he => hxD (he ▸ hnidD))
        exact Visits.step hqvis hfq2 hxq2 hxne
  have hnd2 : ((deleteResult wf nid node pn).nodes.map (fun p => p.1)).Nodup := by
    unfold deleteResult
    simp only
    apply nodup_keys_removeIds
    unfold reparentIn
    split
    · split
      · exact nodup_keys_mapSet _ _ _ (nodup_keys_mapSet _ _ _ hnd)
      · exact nodup_keys_mapSet _ _ _ hnd
    · exact nodup_keys_mapSet _ _ _ hnd
  have hfpid2 : (deleteResult wf nid node pn).find pid =
      some (setOutgoingChildId pn (findSlotForChild pn nid)
        (preferredReconnectChildId node)) := by
    rw [hchar pid, if_neg hpid_D, if_pos rfl]
  have hsurvok : ∀ k c, k ∉ idsToDelete wf nid node → c ∉ idsToDelete wf nid node →
      childOk wf k c → childOk (deleteResult wf nid node pn) k c := by
    intro k c hkD hcD hok
    obtain ⟨hce, hcr, hcp⟩ := hok
    refine ⟨hce, hcr, ?_⟩
    rw [hchar c, if_neg hcD]
    by_cases hcpid : c = pid
    · rw [if_pos hcpid]
      simp only [Option.map_some']
      rw [setOutgoingChildId_parentId]
      obtain ⟨cn, hfc, hcp2⟩ := Option.map_eq_some'.mp hcp
      rw [hcpid, hfp] at hfc
      have hcn : cn = pn := (Option.some.inj hfc).symm
      rw [← hcn, hcp2]
    · rw [if_neg hcpid]
      exact hcp
  have hparOk : ∀ k nk, k ∉ idsToDelete wf nid node → wf.find k = some nk →
      k ≠ wf.rootId →
      ∃ q nq2, nk.parentId = some q ∧ q ≠ "" ∧
        (deleteResult wf nid node pn).find q = some nq2 ∧ k ∈ nq2.children := by
    intro k nk hkD hfk hkr
    obtain ⟨q, nq, hq, hqne, hfq, hmemq⟩ := invNode_parent (treeInv_invNode hInv hfk) hkr
    have hknid : k ≠ nid := fun he => hkD (he ▸ hnidD)
    have hqD : q ∉ idsToDelete wf nid node := by
      intro hqD2
      have hqnid := (hD q).mp hqD2
      rw [hqnid, hfind] at hfq
      have hnq : nq = node := (Option.some.inj hfq).symm
      rw [hnq, hchempty] at hmemq
      simp at hmemq
    obtain ⟨nq2, hfq2, hk2⟩ := hedge q nq k hqD hfq hmemq hknid
    exact ⟨q, nq2, hq, hqne, hfq2, hk2⟩
  have hreach2 : ∀ k nk, k ∉ idsToDelete wf nid node → wf.find k = some nk →
      k ∈ collectSubtreeIds (deleteResult wf nid node pn)
        (deleteResult wf nid node pn).rootId := by
    intro k nk hkD hfk
    obtain ⟨d, hd⟩ := isDepth_exists (treeInv_visits hInv hfk)
    exact (mem_collect_iff_visits hnd2).mpr (htrans d k nk hfk hkD hd)
  refine ⟨hnd2, hrootne, ?_, ?_⟩
  · show ((deleteResult wf nid node pn).find wf.rootId).map
        (fun r => (r.parentId, r.type)) = some (none, NodeType.start)
    rw [hchar wf.rootId, if_neg hroot_D]
    by_cases hrpid : wf.rootId = pid
    · rw [if_pos hrpid]
      have hroot4 := hInv.2.2.1
      rw [hrpid, hfp] at hroot4
      simp only [Option.map_some'] at hroot4 ⊢
      rw [setOutgoingChildId_parentId, setOutgoingChildId_type]
      exact hroot4
    · rw [if_neg hrpid]
      exact hInv.2.2.1
  · intro p hp
    obtain ⟨k, n⟩ := p
    show InvNode (deleteResult wf nid node pn) k n
    have hfind2 : (deleteResult wf nid node pn).find k = some n :=
      mem_nodup_assocFind hnd2 hp
    rw [hchar k] at hfind2
    by_cases hkD : k ∈ idsToDelete wf nid node
    · rw [if_pos hkD] at hfind2
      exact absurd hfind2 (by simp)
    · rw [if_neg hkD] at hfind2
      by_cases hkpid : k = pid
      · rw [if_pos hkpid] at hfind2
        have hn : n = setOutgoingChildId pn (findSlotForChild pn nid)
            (preferredReconnectChildId node) := (Option.some.inj hfind2).symm
        rw [hkpid, hn]
        refine ⟨?_, ?_, ?_, ?_, ?_, ?_, ?_, ?_⟩
        · exact hupid
        · intro c hc
          obtain ⟨hcm, hcnid⟩ := (hup_mem c).mp hc
          exact hsurvok pid c hpid_D (hsurvchild c hcnid) (hInvP.2.1 c hcm)
        · exact setOut_children_nodup hInvP _ _ (by
            intro v hv
            rw [hpref] at hv
            exact absurd hv (by simp))
        · intro hkr
          have hkr2 : pid ≠ wf.rootId := hkr
          obtain ⟨q, nq2, hq, hqne, hfq2, hk2⟩ := hparOk pid pn hpid_D hfp hkr2
          refine ⟨?_, ?_⟩
          · rw [setOutgoingChildId_parentId, hq]
            simpa [truthyStr, bne_iff_ne] using hqne
          · rw [setOutgoingChildId_parentId, hq]
            simp only [Option.getD_some]
            rw [hfq2]
            simp only [Option.map_some']
            rw [decide_eq_true hk2]
        · intro hb
          have hb2 : pn.type = NodeType.branch := by
            rw [setOutgoingChildId_type] at hb
            exact hb
          obtain ⟨hex0, hproj0, hte0, hfe0⟩ := invNode_branch hInvP hb2
          obtain ⟨hex, hte, hfe⟩ := setOut_branch_exits pn (findSlotForChild pn nid)
            (preferredReconnectChildId node) hb2
            (by rw [hpref]; simp)
            hte0 hfe0
          exact ⟨hex, nodeProj_setOutgoingChildId pn (findSlotForChild pn nid)
            (preferredReconnectChildId node) hb, hte, hfe⟩
        · intro hb
          have hb2 : pn.type ≠ NodeType.branch := by
            rw [setOutgoingChildId_type] at hb
            exact hb
          exact setOut_nonbranch_len pn _ _ hb2
        · intro hb
          exfalso
          have hb2 : pn.type = NodeType.«end» := by
            rw [setOutgoingChildId_type] at hb
            exact hb
          have hemp := invNode_end hInvP hb2
          rw [hemp] at hmem
          simp at hmem
        · exact hreach2 pid pn hpid_D hfp
      · rw [if_neg hkpid] at hfind2
        have hInvK := treeInv_invNode hInv hfind2
        refine ⟨?_, ?_, ?_, ?_, ?_, ?_, ?_, ?_⟩
        · exact invNode_id hInvK
        · intro c hc
          have hcnid : c ≠ nid := by
            intro he
            obtain ⟨_, _, cn, hfc, hcp⟩ := invNode_child hInvK hc
            rw [he, hfind] at hfc
            have hcn : cn = node := (Option.some.inj hfc).symm
            rw [hcn, hpidv] at hcp
            exact hkpid (Option.some.inj hcp).symm
          exact hsurvok k c hkD (hsurvchild c hcnid) (hInvK.2.1 c hc)
        · exact invNode_childrenNodup hInvK
        · intro hkr
          obtain ⟨q, nq2, hq, hqne, hfq2, hk2⟩ := hparOk k n hkD hfind2 hkr
          refine ⟨?_, ?_⟩
          · rw [hq]
            simpa [truthyStr, bne_iff_ne] using hqne
          · rw [hq]
            simp only [Option.getD_some]
            rw [hfq2]
            simp only [Option.map_some']
            rw [decide_eq_true hk2]
        · intro hb
          exact invNode_branch hInvK hb
        · intro hb
          exact invNode_nonbranch hInvK hb
        · intro hb
          exact invNode_end hInvK hb
        · exact hreach2 k n hkD hfind2

lemma pref_some_cover {wf : Workflow} {k pv : String} {node : Node}
    (hn : InvNode wf k node) (hpv : preferredReconnectChildId node = some pv) :
    (∀ c ∈ node.children, c = pv ∨ c ∈ orphanRoots node) ∧
    (∀ r ∈ orphanRoots node, r ∈ node.children ∧ r ≠ pv) := by
  rcases delete_cases hn with horph |
    ⟨hb, tv, fv, htv, hfv, htve, hfve, htf, hpreft, horph, htmem, hfmem⟩
  · constructor
    · intro c hc
      left
      by_cases hb : node.type = NodeType.branch
      · obtain ⟨hex, hproj, hte, hfe⟩ := invNode_branch hn hb
        have hpv2 := hpv
        unfold preferredReconnectChildId jsOrStr at hpv2
        rw [if_pos hb] at hpv2
        rw [hproj] at hc
        unfold branchProjection at hc
        rw [mem_truthyList_pair] at hc
        cases hta : truthyStr (exitsTrue node) with
        | true =>
          rw [if_pos hta] at hpv2
          rcases hc with ⟨he, hce⟩ | ⟨he, hce⟩
          · rw [hpv2] at he
            exact (Option.some.inj he).symm
          · exfalso
            have hcond : preferredReconnectChildId node = exitsTrue node ∧
                truthyStr (exitsFalse node) = true := by
              constructor
              · rw [hpv, hpv2]
              · rw [truthyStr_true_iff]
                exact ⟨c, he, hce⟩
            unfold orphanRoots at horph
            rw [if_pos hb, if_pos hcond] at horph
            simp at horph
        | false =>
          rw [if_neg (by simp [hta])] at hpv2
          cases htb : truthyStr (exitsFalse node) with
          | true =>
            rw [if_pos htb] at hpv2
            rcases hc with ⟨he, hce⟩ | ⟨he, hce⟩
            · exfalso
              have hta2 : truthyStr (exitsTrue node) = true :=
                truthyStr_true_iff.mpr ⟨c, he, hce⟩
              rw [hta] at hta2
              simp at hta2
            · rw [hpv2] at he
              exact (Option.some.inj he).symm
          | false =>
            exfalso
            rw [if_neg (by simp [htb])] at hpv2
            exact absurd hpv2 (by simp)
      · have hpv2 := hpv
        unfold preferredReconnectChildId at hpv2
        rw [if_neg hb] at hpv2
        have hsing := nonbranch_children_singleton hn hb hc
        rw [hsing] at hpv2
        simp at hpv2
        exact hpv2
    · intro r hr
      rw [horph] at hr
      simp at hr
  · have hpvtv : pv = tv := by
      rw [hpreft] at hpv
      exact (Option.some.inj hpv).symm
    constructor
    · intro c hc
      obtain ⟨hex, hproj, hte, hfe⟩ := invNode_branch hn hb
      rw [hproj] at hc
      unfold branchProjection at hc
      rw [mem_truthyList_pair] at hc
      rcases hc with ⟨he, hce⟩ | ⟨he, hce⟩
      · left
        rw [htv] at he
        rw [hpvtv]
        exact (Option.some.inj he).symm
      · right
        rw [horph]
        rw [hfv] at he
        simp [(Option.some.inj he).symm]
    · intro r hr
      rw [horph] at hr
      simp at hr
      rw [hr, hpvtv]
      exact ⟨hfmem, fun he => htf he.symm⟩

lemma deleteNode_preserves {wf : Workflow} {nid : String} (hInv : TreeInv wf) :
    TreeInv (workflowReducer wf (.deleteNode nid)) := by
  cases hr : workflowReducerR wf (.deleteNode nid) with
  | none =>
    rw [workflowReducer_eq_of_none hr]
    exact hInv
  | some w =>
    rw [workflowReducer_eq_of_some hr]
    simp only [workflowReducerR] at hr
    by_cases h1 : nid = ""
    · rw [if_pos h1] at hr
      exact absurd hr (by simp)
    rw [if_neg h1] at hr
    cases hf : wf.find nid with
    | none =>
      rw [hf] at hr
      exact absurd hr (by simp)
    | some node =>
      rw [hf] at hr
      simp only at hr
      by_cases h2 : nid = wf.rootId ∨ node.type = NodeType.start
      · rw [if_pos h2] at hr
        exact absurd hr (by simp)
      rw [if_neg h2] at hr
      by_cases h3 : truthyStr node.parentId = true
      · rw [if_pos h3] at hr
        obtain ⟨pid0, hpid0, hpidne0⟩ := truthyStr_true_iff.mp h3
        rw [hpid0] at hr
        simp only [Option.getD_some] at hr
        cases hfp : wf.find pid0 with
        | none =>
          rw [hfp] at hr
          exact absurd hr (by simp)
        | some pn =>
          rw [hfp] at hr
          simp only at hr
          have hw : w = deleteResult wf nid node pn := (Option.some.inj hr).symm
          rw [hw]
          have hnroot : nid ≠ wf.rootId := fun he => h2 (Or.inl he)
          rcases preferred_shape (treeInv_invNode hInv hf) with hnone |
            ⟨pv, hpv, hpve, hpvmem⟩
          · exact delete_core_leaf hInv hf hnroot hpid0 hfp hnone
          · obtain ⟨hcov, horp⟩ := pref_some_cover (treeInv_invNode hInv hf) hpv
            exact delete_core_promote hInv hf hnroot hpid0 hfp hpv hpve hpvmem hcov horp
      · rw [if_neg h3] at hr
        exact absurd hr (by simp)

lemma createNode_children (id : String) (ty : NodeType) (p : Option String)
    (l : Option String) : (createNode id ty p l).children = [] := by
  cases ty <;> rfl

lemma createNode_exitsTrue (id : String) (ty : NodeType) (p : Option String)
    (l : Option String) : exitsTrue (createNode id ty p l) = none := by
  cases ty <;> rfl

lemma createNode_exitsFalse (id : String) (ty : NodeType) (p : Option String)
    (l : Option String) : exitsFalse (createNode id ty p l) = none := by
  cases ty <;> rfl

lemma createNode_exits_branch (id : String) (p : Option String) (l : Option String) :
    (createNode id NodeType.branch p l).exits = some ⟨none, none⟩ := rfl

lemma insertedUpdatedOf_id (p : Node) (slot : ConnectionSlot) (i : Node) :
    (insertedUpdatedOf p slot i).id = i.id := by
  unfold insertedUpdatedOf
  split
  · split
    · rw [setOutgoingChildId_id]
    · split
      · rw [setOutgoingChildId_id]
      · rfl
  · rfl

lemma insertedUpdatedOf_type (p : Node) (slot : ConnectionSlot) (i : Node) :
    (insertedUpdatedOf p slot i).type = i.type := by
  unfold insertedUpdatedOf
  split
  · split
    · rw [setOutgoingChildId_type]
    · split
      · rw [setOutgoingChildId_type]
      · rfl
  · rfl

lemma insertedUpdatedOf_parentId (p : Node) (slot : ConnectionSlot) (i : Node) :
    (insertedUpdatedOf p slot i).parentId = i.parentId := by
  unfold insertedUpdatedOf
  split
  · split
    · rw [setOutgoingChildId_parentId]
    · split
      · rw [setOutgoingChildId_parentId]
      · rfl
  · rfl

lemma insertedUpdatedOf_falsy (p : Node) (slot : ConnectionSlot) (i : Node)
    (hex : truthyStr (getOutgoingChildId p slot) = false) :
    insertedUpdatedOf p slot i = i := by
  unfold insertedUpdatedOf
  rw [if_neg (by simp [hex])]

/-- Shape of a branch parent slot under the invariant: empty or a nonempty
child id. -/
lemma getOut_shape {wf : Workflow} {k : String} {parent : Node}
    (hn : InvNode wf k parent) (slot : ConnectionSlot) :
    getOutgoingChildId parent slot = none ∨
      ∃ c, getOutgoingChildId parent slot = some c ∧ c ≠ "" ∧ c ∈ parent.children := by
  unfold getOutgoingChildId
  by_cases hb : parent.type = NodeType.branch
  · rw [if_neg (by simp [hb])]
    obtain ⟨hex, hproj, hte, hfe⟩ := invNode_branch hn hb
    cases hslot : slot.getD true with
    | true =>
      simp only [if_true]
      cases hta : exitsTrue parent with
      | none => exact Or.inl rfl
      | some c =>
        refine Or.inr ⟨c, rfl, ?_, ?_⟩
        · intro he
          rw [he] at hta
          exact hte hta
        · rw [hproj]
          unfold branchProjection
          rw [mem_truthyList_pair]
          exact Or.inl ⟨hta, fun he => hte (he ▸ hta)⟩
    | false =>
      simp only [Bool.false_eq_true, if_false]
      cases hta : exitsFalse parent with
      | none => exact Or.inl rfl
      | some c =>
        refine Or.inr ⟨c, rfl, ?_, ?_⟩
        · intro he
          rw [he] at hta
          exact hfe hta
        · rw [hproj]
          unfold branchProjection
          rw [mem_truthyList_pair]
          exact Or.inr ⟨hta, fun he => hfe (he ▸ hta)⟩
  · rw [if_pos hb]
    cases hh : parent.children.head? with
    | none => exact Or.inl rfl
    | some c =>
      refine Or.inr ⟨c, rfl, ?_, ?_⟩
      · have hcmem : c ∈ parent.children := List.mem_of_mem_head? hh
        exact (invNode_child hn hcmem).1
      · exact List.mem_of_mem_head? hh

lemma createNode_eq (id : String) (ty : NodeType) (pid : Option String)
    (l : Option String) : createNode id ty pid l =
    { id := id, type := ty, label := l.getD (defaultLabelForType ty), parentId := pid,
      children := [],
      exits := if ty = NodeType.branch then some ⟨none, none⟩ else none } := by
  cases ty <;> rfl

lemma insertedUpdatedOf_splice_children {p : Node} {slot : ConnectionSlot}
    {c : String} (hex : getOutgoingChildId p slot = some c) (hc : c ≠ "")
    (id : String) (ty : NodeType) (pid : Option String) (l : Option String)
    (hnend : ty ≠ NodeType.«end») :
    (insertedUpdatedOf p slot (createNode id ty pid l)).children = [c] := by
  unfold insertedUpdatedOf
  rw [hex, createNode_eq]
  cases ty with
  | start => simp [setOutgoingChildId, normalizeNode, truthyStr, hc]
  | action => simp [setOutgoingChildId, normalizeNode, truthyStr, hc]
  | branch =>
    simp [setOutgoingChildId, normalizeNode, exitsTrue, exitsFalse, truthyList,
      truthyStr, hc]
  | «end» => exact absurd rfl hnend

lemma insertedUpdatedOf_splice_exits {p : Node} {slot : ConnectionSlot}
    {c : String} (hex : getOutgoingChildId p slot = some c) (hc : c ≠ "")
    (id : String) (pid : Option String) (l : Option String) :
    (insertedUpdatedOf p slot (createNode id NodeType.branch pid l)).exits =
      some ⟨some c, none⟩ := by
  unfold insertedUpdatedOf
  rw [hex, createNode_eq]
  simp [setOutgoingChildId, normalizeNode, exitsTrue, exitsFalse, truthyStr, hc]

lemma reparentIn_none (m : List (String × Node)) (np : String) :
    reparentIn m none np = m := by
  unfold reparentIn
  rw [if_neg (by simp [truthyStr])]

lemma add_core_fresh
    {wf : Workflow} {parentId newId : String} {parent : Node}
    {slot : ConnectionSlot} {newType : NodeType} {label : Option String}
    (hInv : TreeInv wf)
    (hfp : wf.find parentId = some parent)
    (hpe : parentId ≠ "")
    (hpend : parent.type ≠ NodeType.«end»)
    (hfresh : wf.find newId = none)
    (hnewne : newId ≠ "")
    (hex : getOutgoingChildId parent slot = none) :
    TreeInv (addResult wf parent parentId slot newType label newId) := by
  have hnd := treeInv_keysNodup hInv
  have hrootne := treeInv_rootNe hInv
  have hInvP := treeInv_invNode hInv hfp
  have hIU : insertedUpdatedOf parent slot
      (createNode newId newType (some parentId) label) =
      createNode newId newType (some parentId) label :=
    insertedUpdatedOf_falsy _ _ _ (by rw [hex]; rfl)
  have hnodes : (addResult wf parent parentId slot newType label newId).nodes =
      mapSet (mapSet wf.nodes parentId (setOutgoingChildId parent slot (some newId)))
        newId (createNode newId newType (some parentId) label) := by
    unfold addResult
    simp only
    rw [hex, hIU, createNode_id, setOutgoingChildId_id, invNode_id hInvP, reparentIn_none]
  have hchar : ∀ x, (addResult wf parent parentId slot newType label newId).find x =
      if x = newId then some (createNode newId newType (some parentId) label)
      else if x = parentId then some (setOutgoingChildId parent slot (some newId))
      else wf.find x := by
    intro x
    show assocFind (addResult wf parent parentId slot newType label newId).nodes x = _
    rw [hnodes, assocFind_mapSet, assocFind_mapSet]
    rfl
  have hroot_new : wf.rootId ≠ newId := by
    intro he
    obtain ⟨r0, hfr0, _, _⟩ := treeInv_root hInv
    rw [he, hfresh] at hfr0
    exact absurd hfr0 (by simp)
  have hup_mem : ∀ x, x ∈ (setOutgoingChildId parent slot (some newId)).children ↔
      (x = newId ∨ x ∈ parent.children) := by
    intro x
    rw [setOut_children_iff hInvP slot (some newId) (Or.inr ⟨newId, rfl, hnewne⟩) x, hex]
    constructor
    · rintro (⟨v, hv, _, rfl⟩ | ⟨hm, _⟩)
      · exact Or.inl (Option.some.inj hv).symm
      · exact Or.inr hm
    · rintro (rfl | hm)
      · exact Or.inl ⟨x, rfl, hnewne, rfl⟩
      · exact Or.inr ⟨hm, by simp⟩
  have hnd2 : ((addResult wf parent parentId slot newType label newId).nodes.map
      (fun p => p.1)).Nodup := by
    rw [hnodes]
    exact nodup_keys_mapSet _ _ _ (nodup_keys_mapSet _ _ _ hnd)
  have hsurvok : ∀ k c, childOk wf k c →
      childOk (addResult wf parent parentId slot newType label newId) k c := by
    intro k c hok
    obtain ⟨hce, hcr, hcp⟩ := hok
    refine ⟨hce, hcr, ?_⟩
    rw [hchar c]
    obtain ⟨cn, hfc, hcp2⟩ := Option.map_eq_some'.mp hcp
    have hcnew : c ≠ newId := by
      intro he
      rw [he, hfresh] at hfc
      exact absurd hfc (by simp)
    rw [if_neg hcnew]
    by_cases hcpid : c = parentId
    · rw [if_pos hcpid]
      simp only [Option.map_some']
      rw [setOutgoingChildId_parentId]
      rw [hcpid, hfp] at hfc
      have hcn : cn = parent := (Option.some.inj hfc).symm
      rw [← hcn, hcp2]
    · rw [if_neg hcpid]
      exact hcp
  have hedge : ∀ q nq x, wf.find q = some nq → x ∈ nq.children →
      ∃ nq2, (addResult wf parent parentId slot newType label newId).find q = some nq2 ∧
        x ∈ nq2.children := by
    intro q nq x hfq hxq
    have hqnew : q ≠ newId := by
      intro he
      rw [he, hfresh] at hfq
      exact absurd hfq (by simp)
    rw [hchar q, if_neg hqnew]
    by_cases hqpid : q = parentId
    · rw [if_pos hqpid]
      have hnq : nq = parent := by
        rw [hqpid, hfp] at hfq
        exact (Option.some.inj hfq).symm
      exact ⟨_, rfl, (hup_mem x).mpr (Or.inr (hnq ▸ hxq))⟩
    · rw [if_neg hqpid]
      exact ⟨nq, hfq, hxq⟩
  have htrans : ∀ d x nx, wf.find x = some nx → IsDepth wf x d →
      Visits (addResult wf parent parentId slot newType label newId) wf.rootId x := by
    intro d
    induction d using Nat.strong_induction_on with
    | _ d ih =>
      intro x nx hfx hdx
      by_cases hxr : x = wf.rootId
      · rw [hxr]
        exact Visits.self hrootne
      · obtain ⟨qx, nqx, hqx, hqxne, hfqx, hmemx⟩ :=
          invNode_parent (treeInv_invNode hInv hfx) hxr
        obtain ⟨dq, hdq, hde⟩ := isDepth_parent hInv hfx hxr hqx hdx
        have hxne : x ≠ "" := (invNode_child (treeInv_invNode hInv hfqx) hmemx).1
        have hqvis := ih dq (by omega) qx nqx hfqx hdq
        obtain ⟨nq2, hfq2, hxq2⟩ := hedge qx nqx x hfqx hmemx
        exact Visits.step hqvis hfq2 hxq2 hxne
  have hpid_new : parentId ≠ newId := by
    intro he
    rw [he, hfresh] at hfp
    exact absurd hfp (by simp)
  have hfpar2 : (addResult wf parent parentId slot newType label newId).find parentId =
      some (setOutgoingChildId parent slot (some newId)) := by
    rw [hchar parentId, if_neg hpid_new, if_pos rfl]
  have hparvis : Visits (addResult wf parent parentId slot newType label newId)
      wf.rootId parentId := by
    obtain ⟨d, hd⟩ := isDepth_exists (treeInv_visits hInv hfp)
    exact htrans d parentId parent hfp hd
  have hnewvis : Visits (addResult wf parent parentId slot newType label newId)
      wf.rootId newId :=
    Visits.step hparvis hfpar2 ((hup_mem newId).mpr (Or.inl rfl)) hnewne
  have hreach2 : ∀ k nk, wf.find k = some nk →
      k ∈ collectSubtreeIds (addResult wf parent parentId slot newType label newId)
        (addResult wf parent parentId slot newType label newId).rootId := by
    intro k nk hfk
    obtain ⟨d, hd⟩ := isDepth_exists (treeInv_visits hInv hfk)
    exact (mem_collect_iff_visits hnd2).mpr (htrans d k nk hfk hd)
  have hfnew2 : (addResult wf parent parentId slot newType label newId).find newId =
      some (createNode newId newType (some parentId) label) := by
    rw [hchar newId, if_pos rfl]
  refine ⟨hnd2, hrootne, ?_, ?_⟩
  · show ((addResult wf parent parentId slot newType label newId).find wf.rootId).map
        (fun r => (r.parentId, r.type)) = some (none, NodeType.start)
    rw [hchar wf.rootId, if_neg hroot_new]
    by_cases hrpid : wf.rootId = parentId
    · rw [if_pos hrpid]
      have hroot4 := hInv.2.2.1
      rw [hrpid, hfp] at hroot4
      simp only [Option.map_some'] at hroot4 ⊢
      rw [setOutgoingChildId_parentId, setOutgoingChildId_type]
      exact hroot4
    · rw [if_neg hrpid]
      exact hInv.2.2.1
  · intro p hp
    obtain ⟨k, n⟩ := p
    show InvNode (addResult wf parent parentId slot newType label newId) k n
    have hfind2 : (addResult wf parent parentId slot newType label newId).find k = some n :=
      mem_nodup_assocFind hnd2 hp
    rw [hchar k] at hfind2
    by_cases hknew : k = newId
    · rw [if_pos hknew] at hfind2
      have hn : n = createNode newId newType (some parentId) label :=
        (Option.some.inj hfind2).symm
      rw [hknew, hn]
      refine ⟨?_, ?_, ?_, ?_, ?_, ?_, ?_, ?_⟩
      · exact createNode_id _ _ _ _
      · intro c hc
        rw [createNode_children] at hc
        simp at hc
      · rw [createNode_children]
        simp
      · intro hkr
        refine ⟨?_, ?_⟩
        · rw [createNode_parentId]
          simpa [truthyStr, bne_iff_ne] using hpe
        · rw [createNode_parentId]
          simp only [Option.getD_some]
          rw [hfpar2]
          simp only [Option.map_some']
          rw [decide_eq_true ((hup_mem newId).mpr (Or.inl rfl))]
      · intro hb
        have hty : newType = NodeType.branch := by
          rw [createNode_type] at hb
          exact hb
        subst hty
        refine ⟨?_, ?_, ?_, ?_⟩
        · rw [createNode_exits_branch]
          simp
        · rw [createNode_children]
          unfold branchProjection
          rw [createNode_exitsTrue, createNode_exitsFalse]
          rfl
        · rw [createNode_exitsTrue]
          simp
        · rw [createNode_exitsFalse]
          simp
      · intro hb
        rw [createNode_children]
        simp
      · intro hb
        exact createNode_children _ _ _ _
      · exact (mem_collect_iff_visits hnd2).mpr hnewvis
    · rw [if_neg hknew] at hfind2
      by_cases hkpid : k = parentId
      · rw [if_pos hkpid] at hfind2
        have hn : n = setOutgoingChildId parent slot (some newId) :=
          (Option.some.inj hfind2).symm
        rw [hkpid, hn]
        refine ⟨?_, ?_, ?_, ?_, ?_, ?_, ?_, ?_⟩
        · rw [setOutgoingChildId_id]
          exact invNode_id hInvP
        · intro c hc
          rcases (hup_mem c).mp hc with hcnew | hcm
          · rw [hcnew]
            refine ⟨hnewne, Ne.symm hroot_new, ?_⟩
            rw [hfnew2]
            simp only [Option.map_some']
            rw [createNode_parentId]
          · exact hsurvok parentId c (hInvP.2.1 c hcm)
        · exact setOut_children_nodup hInvP _ _ (by
            intro v hv hmem
            have hv2 : v = newId := (Option.some.inj hv).symm
            obtain ⟨_, _, cn, hfc, _⟩ := invNode_child hInvP hmem
            rw [hv2, hfresh] at hfc
            exact absurd hfc (by simp))
        · intro hkr
          have hkr2 : parentId ≠ wf.rootId := hkr
          obtain ⟨q, nq, hq, hqne, hfq, hmemq⟩ := invNode_parent hInvP hkr2
          obtain ⟨nq2, hfq2, hk2⟩ := hedge q nq parentId hfq hmemq
          refine ⟨?_, ?_⟩
          · rw [setOutgoingChildId_parentId, hq]
            simpa [truthyStr, bne_iff_ne] using hqne
          · rw [setOutgoingChildId_parentId, hq]
            simp only [Option.getD_some]
            rw [hfq2]
            simp only [Option.map_some']
            rw [decide_eq_true hk2]
        · intro hb
          have hb2 : parent.type = NodeType.branch := by
            rw [setOutgoingChildId_type] at hb
            exact hb
          obtain ⟨hex0, hproj0, hte0, hfe0⟩ := invNode_branch hInvP hb2
          obtain ⟨hexx, hte, hfe⟩ := setOut_branch_exits parent slot (some newId) hb2
            (by intro he; exact hnewne (Option.some.inj he))
            hte0 hfe0
          exact ⟨hexx, nodeProj_setOutgoingChildId parent slot (some newId) hb, hte, hfe⟩
        · intro hb
          have hb2 : parent.type ≠ NodeType.branch := by
            rw [setOutgoingChildId_type] at hb
            exact hb
          exact setOut_nonbranch_len parent _ _ hb2
        · intro hb
          exfalso
          rw [setOutgoingChildId_type] at hb
          exact hpend hb
        · exact hreach2 parentId parent hfp
      · rw [if_neg hkpid] at hfind2
        have hInvK := treeInv_invNode hInv hfind2
        refine ⟨?_, ?_, ?_, ?_, ?_, ?_, ?_, ?_⟩
        · exact invNode_id hInvK
        · intro c hc
          exact hsurvok k c (hInvK.2.1 c hc)
        · exact invNode_childrenNodup hInvK
        · intro hkr
          obtain ⟨q, nq, hq, hqne, hfq, hmemq⟩ := invNode_parent hInvK hkr
          obtain ⟨nq2, hfq2, hk2⟩ := hedge q nq k hfq hmemq
          refine ⟨?_, ?_⟩
          · rw [hq]
            simpa [truthyStr, bne_iff_ne] using hqne
          · rw [hq]
            simp only [Option.getD_some]
            rw [hfq2]
            simp only [Option.map_some']
            rw [decide_eq_true hk2]
        · intro hb
          exact invNode_branch hInvK hb
        · intro hb
          exact invNode_nonbranch hInvK hb
        · intro hb
          exact invNode_end hInvK hb
        · exact hreach2 k n hfind2

lemma add_core_splice
    {wf : Workflow} {parentId newId c : String} {parent : Node}
    {slot : ConnectionSlot} {newType : NodeType} {label : Option String}
    (hInv : TreeInv wf)
    (hfp : wf.find parentId = some parent)
    (hpe : parentId ≠ "")
    (hpend : parent.type ≠ NodeType.«end»)
    (hfresh : wf.find newId = none)
    (hnewne : newId ≠ "")
    (hex : getOutgoingChildId parent slot = some c)
    (hnend : newType ≠ NodeType.«end») :
    TreeInv (addResult wf parent parentId slot newType label newId) := by
  have hnd := treeInv_keysNodup hInv
  have hrootne := treeInv_rootNe hInv
  have hInvP := treeInv_invNode hInv hfp
  rcases getOut_shape hInvP slot with hex0 | ⟨c0, hex0, hce, hcmem⟩
  · rw [hex0] at hex
    exact absurd hex (by simp)
  have hcc : c0 = c := by
    rw [hex0] at hex
    exact Option.some.inj hex
  rw [hcc] at hex0 hce hcmem
  clear hcc hex0
  obtain ⟨hce2, hcroot, cn, hfc, hcp⟩ := invNode_child hInvP hcmem
  have hInvC := treeInv_invNode hInv hfc
  have hc_new : c ≠ newId := by
    intro he
    rw [he, hfresh] at hfc
    exact absurd hfc (by simp)
  have hpid_new : parentId ≠ newId := by
    intro he
    rw [he, hfresh] at hfp
    exact absurd hfp (by simp)
  have hroot_new : wf.rootId ≠ newId := by
    intro he
    obtain ⟨r0, hfr0, _, _⟩ := treeInv_root hInv
    rw [he, hfresh] at hfr0
    exact absurd hfr0 (by simp)
  have hc_pid : c ≠ parentId := by
    intro he
    have hself : parent.parentId = some parentId := by
      have hcn : cn = parent := by
        rw [he, hfp] at hfc
        exact (Option.some.inj hfc).symm
      rw [← hcn]
      exact hcp
    by_cases hpr : parentId = wf.rootId
    · obtain ⟨r0, hfr0, hr0p, _⟩ := treeInv_root hInv
      rw [← hpr, hfp] at hfr0
      have : r0 = parent := (Option.some.inj hfr0).symm
      rw [this, hself] at hr0p
      exact absurd hr0p (by simp)
    · obtain ⟨d, hd⟩ := isDepth_exists (treeInv_visits hInv hfp)
      obtain ⟨dq, hdq, hde⟩ := isDepth_parent hInv hfp hpr hself hd
      have := isDepth_unique hd hdq
      omega
  have hIUid : (insertedUpdatedOf parent slot
      (createNode newId newType (some parentId) label)).id = newId := by
    rw [insertedUpdatedOf_id, createNode_id]
  have hIUch : (insertedUpdatedOf parent slot
      (createNode newId newType (some parentId) label)).children = [c] :=
    insertedUpdatedOf_splice_children hex hce newId newType (some parentId) label hnend
  have hIUpar : (insertedUpdatedOf parent slot
      (createNode newId newType (some parentId) label)).parentId = some parentId := by
    rw [insertedUpdatedOf_parentId, createNode_parentId]
  have hIUty : (insertedUpdatedOf parent slot
      (createNode newId newType (some parentId) label)).type = newType := by
    rw [insertedUpdatedOf_type, createNode_type]
  have htrc : truthyStr (some c) = true := by
    simpa [truthyStr, bne_iff_ne] using hce
  have hchar : ∀ x, (addResult wf parent parentId slot newType label newId).find x =
      if x = c then some { cn with parentId := some newId }
      else if x = newId then
        some (insertedUpdatedOf parent slot (createNode newId newType (some parentId) label))
      else if x = parentId then some (setOutgoingChildId parent slot (some newId))
      else wf.find x := by
    intro x
    show assocFind (addResult wf parent parentId slot newType label newId).nodes x = _
    unfold addResult
    simp only
    rw [hex, hIUid, setOutgoingChildId_id, invNode_id hInvP, reparentIn_assocFind]
    simp only [Option.getD_some]
    have hfcM : assocFind (mapSet (mapSet wf.nodes parentId
        (setOutgoingChildId parent slot (some newId))) newId
        (insertedUpdatedOf parent slot (createNode newId newType (some parentId) label)))
        c = some cn := by
      rw [assocFind_mapSet, if_neg hc_new, assocFind_mapSet, if_neg hc_pid]
      exact hfc
    by_cases hxc : x = c
    · rw [hxc, if_pos rfl, if_pos ⟨htrc, rfl, by rw [hfcM]; rfl⟩, hfcM]
      rfl
    · rw [if_neg (fun h => hxc h.2.1), if_neg hxc, assocFind_mapSet, assocFind_mapSet]
      rfl
  have hup_mem : ∀ x, x ∈ (setOutgoingChildId parent slot (some newId)).children ↔
      (x = newId ∨ (x ∈ parent.children ∧ x ≠ c)) := by
    intro x
    rw [setOut_children_iff hInvP slot (some newId) (Or.inr ⟨newId, rfl, hnewne⟩) x, hex]
    constructor
    · rintro (⟨v, hv, _, rfl⟩ | ⟨hm, hne⟩)
      · exact Or.inl (Option.some.inj hv).symm
      · exact Or.inr ⟨hm, fun he => hne (by rw [he])⟩
    · rintro (rfl | ⟨hm, hne⟩)
      · exact Or.inl ⟨x, rfl, hnewne, rfl⟩
      · exact Or.inr ⟨hm, fun he => hne (Option.some.inj he).symm⟩
  have hnd2 : ((addResult wf parent parentId slot newType label newId).nodes.map
      (fun p => p.1)).Nodup := by
    unfold addResult
    simp only
    unfold reparentIn
    split
    · split
      · exact nodup_keys_mapSet _ _ _ (nodup_keys_mapSet _ _ _ (nodup_keys_mapSet _ _ _ hnd))
      · exact nodup_keys_mapSet _ _ _ (nodup_keys_mapSet _ _ _ hnd)
    · exact nodup_keys_mapSet _ _ _ (nodup_keys_mapSet _ _ _ hnd)
  have hfpar2 : (addResult wf parent parentId slot newType label newId).find parentId =
      some (setOutgoingChildId parent slot (some newId)) := by
    rw [hchar parentId, if_neg (Ne.symm hc_pid), if_neg hpid_new, if_pos rfl]
  have hfnew2 : (addResult wf parent parentId slot newType label newId).find newId =
      some (insertedUpdatedOf parent slot (createNode newId newType (some parentId) label)) := by
    rw [hchar newId, if_neg (Ne.symm hc_new), if_pos rfl]
  have hfc2 : (addResult wf parent parentId slot newType label newId).find c =
      some { cn with parentId := some newId } := by
    rw [hchar c, if_pos rfl]
  have hsurvok : ∀ k x, childOk wf k x → x ≠ c →
      childOk (addResult wf parent parentId slot newType label newId) k x := by
    intro k x hok hxc
    obtain ⟨hxe, hxr, hxp⟩ := hok
    refine ⟨hxe, hxr, ?_⟩
    rw [hchar x, if_neg hxc]
    obtain ⟨xn, hfx, hxp2⟩ := Option.map_eq_some'.mp hxp
    have hxnew : x ≠ newId := by
      intro he
      rw [he, hfresh] at hfx
      exact absurd hfx (by simp)
    rw [if_neg hxnew]
    by_cases hxpid : x = parentId
    · rw [if_pos hxpid]
      simp only [Option.map_some']
      rw [setOutgoingChildId_parentId]
      rw [hxpid, hfp] at hfx
      have hxn : xn = parent := (Option.some.inj hfx).symm
      rw [← hxn, hxp2]
    · rw [if_neg hxpid]
      exact hxp
  have hedge : ∀ q nq x, wf.find q = some nq → x ∈ nq.children →
      ¬(q = parentId ∧ x = c) →
      ∃ nq2, (addResult wf parent parentId slot newType label newId).find q = some nq2 ∧
        x ∈ nq2.children := by
    intro q nq x hfq hxq hno
    have hqnew : q ≠ newId := by
      intro he
      rw [he, hfresh] at hfq
      exact absurd hfq (by simp)
    rw [hchar q]
    by_cases hqc : q = c
    · rw [if_pos hqc]
      have hnq : nq = cn := by
        rw [hqc, hfc] at hfq
        exact (Option.some.inj hfq).symm
      exact ⟨_, rfl, hnq ▸ hxq⟩
    · rw [if_neg hqc, if_neg hqnew]
      by_cases hqpid : q = parentId
      · rw [if_pos hqpid]
        have hnq : nq = parent := by
          rw [hqpid, hfp] at hfq
          exact (Option.some.inj hfq).symm
        exact ⟨_, rfl, (hup_mem x).mpr (Or.inr ⟨hnq ▸ hxq, fun he => hno ⟨hqpid, he⟩⟩)⟩
      · rw [if_neg hqpid]
        exact ⟨nq, hfq, hxq⟩
  have htrans : ∀ d x nx, wf.find x = some nx → IsDepth wf x d →
      Visits (addResult wf parent parentId slot newType label newId) wf.rootId x := by
    intro d
    induction d using Nat.strong_induction_on with
    | _ d ih =>
      intro x nx hfx hdx
      by_cases hxr : x = wf.rootId
      · rw [hxr]
        exact Visits.self hrootne
      · obtain ⟨qx, nqx, hqx, hqxne, hfqx, hmemx⟩ :=
          invNode_parent (treeInv_invNode hInv hfx) hxr
        obtain ⟨dq, hdq, hde⟩ := isDepth_parent hInv hfx hxr hqx hdx
        have hxne : x ≠ "" := (invNode_child (treeInv_invNode hInv hfqx) hmemx).1
        have hqvis := ih dq (by omega) qx nqx hfqx hdq
        by_cases hqc : qx = parentId ∧ x = c
        · have hparvis : Visits (addResult wf parent parentId slot newType label newId)
              wf.rootId parentId := hqc.1 ▸ hqvis
          have hnv : Visits (addResult wf parent parentId slot newType label newId)
              wf.rootId newId :=
            Visits.step hparvis hfpar2 ((hup_mem newId).mpr (Or.inl rfl)) hnewne
          rw [hqc.2]
          exact Visits.step hnv hfnew2 (by rw [hIUch]; simp) hce
        · obtain ⟨nq2, hfq2, hxq2⟩ := hedge qx nqx x hfqx hmemx hqc
          exact Visits.step hqvis hfq2 hxq2 hxne
  have hparvis : Visits (addResult wf parent parentId slot newType label newId)
      wf.rootId parentId := by
    obtain ⟨d, hd⟩ := isDepth_exists (treeInv_visits hInv hfp)
    exact htrans d parentId parent hfp hd
  have hnewvis : Visits (addResult wf parent parentId slot newType label newId)
      wf.rootId newId :=
    Visits.step hparvis hfpar2 ((hup_mem newId).mpr (Or.inl rfl)) hnewne
  have hreach2 : ∀ k nk, wf.find k = some nk →
      k ∈ collectSubtreeIds (addResult wf parent parentId slot newType label newId)
        (addResult wf parent parentId slot newType label newId).rootId := by
    intro k nk hfk
    obtain ⟨d, hd⟩ := isDepth_exists (treeInv_visits hInv hfk)
    exact (mem_collect_iff_visits hnd2).mpr (htrans d k nk hfk hd)
  refine ⟨hnd2, hrootne, ?_, ?_⟩
  · show ((addResult wf parent parentId slot newType label newId).find wf.rootId).map
        (fun r => (r.parentId, r.type)) = some (none, NodeType.start)
    rw [hchar wf.rootId, if_neg (Ne.symm hcroot), if_neg hroot_new]
    by_cases hrpid : wf.rootId = parentId
    · rw [if_pos hrpid]
      have hroot4 := hInv.2.2.1
      rw [hrpid, hfp] at hroot4
      simp only [Option.map_some'] at hroot4 ⊢
      rw [setOutgoingChildId_parentId, setOutgoingChildId_type]
      exact hroot4
    · rw [if_neg hrpid]
      exact hInv.2.2.1
  · intro p hp
    obtain ⟨k, n⟩ := p
    show InvNode (addResult wf parent parentId slot newType label newId) k n
    have hfind2 : (addResult wf parent parentId slot newType label newId).find k = some n :=
      mem_nodup_assocFind hnd2 hp
    rw [hchar k] at hfind2
    by_cases hkc : k = c
    · rw [if_pos hkc] at hfind2
      have hn : n = { cn with parentId := some newId } := (Option.some.inj hfind2).symm
      rw [hkc, hn]
      refine ⟨?_, ?_, ?_, ?_, ?_, ?_, ?_, ?_⟩
      · show cn.id = c
        exact invNode_id hInvC
      · intro x hx
        have hx2 : x ∈ cn.children := hx
        have hxc : x ≠ c := by
          intro he
          obtain ⟨_, _, xn, hfx, hxp⟩ := invNode_child hInvC hx2
          rw [he, hfc] at hfx
          have : xn = cn := (Option.some.inj hfx).symm
          rw [this, hcp] at hxp
          exact hc_pid (Option.some.inj hxp).symm
        exact hsurvok c x (hInvC.2.1 x hx2) hxc
      · show cn.children.Nodup
        exact invNode_childrenNodup hInvC
      · intro hkr
        refine ⟨by simpa [truthyStr, bne_iff_ne] using hnewne, ?_⟩
        show ((addResult wf parent parentId slot newType label newId).find newId).map
          (fun nq => decide (c ∈ nq.children)) = some true
        rw [hfnew2]
        simp only [Option.map_some']
        rw [decide_eq_true (by rw [hIUch]; simp)]
      · intro hb
        show cn.exits ≠ none ∧ cn.children = branchProjection cn ∧
          exitsTrue cn ≠ some "" ∧ exitsFalse cn ≠ some ""
        exact invNode_branch hInvC hb
      · intro hb
        show cn.children.length ≤ 1
        exact invNode_nonbranch hInvC hb
      · intro hb
        show cn.children = []
        exact invNode_end hInvC hb
      · exact hreach2 c cn hfc
    · rw [if_neg hkc] at hfind2
      by_cases hknew : k = newId
      · rw [if_pos hknew] at hfind2
        have hn : n = insertedUpdatedOf parent slot
            (createNode newId newType (some parentId) label) :=
          (Option.some.inj hfind2).symm
        rw [hknew, hn]
        refine ⟨?_, ?_, ?_, ?_, ?_, ?_, ?_, ?_⟩
        · exact hIUid
        · intro x hx
          rw [hIUch] at hx
          simp at hx
          rw [hx]
          refine ⟨hce, hcroot, ?_⟩
          rw [hfc2]
          simp only [Option.map_some']
        · rw [hIUch]
          simp
        · intro hkr
          refine ⟨?_, ?_⟩
          · rw [hIUpar]
            simpa [truthyStr, bne_iff_ne] using hpe
          · rw [hIUpar]
            simp only [Option.getD_some]
            rw [hfpar2]
            simp only [Option.map_some']
            rw [decide_eq_true ((hup_mem newId).mpr (Or.inl rfl))]
        · intro hb
          have hty : newType = NodeType.branch := by
            rw [hIUty] at hb
            exact hb
          subst hty
          have hexits := insertedUpdatedOf_splice_exits hex hce newId (some parentId) label
          refine ⟨?_, ?_, ?_, ?_⟩
          · rw [hexits]
            simp
          · rw [hIUch]
            unfold branchProjection exitsTrue exitsFalse
            rw [hexits]
            simp [truthyList, hce]
          · unfold exitsTrue
            rw [hexits]
            intro he
            exact hce (Option.some.inj he)
          · unfold exitsFalse
            rw [hexits]
            simp
        · intro hb
          rw [hIUch]
          simp
        · intro hb
          exfalso
          rw [hIUty] at hb
          exact hnend hb
        · exact (mem_collect_iff_visits hnd2).mpr hnewvis
      · rw [if_neg hknew] at hfind2
        by_cases hkpid : k = parentId
        · rw [if_pos hkpid] at hfind2
          have hn : n = setOutgoingChildId parent slot (some newId) :=
            (Option.some.inj hfind2).symm
          rw [hkpid, hn]
          refine ⟨?_, ?_, ?_, ?_, ?_, ?_, ?_, ?_⟩
          · rw [setOutgoingChildId_id]
            exact invNode_id hInvP
          · intro x hx
            rcases (hup_mem x).mp hx with hxnew | ⟨hm, hxc⟩
            · rw [hxnew]
              refine ⟨hnewne, Ne.symm hroot_new, ?_⟩
              rw [hfnew2]
              simp only [Option.map_some']
              rw [hIUpar]
            · exact hsurvok parentId x (hInvP.2.1 x hm) hxc
          · exact setOut_children_nodup hInvP _ _ (by
              intro v hv hmem
              have hv2 : v = newId := (Option.some.inj hv).symm
              obtain ⟨_, _, vn, hfv, _⟩ := invNode_child hInvP hmem
              rw [hv2, hfresh] at hfv
              exact absurd hfv (by simp))
          · intro hkr
            have hkr2 : parentId ≠ wf.rootId := hkr
            obtain ⟨q, nq, hq, hqne, hfq, hmemq⟩ := invNode_parent hInvP hkr2
            obtain ⟨nq2, hfq2, hk2⟩ := hedge q nq parentId hfq hmemq
              (fun h => hc_pid h.2.symm)
            refine ⟨?_, ?_⟩
            · rw [setOutgoingChildId_parentId, hq]
              simpa [truthyStr, bne_iff_ne] using hqne
            · rw [setOutgoingChildId_parentId, hq]
              simp only [Option.getD_some]
              rw [hfq2]
              simp only [Option.map_some']
              rw [decide_eq_true hk2]
          · intro hb
            have hb2 : parent.type = NodeType.branch := by
              rw [setOutgoingChildId_type] at hb
              exact hb
            obtain ⟨hex0, hproj0, hte0, hfe0⟩ := invNode_branch hInvP hb2
            obtain ⟨hexx, hte, hfe⟩ := setOut_branch_exits parent slot (some newId) hb2
              (by intro he; exact hnewne (Option.some.inj he))
              hte0 hfe0
            exact ⟨hexx, nodeProj_setOutgoingChildId parent slot (some newId) hb, hte, hfe⟩
          · intro hb
            have hb2 : parent.type ≠ NodeType.branch := by
              rw [setOutgoingChildId_type] at hb
              exact hb
            exact setOut_nonbranch_len parent _ _ hb2
          · intro hb
            exfalso
            rw [setOutgoingChildId_type] at hb
            exact hpend hb
          · exact hreach2 parentId parent hfp
        · rw [if_neg hkpid] at hfind2
          have hInvK := treeInv_invNode hInv hfind2
          refine ⟨?_, ?_, ?_, ?_, ?_, ?_, ?_, ?_⟩
          · exact invNode_id hInvK
          · intro x hx
            have hxc : x ≠ c := by
              intro he
              obtain ⟨_, _, xn, hfx, hxp⟩ := invNode_child hInvK hx
              rw [he, hfc] at hfx
              have : xn = cn := (Option.some.inj hfx).symm
              rw [this, hcp] at hxp
              exact hkpid (Option.some.inj hxp).symm
            exact hsurvok k x (hInvK.2.1 x hx) hxc
          · exact invNode_childrenNodup hInvK
          · intro hkr
            obtain ⟨q, nq, hq, hqne, hfq, hmemq⟩ := invNode_parent hInvK hkr
            obtain ⟨nq2, hfq2, hk2⟩ := hedge q nq k hfq hmemq
              (fun h => hkc h.2)
            refine ⟨?_, ?_⟩
            · rw [hq]
              simpa [truthyStr, bne_iff_ne] using hqne
            · rw [hq]
              simp only [Option.getD_some]
              rw [hfq2]
              simp only [Option.map_some']
              rw [decide_eq_true hk2]
          · intro hb
            exact invNode_branch hInvK hb
          · intro hb
            exact invNode_nonbranch hInvK hb
          · intro hb
            exact invNode_end hInvK hb
          · exact hreach2 k n hfind2

lemma addNode_preserves {wf : Workflow} {parentId : String} {slot : ConnectionSlot}
    {tyOpt : Option NodeType} {label : Option String} {newId : String}
    (hInv : TreeInv wf)
    (hfresh : wf.find newId = none) (hnewne : newId ≠ "")
    (hok : ∀ ty parent, tyOpt = some ty → wf.find parentId = some parent →
      ty = NodeType.«end» → getOutgoingChildId parent slot = none) :
    TreeInv (workflowReducer wf (.addNode parentId slot tyOpt label newId)) := by
  cases hr : workflowReducerR wf (.addNode parentId slot tyOpt label newId) with
  | none =>
    rw [workflowReducer_eq_of_none hr]
    exact hInv
  | some w =>
    rw [workflowReducer_eq_of_some hr]
    simp only [workflowReducerR] at hr
    by_cases h1 : parentId = ""
    · rw [if_pos h1] at hr
      exact absurd hr (by simp)
    rw [if_neg h1] at hr
    cases tyOpt with
    | none => exact absurd hr (by simp)
    | some ty =>
      simp only at hr
      cases hf : wf.find parentId with
      | none =>
        rw [hf] at hr
        exact absurd hr (by simp)
      | some parent =>
        rw [hf] at hr
        simp only at hr
        by_cases h2 : parent.type = NodeType.«end»
        · rw [if_pos h2] at hr
          exact absurd hr (by simp)
        rw [if_neg h2] at hr
        have hw : w = addResult wf parent parentId slot ty label newId :=
          (Option.some.inj hr).symm
        rw [hw]
        rcases getOut_shape (treeInv_invNode hInv hf) slot with hex | ⟨c, hex, hce, hcmem⟩
        · exact add_core_fresh hInv hf h1 h2 hfresh hnewne hex
        · by_cases hend : ty = NodeType.«end»
          · rw [hok ty parent rfl hf hend] at hex
            exact absurd hex (by simp)
          · exact add_core_splice hInv hf h1 h2 hfresh hnewne hex hend

/-- Whether a request is one of the spec's Insert/Delete operations. -/
def isInsertDelete : WfAction → Bool
  | .addNode _ _ _ _ _ => true
  | .deleteNode _ => true
  | _ => false

/-- Side conditions on one step of the amended tree invariant: the generated
id is fresh and nonempty, and an `end` node is never inserted over an
existing child (the latent orphan case). -/
def stepOk (wf : Workflow) : WfAction → Bool
  | .addNode parentId slot tyOpt _ newId =>
      (newId != "") && (wf.find newId).isNone &&
      (match tyOpt, wf.find parentId with
       | some NodeType.«end», some parent => (getOutgoingChildId parent slot).isNone
       | _, _ => true)
  | _ => true

/-- A sequence of Insert/Delete requests whose every step satisfies `stepOk`
in the workflow it is applied to. -/
def okSeq (wf : Workflow) : List WfAction → Bool
  | [] => true
  | a :: rest => isInsertDelete a && stepOk wf a && okSeq (workflowReducer wf a) rest

lemma stepOk_addNode {wf : Workflow} {parentId : String} {slot : ConnectionSlot}
    {tyOpt : Option NodeType} {label : Option String} {newId : String}
    (h : stepOk wf (.addNode parentId slot tyOpt label newId) = true) :
    newId ≠ "" ∧ wf.find newId = none ∧
      (∀ ty parent, tyOpt = some ty → wf.find parentId = some parent →
        ty = NodeType.«end» → getOutgoingChildId parent slot = none) := by
  unfold stepOk at h
  simp only [Bool.and_eq_true] at h
  obtain ⟨⟨hne, hfresh⟩, hmatch⟩ := h
  refine ⟨by simpa using hne, Option.isNone_iff_eq_none.mp hfresh, ?_⟩
  intro ty parent hty hfp hend
  rw [hty, hfp, hend] at hmatch
  simp only at hmatch
  exact Option.isNone_iff_eq_none.mp hmatch

lemma okSeq_preserves : ∀ (acts : List WfAction) (wf : Workflow), TreeInv wf →
    okSeq wf acts = true → TreeInv (applyActions wf acts) := by
  intro acts
  induction acts with
  | nil =>
    intro wf hInv _
    exact hInv
  | cons a rest ih =>
    intro wf hInv h
    unfold okSeq at h
    simp only [Bool.and_eq_true] at h
    obtain ⟨⟨hid, hok⟩, hrest⟩ := h
    have hInv2 : TreeInv (workflowReducer wf a) := by
      cases a with
      | addNode parentId slot tyOpt label newId =>
        obtain ⟨hne, hfresh, hok3⟩ := stepOk_addNode hok
        exact addNode_preserves hInv hfresh hne hok3
      | deleteNode nid => exact deleteNode_preserves hInv
      | updateNodeLabel nodeId label => simp [isInsertDelete] at hid
      | undo => simp [isInsertDelete] at hid
      | redo => simp [isInsertDelete] at hid
      | other => simp [isInsertDelete] at hid
    exact ih (workflowReducer wf a) hInv2 hrest

lemma treeInv_initial {sid : String} (h : sid ≠ "") :
    TreeInv (createInitialWorkflow sid) := by
  have hroot : (createInitialWorkflow sid).rootId = sid := by
    show (createNode sid NodeType.start none (some "Start")).id = sid
    exact createNode_id _ _ _ _
  have hfind : ∀ x, (createInitialWorkflow sid).find x =
      if x = sid then some (createNode sid NodeType.start none (some "Start"))
      else none := by
    intro x
    show assocFind [((createNode sid NodeType.start none (some "Start")).id,
      createNode sid NodeType.start none (some "Start"))] x = _
    rw [createNode_id]
    unfold assocFind
    simp only [List.find?]
    by_cases hx : x = sid
    · rw [if_pos hx]
      have : ((sid, createNode sid NodeType.start none (some "Start")).1 == x) = true := by
        simp [hx]
      rw [this]
      rfl
    · rw [if_neg hx]
      have : ((sid, createNode sid NodeType.start none (some "Start")).1 == x) = false := by
        simp
        exact fun he => hx he.symm
      rw [this]
      rfl
  have hnd2 : ((createInitialWorkflow sid).nodes.map (fun p => p.1)).Nodup := by
    show ([((createNode sid NodeType.start none (some "Start")).id, _)].map
      (fun p => p.1)).Nodup
    simp
  refine ⟨hnd2, ?_, ?_, ?_⟩
  · rw [hroot]
    exact h
  · rw [hroot, hfind sid, if_pos rfl]
    simp only [Option.map_some']
    rw [createNode_parentId, createNode_type]
  · intro p hp
    have hp2 : p = ((createNode sid NodeType.start none (some "Start")).id,
        createNode sid NodeType.start none (some "Start")) := by
      have : p ∈ [((createNode sid NodeType.start none (some "Start")).id,
        createNode sid NodeType.start none (some "Start"))] := hp
      simpa using this
    rw [hp2, createNode_id]
    refine ⟨?_, ?_, ?_, ?_, ?_, ?_, ?_, ?_⟩
    · exact createNode_id _ _ _ _
    · intro c hc
      rw [createNode_children] at hc
      simp at hc
    · rw [createNode_children]
      simp
    · intro hkr
      exfalso
      rw [hroot] at hkr
      exact hkr rfl
    · intro hb
      rw [createNode_type] at hb
      exact absurd hb (by simp)
    · intro hb
      rw [createNode_children]
      simp
    · intro hb
      exact createNode_children _ _ _ _
    · rw [hroot]
      exact (mem_collect_iff_visits hnd2).mpr (Visits.self h)

/-- The fixed Insert sequence (action insert, then an `end` insert in front of
it) used to refute C1 as stated. -/
def c1SeqBad : List WfAction :=
  [WfAction.addNode "s" none (some NodeType.action) none "a",
   WfAction.addNode "s" none (some NodeType.«end») none "e"]

/-- C1 counterexample: after Insert(action "a" under "s") followed by
Insert(end "e" under "s"), the node "a" is still present in the nodes map but
is not reachable from `rootId` by following `children` — the claimed
invariant fails on exactly the end-insert-over-an-existing-child case the
claim says it must cover. -/
theorem claim_C1_counterexample :
    ((applyActions (createInitialWorkflow "s") c1SeqBad).find "a").isSome = true ∧
    "a" ∉ collectSubtreeIds (applyActions (createInitialWorkflow "s") c1SeqBad)
      (applyActions (createInitialWorkflow "s") c1SeqBad).rootId := by
  decide

/-- C1 (amended): starting from the initial single-start workflow (nonempty
generated id), after any sequence of Insert/Delete operations in which each
Insert uses a fresh nonempty generated id and no Insert places an `end` node
in front of an existing child, every node present in the nodes map is
reachable from `rootId` by following `children`, and no id appears as a child
of two distinct nodes. -/
theorem claim_C1_amended (sid : String) (acts : List WfAction) (hsid : sid ≠ "")
    (hok : okSeq (createInitialWorkflow sid) acts = true) :
    (∀ p ∈ (applyActions (createInitialWorkflow sid) acts).nodes,
        p.1 ∈ collectSubtreeIds (applyActions (createInitialWorkflow sid) acts)
          (applyActions (createInitialWorkflow sid) acts).rootId) ∧
    (∀ b b' k nb nb',
        (applyActions (createInitialWorkflow sid) acts).find b = some nb →
        k ∈ nb.children →
        (applyActions (createInitialWorkflow sid) acts).find b' = some nb' →
        k ∈ nb'.children → b = b') := by
  have hInv := okSeq_preserves acts _ (treeInv_initial hsid) hok
  constructor
  · intro p hp
    exact invNode_reach (hInv.2.2.2 p hp)
  · intro b b' k nb nb' hfb hk hfb' hk'
    exact treeInv_parent_unique hInv hfb hk hfb' hk'

/-- Witness for `claim_C1_amended`: the hypotheses hold for the concrete
sequence Insert(action "a"), Insert(branch "b"), Delete("a") from the initial
workflow with start id "s", and the theorem applies. -/
theorem claim_C1_witness :
    (("s" : String) ≠ "" ∧
      okSeq (createInitialWorkflow "s")
        [WfAction.addNode "s" none (some NodeType.action) none "a",
         WfAction.addNode "a" none (some NodeType.branch) none "b",
         WfAction.deleteNode "a"] = true) ∧
    ((∀ p ∈ (applyActions (createInitialWorkflow "s")
        [WfAction.addNode "s" none (some NodeType.action) none "a",
         WfAction.addNode "a" none (some NodeType.branch) none "b",
         WfAction.deleteNode "a"]).nodes,
        p.1 ∈ collectSubtreeIds (applyActions (createInitialWorkflow "s")
          [WfAction.addNode "s" none (some NodeType.action) none "a",
           WfAction.addNode "a" none (some NodeType.branch) none "b",
           WfAction.deleteNode "a"])
          (applyActions (createInitialWorkflow "s")
            [WfAction.addNode "s" none (some NodeType.action) none "a",
             WfAction.addNode "a" none (some NodeType.branch) none "b",
             WfAction.deleteNode "a"]).rootId) ∧
      (∀ b b' k nb nb',
          (applyActions (createInitialWorkflow "s")
            [WfAction.addNode "s" none (some NodeType.action) none "a",
             WfAction.addNode "a" none (some NodeType.branch) none "b",
             WfAction.deleteNode "a"]).find b = some nb →
          k ∈ nb.children →
          (applyActions (createInitialWorkflow "s")
            [WfAction.addNode "s" none (some NodeType.action) none "a",
             WfAction.addNode "a" none (some NodeType.branch) none "b",
             WfAction.deleteNode "a"]).find b' = some nb' →
          k ∈ nb'.children → b = b')) :=
  ⟨⟨by decide, by decide⟩,
    claim_C1_amended "s" _ (by decide) (by decide)⟩

lemma deleteResult_find_deleted (wf : Workflow) (nid : String) (node pn : Node)
    {x : String} (hx : x ∈ idsToDelete wf nid node) :
    (deleteResult wf nid node pn).find x = none := by
  show assocFind (deleteResult wf nid node pn).nodes x = none
  unfold deleteResult
  simp only
  rw [assocFind_removeIds, if_pos hx]

/-- C3: under the structural tree invariant, after DELETE_NODE every node
remaining in the map is reachable from `rootId`; no remaining node's
`parentId`, `children` entry, or (for branch nodes) exit names an id absent
from the map; and on the accepted path the deleted node together with the
whole subtree rooted at each non-promoted orphan root is removed. -/
theorem claim_C3 (wf : Workflow) (nid : String) (hInv : TreeInv wf) :
    (∀ p ∈ (workflowReducer wf (.deleteNode nid)).nodes,
        p.1 ∈ collectSubtreeIds (workflowReducer wf (.deleteNode nid))
          (workflowReducer wf (.deleteNode nid)).rootId) ∧
    (∀ p ∈ (workflowReducer wf (.deleteNode nid)).nodes,
        (∀ q, p.2.parentId = some q →
          (((workflowReducer wf (.deleteNode nid)).find q).isSome = true ∨ q = "")) ∧
        (∀ c ∈ p.2.children,
          ((workflowReducer wf (.deleteNode nid)).find c).isSome = true) ∧
        (p.2.type = NodeType.branch →
          (∀ v, exitsTrue p.2 = some v → v ≠ "" →
            ((workflowReducer wf (.deleteNode nid)).find v).isSome = true) ∧
          (∀ v, exitsFalse p.2 = some v → v ≠ "" →
            ((workflowReducer wf (.deleteNode nid)).find v).isSome = true))) ∧
    (∀ w node, wf.find nid = some node →
        workflowReducerR wf (.deleteNode nid) = some w →
        ∀ x ∈ idsToDelete wf nid node, w.find x = none) := by
  have hInv2 : TreeInv (workflowReducer wf (.deleteNode nid)) := deleteNode_preserves hInv
  refine ⟨?_, ?_, ?_⟩
  · intro p hp
    exact invNode_reach (hInv2.2.2.2 p hp)
  · intro p hp
    have hNode := hInv2.2.2.2 p hp
    refine ⟨?_, ?_, ?_⟩
    · intro q hq
      by_cases hqr : p.1 = (workflowReducer wf (.deleteNode nid)).rootId
      · obtain ⟨r0, hfr0, hr0p, _⟩ := treeInv_root hInv2
        have hfind2 : (workflowReducer wf (.deleteNode nid)).find p.1 = some p.2 :=
          mem_nodup_assocFind hInv2.1 (by
            have : (p.1, p.2) = p := rfl
            rw [this]
            exact hp)
        rw [hqr, hfr0] at hfind2
        have : r0 = p.2 := Option.some.inj hfind2
        rw [← this, hr0p] at hq
        exact absurd hq (by simp)
      · obtain ⟨q2, nq2, hq2, hq2ne, hfq2, _⟩ := invNode_parent hNode hqr
        rw [hq2] at hq
        have : q2 = q := Option.some.inj hq
        left
        rw [← this, hfq2]
        rfl
    · intro c hc
      obtain ⟨_, _, cn, hfc, _⟩ := invNode_child hNode hc
      rw [hfc]
      rfl
    · intro hb
      obtain ⟨hex, hproj, hte, hfe⟩ := invNode_branch hNode hb
      constructor
      · intro v hv hvne
        have hvmem : v ∈ p.2.children := by
          rw [hproj]
          unfold branchProjection
          rw [mem_truthyList_pair]
          exact Or.inl ⟨hv, hvne⟩
        obtain ⟨_, _, vn, hfv, _⟩ := invNode_child hNode hvmem
        rw [hfv]
        rfl
      · intro v hv hvne
        have hvmem : v ∈ p.2.children := by
          rw [hproj]
          unfold branchProjection
          rw [mem_truthyList_pair]
          exact Or.inr ⟨hv, hvne⟩
        obtain ⟨_, _, vn, hfv, _⟩ := invNode_child hNode hvmem
        rw [hfv]
        rfl
  · intro w node hfind hr
    simp only [workflowReducerR] at hr
    by_cases h1 : nid = ""
    · rw [if_pos h1] at hr
      exact absurd hr (by simp)
    rw [if_neg h1, hfind] at hr
    simp only at hr
    by_cases h2 : nid = wf.rootId ∨ node.type = NodeType.start
    · rw [if_pos h2] at hr
      exact absurd hr (by simp)
    rw [if_neg h2] at hr
    by_cases h3 : truthyStr node.parentId = true
    · rw [if_pos h3] at hr
      obtain ⟨pid0, hpid0, hpidne0⟩ := truthyStr_true_iff.mp h3
      rw [hpid0] at hr
      simp only [Option.getD_some] at hr
      cases hfp : wf.find pid0 with
      | none =>
        rw [hfp] at hr
        exact absurd hr (by simp)
      | some pn =>
        rw [hfp] at hr
        simp only at hr
        have hw : w = deleteResult wf nid node pn := (Option.some.inj hr).symm
        rw [hw]
        intro x hx
        exact deleteResult_find_deleted wf nid node pn hx
    · rw [if_neg h3] at hr
      exact absurd hr (by simp)

/-- A two-node workflow start→action used as concrete input for witnesses. -/
def sampleWf : Workflow :=
  { nodes :=
      [("s", { id := "s", type := NodeType.start, label := "Start", parentId := none, children := ["a"], exits := none }),
       ("a", { id := "a", type := NodeType.action, label := "A", parentId := some "s", children := [], exits := none })],
    rootId := "s" }

/-- Witness for `claim_C3`: the invariant holds for the concrete workflow
start→action and the theorem applies to deleting the action node. -/
theorem claim_C3_witness :
    TreeInv sampleWf ∧
    (∀ p ∈ (workflowReducer sampleWf (.deleteNode "a")).nodes,
        p.1 ∈ collectSubtreeIds (workflowReducer sampleWf (.deleteNode "a"))
          (workflowReducer sampleWf (.deleteNode "a")).rootId) :=
  ⟨by decide, (claim_C3 sampleWf "a" (by decide)).1⟩

/-- C7: DELETE_NODE promotes exactly one successor: for a branch node the
true exit if present, else the false exit, else none; for any other kind its
sole child (`children.head?`).  Concretely, for a branch with true→X and
false→Y, the accepted delete rewires the parent slot that held the branch to
X, re-points X's `parentId` to the parent, and removes the branch node
together with every node of the subtree rooted at Y. -/
theorem claim_C7 (wf : Workflow) (nid X Y : String) (node : Node)
    (hInv : TreeInv wf) (hfind : wf.find nid = some node)
    (hnroot : nid ≠ wf.rootId) (hb : node.type = NodeType.branch)
    (hX : exitsTrue node = some X) (hY : exitsFalse node = some Y)
    (hXne : X ≠ "") (hYne : Y ≠ "") (hXY : X ≠ Y) :
    (∀ m : Node, m.type = NodeType.branch → truthyStr (exitsTrue m) = true →
        preferredReconnectChildId m = exitsTrue m) ∧
    (∀ m : Node, m.type = NodeType.branch → truthyStr (exitsTrue m) = false →
        truthyStr (exitsFalse m) = true →
        preferredReconnectChildId m = exitsFalse m) ∧
    (∀ m : Node, m.type = NodeType.branch → truthyStr (exitsTrue m) = false →
        truthyStr (exitsFalse m) = false → preferredReconnectChildId m = none) ∧
    (∀ m : Node, m.type ≠ NodeType.branch →
        preferredReconnectChildId m = m.children.head?) ∧
    (∃ pid pn, node.parentId = some pid ∧ wf.find pid = some pn ∧
      workflowReducerR wf (.deleteNode nid) = some (deleteResult wf nid node pn) ∧
      ((deleteResult wf nid node pn).find pid).map
        (fun n2 => getOutgoingChildId n2 (findSlotForChild pn nid)) = some (some X) ∧
      ((deleteResult wf nid node pn).find X).map
        (fun n2 => n2.parentId) = some (some pid) ∧
      (deleteResult wf nid node pn).find nid = none ∧
      (∀ z, Visits wf Y z → (deleteResult wf nid node pn).find z = none)) := by
  have hnd := treeInv_keysNodup hInv
  have hInvN := treeInv_invNode hInv hfind
  obtain ⟨hexx, hproj, hte, hfe⟩ := invNode_branch hInvN hb
  have hXmem : X ∈ node.children := by
    rw [hproj]
    unfold branchProjection
    rw [mem_truthyList_pair]
    exact Or.inl ⟨hX, hXne⟩
  have hYmem : Y ∈ node.children := by
    rw [hproj]
    unfold branchProjection
    rw [mem_truthyList_pair]
    exact Or.inr ⟨hY, hYne⟩
  obtain ⟨q0, nq0, hq0, hq0ne, hfq0, hmem0⟩ := invNode_parent hInvN hnroot
  have hnidne : nid ≠ "" := (invNode_child (treeInv_invNode hInv hfq0) hmem0).1
  have hpref : preferredReconnectChildId node = some X := by
    unfold preferredReconnectChildId jsOrStr
    rw [if_pos hb, if_pos (truthyStr_true_iff.mpr ⟨X, hX, hXne⟩), hX]
  have horph : orphanRoots node = [Y] := by
    unfold orphanRoots
    rw [if_pos hb, if_pos ⟨by rw [hpref, hX], truthyStr_true_iff.mpr ⟨Y, hY, hYne⟩⟩,
      if_neg (by rintro ⟨h1, _⟩; rw [hpref, hY] at h1; exact hXY (Option.some.inj h1)),
      hY]
    rfl
  have hvnid := treeInv_visits hInv hfind
  obtain ⟨dn, hdn⟩ := isDepth_exists hvnid
  obtain ⟨dp, hdp, hdnp⟩ := isDepth_parent hInv hfind hnroot hq0 hdn
  have hdX : IsDepth wf X (dn + 1) := depth_child_succ hInv hfind hXmem hdn
  have hdY : IsDepth wf Y (dn + 1) := depth_child_succ hInv hfind hYmem hdn
  obtain ⟨hXne2, hXroot, Xn, hfX, hXpar⟩ := invNode_child hInvN hXmem
  obtain ⟨hYne2, hYroot, Yn, hfY, hYpar⟩ := invNode_child hInvN hYmem
  have hX_nid : X ≠ nid := ne_of_depth_ne hdX hdn (by omega)
  have hX_pid : X ≠ q0 := ne_of_depth_ne hdX hdp (by omega)
  have hpid_nid : q0 ≠ nid := ne_of_depth_ne hdp hdn (by omega)
  have hY_pid : Y ≠ q0 := ne_of_depth_ne hdY hdp (by omega)
  have hD : ∀ z, z ∈ idsToDelete wf nid node ↔
      (z = nid ∨ z ∈ collectSubtreeIds wf Y) := by
    intro z
    unfold idsToDelete
    rw [horph]
    simp
  have hX_D : X ∉ idsToDelete wf nid node := by
    rw [hD]
    rintro (he | hz)
    · exact hX_nid he
    · exact not_visits_of_depth hInv hfY hdY hdX (fun he => hXY he.symm) (by omega)
        ((mem_collect_iff_visits hnd).mp hz)
  have hpid_D : q0 ∉ idsToDelete wf nid node := by
    rw [hD]
    rintro (he | hz)
    · exact hpid_nid he
    · exact not_visits_of_depth hInv hfY hdY hdp hY_pid (by omega)
        ((mem_collect_iff_visits hnd).mp hz)
  have hupid : (setOutgoingChildId nq0 (findSlotForChild nq0 nid)
      (preferredReconnectChildId node)).id = q0 := by
    rw [setOutgoingChildId_id]
    exact invNode_id (treeInv_invNode hInv hfq0)
  have hfpid2 : (deleteResult wf nid node nq0).find q0 =
      some (setOutgoingChildId nq0 (findSlotForChild nq0 nid)
        (preferredReconnectChildId node)) := by
    show assocFind (deleteResult wf nid node nq0).nodes q0 = _
    unfold deleteResult
    simp only
    rw [assocFind_removeIds, if_neg hpid_D, reparentIn_assocFind, hupid, hpref]
    simp only [Option.getD_some]
    rw [if_neg (by rintro ⟨_, he, _⟩; exact hX_pid he.symm), assocFind_mapSet, if_pos rfl]
  have hfXM : assocFind (mapSet wf.nodes q0 (setOutgoingChildId nq0
      (findSlotForChild nq0 nid) (some X))) X = some Xn := by
    rw [assocFind_mapSet, if_neg hX_pid]
    exact hfX
  have hfX2 : (deleteResult wf nid node nq0).find X =
      some { Xn with parentId := some q0 } := by
    show assocFind (deleteResult wf nid node nq0).nodes X = _
    unfold deleteResult
    simp only
    rw [assocFind_removeIds, if_neg hX_D, reparentIn_assocFind, hupid, hpref]
    simp only [Option.getD_some]
    rw [if_pos ⟨by simpa [truthyStr, bne_iff_ne] using hXne, True.intro,
      by rw [hfXM]; rfl⟩, hfXM]
    rfl
  refine ⟨?_, ?_, ?_, ?_, q0, nq0, hq0, hfq0, ?_, ?_, ?_, ?_, ?_⟩
  · intro m hb2 ht
    unfold preferredReconnectChildId jsOrStr
    rw [if_pos hb2, if_pos ht]
  · intro m hb2 ht hf
    unfold preferredReconnectChildId jsOrStr
    rw [if_pos hb2, if_neg (by simp [ht]), if_pos hf]
  · intro m hb2 ht hf
    unfold preferredReconnectChildId jsOrStr
    rw [if_pos hb2, if_neg (by simp [ht]), if_neg (by simp [hf])]
  · intro m hb2
    unfold preferredReconnectChildId
    rw [if_neg hb2]
  · exact deleteNode_spec wf nid node nq0 hnidne hfind
      (by rintro (he | he)
          · exact hnroot he
          · rw [hb] at he
            exact absurd he (by simp))
      (by rw [hq0]; simpa [truthyStr, bne_iff_ne] using hq0ne)
      (by rw [hq0]; exact hfq0)
  · rw [hfpid2]
    simp only [Option.map_some']
    rw [getOutgoing_setOutgoing_opt nq0 (findSlotForChild nq0 nid)
      (preferredReconnectChildId node) (Or.inr ⟨X, hpref, hXne⟩), hpref]
  · rw [hfX2]
    simp only [Option.map_some']
  · exact deleteResult_find_deleted wf nid node nq0 ((hD nid).mpr (Or.inl rfl))
  · intro z hz
    exact deleteResult_find_deleted wf nid node nq0
      ((hD z).mpr (Or.inr ((mem_collect_iff_visits hnd).mpr hz)))

/-- The start→branch(x,y) workflow used as concrete input for the C7 witness. -/
def sampleBranchWf : Workflow :=
  { nodes :=
      [("s", { id := "s", type := NodeType.start, label := "Start", parentId := none, children := ["b"], exits := none }),
       ("b", { id := "b", type := NodeType.branch, label := "B", parentId := some "s", children := ["x", "y"], exits := some ⟨some "x", some "y"⟩ }),
       ("x", { id := "x", type := NodeType.action, label := "X", parentId := some "b", children := [], exits := none }),
       ("y", { id := "y", type := NodeType.action, label := "Y", parentId := some "b", children := [], exits := none })],
    rootId := "s" }

/-- The branch node of `sampleBranchWf`. -/
def sampleBranchNode : Node :=
  { id := "b", type := NodeType.branch, label := "B", parentId := some "s",
    children := ["x", "y"], exits := some ⟨some "x", some "y"⟩ }

/-- Witness for `claim_C7`: every hypothesis holds for deleting the branch of
`sampleBranchWf`, and the theorem applies. -/
theorem claim_C7_witness :
    (TreeInv sampleBranchWf ∧
      sampleBranchWf.find "b" = some sampleBranchNode ∧
      ("b" : String) ≠ sampleBranchWf.rootId ∧
      sampleBranchNode.type = NodeType.branch ∧
      exitsTrue sampleBranchNode = some "x" ∧
      exitsFalse sampleBranchNode = some "y") ∧
    (∃ pid pn, sampleBranchNode.parentId = some pid ∧
      sampleBranchWf.find pid = some pn ∧
      workflowReducerR sampleBranchWf (.deleteNode "b") =
        some (deleteResult sampleBranchWf "b" sampleBranchNode pn) ∧
      ((deleteResult sampleBranchWf "b" sampleBranchNode pn).find pid).map
        (fun n2 => getOutgoingChildId n2 (findSlotForChild pn "b")) =
          some (some "x") ∧
      ((deleteResult sampleBranchWf "b" sampleBranchNode pn).find "x").map
        (fun n2 => n2.parentId) = some (some pid) ∧
      (deleteResult sampleBranchWf "b" sampleBranchNode pn).find "b" = none ∧
      (∀ z, Visits sampleBranchWf "y" z →
        (deleteResult sampleBranchWf "b" sampleBranchNode pn).find z = none)) :=
  ⟨⟨by decide, by decide, by decide, by decide, by decide, by decide⟩,
    (claim_C7 sampleBranchWf "b" "x" "y" sampleBranchNode (by decide) (by decide)
      (by decide) (by decide) (by decide) (by decide) (by decide) (by decide)
      (by decide)).2.2.2.2⟩
